import Mathlib

/-!
TinyRenderer: a verification development.

Shallow embedding of the software rasterisation pipeline of the three
assignments (`CGAssignment1`, `CGAssignment2`, `CGAssignment3`).

Conventions of the embedding:

* C++ `int` is `Int`; `%` on `int` is truncated remainder, `Int.tmod`.
* C++ `float` arithmetic is modelled twice. The definitions over `ℚ` compute
  exactly: every theorem about them is a theorem over exact arithmetic. The
  definitions over `F32` (names ending in `F`) compute in IEEE binary32, each
  operation rounded to nearest; they show where rounding changes a result.
* `glm` matrices are column-major: `m[c][r]` is column `c`, row `r`.
* Reads from a raw byte buffer are fallible (`Option`).
-/

set_option autoImplicit false
set_option linter.unusedVariables false

namespace TinyRenderer

/-! ## Texture (`CGAssignment3/src/TRTexture2D.cpp`) -/

/-- The wrap mode of a texture. `TR_OTHER` stands for any enumerator value
other than the two named ones: it takes the `default` branch of each `switch`. -/
inductive TRTextureWarpMode where
  | TR_REPEAT
  | TR_CLAMP_TO_EDGE
  | TR_OTHER
  deriving DecidableEq

/-- The fields of `TRTexture2D` that `readPixel` uses. -/
structure TRTexture2D where
  m_width : Int
  m_height : Int
  m_channel : Int
  m_pixels : List Nat
  m_warp_mode : TRTextureWarpMode
  deriving DecidableEq

/-- The four channels `readPixel` hands back through its reference parameters. -/
structure Texel where
  r : Nat
  g : Nat
  b : Nat
  a : Nat
  deriving DecidableEq

/-- The out-of-range handling of one coordinate in `readPixel`
(lines 53-67 for `u` with `m_width`, lines 69-83 for `v` with `m_height`). -/
def wrapCoord (mode : TRTextureWarpMode) (dim : Int) (u : Int) : Int :=
  if u < 0 ∨ u ≥ dim then
    match mode with
    | TRTextureWarpMode.TR_REPEAT =>
        if u > 0 then u.tmod dim else dim - 1 + u.tmod dim
    | TRTextureWarpMode.TR_CLAMP_TO_EDGE =>
        if u < 0 then 0 else dim - 1
    | TRTextureWarpMode.TR_OTHER =>
        if u < 0 then 0 else dim - 1
  else u

/-- The pair `(u, v)` as it stands after the out-of-range block of `readPixel`. -/
def readPixelCoords (t : TRTexture2D) (u v : Int) : Int × Int :=
  (wrapCoord t.m_warp_mode t.m_width u, wrapCoord t.m_warp_mode t.m_height v)

/-- The value of `index` in `readPixel` (line 86). -/
def readPixelIndex (t : TRTexture2D) (u v : Int) : Int :=
  let c := readPixelCoords t u v
  (c.2 * t.m_height + c.1) * t.m_channel

/-- Reading `m_pixels[i]`: defined only inside the buffer. -/
def byteAt (pixels : List Nat) (i : Int) : Option Nat :=
  if i < 0 then none else pixels[i.toNat]?

/-- The method `TRTexture2D::readPixel(u, v, r, g, b, a)`; `a` is the value the caller's
alpha variable holds on entry, kept when the texture has fewer than 4 channels. -/
def readPixel (t : TRTexture2D) (u v : Int) (a : Nat) : Option Texel :=
  let index := readPixelIndex t u v
  match byteAt t.m_pixels (index + 0), byteAt t.m_pixels (index + 1),
        byteAt t.m_pixels (index + 2) with
  | some r, some g, some b =>
      if t.m_channel ≥ 4 then
        match byteAt t.m_pixels (index + 3) with
        | some a1 => some ⟨r, g, b, a1⟩
        | none => none
      else some ⟨r, g, b, a⟩
  | _, _, _ => none

/-- The texel stored at column `u` of row `v` of the `m_width` x `m_height`
grid: the bytes at offset `(v * m_width + u) * m_channel` of the raw data. -/
def gridTexel (t : TRTexture2D) (u v : Int) (a : Nat) : Option Texel :=
  let off := (v * t.m_width + u) * t.m_channel
  match byteAt t.m_pixels (off + 0), byteAt t.m_pixels (off + 1),
        byteAt t.m_pixels (off + 2) with
  | some r, some g, some b =>
      if t.m_channel ≥ 4 then
        match byteAt t.m_pixels (off + 3) with
        | some a1 => some ⟨r, g, b, a1⟩
        | none => none
      else some ⟨r, g, b, a⟩
  | _, _, _ => none

/-- A 2 x 2 RGB texture in repeat mode, with four different pixels. -/
def tex2x2 : TRTexture2D :=
  { m_width := 2, m_height := 2, m_channel := 3,
    m_pixels := [10, 11, 12, 20, 21, 22, 30, 31, 32, 40, 41, 42],
    m_warp_mode := TRTextureWarpMode.TR_REPEAT }

/-- A 3 x 2 RGB texture (three columns, two rows), with six different pixels. -/
def tex3x2 : TRTexture2D :=
  { m_width := 3, m_height := 2, m_channel := 3,
    m_pixels := [10, 11, 12, 20, 21, 22, 30, 31, 32,
                 40, 41, 42, 50, 51, 52, 60, 61, 62],
    m_warp_mode := TRTextureWarpMode.TR_CLAMP_TO_EDGE }

/-! ## Vectors (`glm::vec2`, `glm::vec3`, `glm::vec4`, `glm::ivec2`, `glm::mat4`) -/

/-- The type `glm::vec2`, over exact arithmetic. -/
@[ext] structure Vec2 where
  x : ℚ
  y : ℚ
  deriving DecidableEq

/-- The type `glm::vec3`, over exact arithmetic. -/
@[ext] structure Vec3 where
  x : ℚ
  y : ℚ
  z : ℚ
  deriving DecidableEq

/-- The type `glm::vec4`, over exact arithmetic. -/
@[ext] structure Vec4 where
  x : ℚ
  y : ℚ
  z : ℚ
  w : ℚ
  deriving DecidableEq

/-- The type `glm::ivec2`. -/
@[ext] structure IVec2 where
  x : Int
  y : Int
  deriving DecidableEq

/-- Scalar times vector, `k * v`. -/
def Vec2.scale (k : ℚ) (v : Vec2) : Vec2 := ⟨k * v.x, k * v.y⟩

/-- Vector sum. -/
def Vec2.add (a b : Vec2) : Vec2 := ⟨a.x + b.x, a.y + b.y⟩

/-- Scalar times vector, `k * v`. -/
def Vec3.scale (k : ℚ) (v : Vec3) : Vec3 := ⟨k * v.x, k * v.y, k * v.z⟩

/-- Vector sum. -/
def Vec3.add (a b : Vec3) : Vec3 := ⟨a.x + b.x, a.y + b.y, a.z + b.z⟩

/-- Vector difference. -/
def Vec3.sub (a b : Vec3) : Vec3 := ⟨a.x - b.x, a.y - b.y, a.z - b.z⟩

/-- The function `glm::dot` on `vec3`. -/
def Vec3.dot (a b : Vec3) : ℚ := a.x * b.x + a.y * b.y + a.z * b.z

/-- The function `glm::cross`. -/
def Vec3.cross (a b : Vec3) : Vec3 :=
  ⟨a.y * b.z - b.y * a.z, a.z * b.x - b.z * a.x, a.x * b.y - b.x * a.y⟩

/-- Scalar times vector, `k * v`. -/
def Vec4.scale (k : ℚ) (v : Vec4) : Vec4 := ⟨k * v.x, k * v.y, k * v.z, k * v.w⟩

/-- Vector sum. -/
def Vec4.add (a b : Vec4) : Vec4 := ⟨a.x + b.x, a.y + b.y, a.z + b.z, a.w + b.w⟩

/-- A `glm::mat4`, stored by columns: `m[c]` is the field `c`-th column, and
`m[c][r]` its `r`-th component. -/
@[ext] structure Mat4 where
  c0 : Vec4
  c1 : Vec4
  c2 : Vec4
  c3 : Vec4
  deriving DecidableEq

/-- The matrix `glm::mat4(1.0f)`. -/
def Mat4.identity : Mat4 :=
  ⟨⟨1, 0, 0, 0⟩, ⟨0, 1, 0, 0⟩, ⟨0, 0, 1, 0⟩, ⟨0, 0, 0, 1⟩⟩

/-- Matrix times column vector, `m * v`. -/
def Mat4.mulVec (m : Mat4) (v : Vec4) : Vec4 :=
  ⟨m.c0.x * v.x + m.c1.x * v.y + m.c2.x * v.z + m.c3.x * v.w,
   m.c0.y * v.x + m.c1.y * v.y + m.c2.y * v.z + m.c3.y * v.w,
   m.c0.z * v.x + m.c1.z * v.y + m.c2.z * v.z + m.c3.z * v.w,
   m.c0.w * v.x + m.c1.w * v.y + m.c2.w * v.z + m.c3.w * v.w⟩

/-- Conversion of a `float` to `int`: truncation toward zero. -/
def truncToInt (q : ℚ) : Int := if 0 ≤ q then ⌊q⌋ else ⌈q⌉

/-! ## Vertex data (`CGAssignment2/src/TRShaderPipeline.cpp`) -/

/-- The record `TRShaderPipeline::VertexData`. -/
@[ext] structure VertexData where
  pos : Vec4
  col : Vec3
  nor : Vec3
  tex : Vec2
  cpos : Vec4
  spos : IVec2
  deriving DecidableEq

/-- The function `VertexData::lerp(v0, v1, frac)` over exact arithmetic: no operation
rounds, and the conversion of `spos` to `float` and back is exact. The binary32
version is `VertexDataF.lerp`. -/
def VertexData.lerp (v0 v1 : VertexData) (frac : ℚ) : VertexData :=
  { pos := Vec4.add (Vec4.scale (1 - frac) v0.pos) (Vec4.scale frac v1.pos)
    col := Vec3.add (Vec3.scale (1 - frac) v0.col) (Vec3.scale frac v1.col)
    nor := Vec3.add (Vec3.scale (1 - frac) v0.nor) (Vec3.scale frac v1.nor)
    tex := Vec2.add (Vec2.scale (1 - frac) v0.tex) (Vec2.scale frac v1.tex)
    cpos := Vec4.add (Vec4.scale (1 - frac) v0.cpos) (Vec4.scale frac v1.cpos)
    spos := ⟨truncToInt ((1 - frac) * (v0.spos.x : ℚ) + frac * (v1.spos.x : ℚ)),
             truncToInt ((1 - frac) * (v0.spos.y : ℚ) + frac * (v1.spos.y : ℚ))⟩ }

/-- The function `VertexData::prePerspCorrection(v)`, returning the updated `v`. -/
def VertexData.prePerspCorrection (v : VertexData) : VertexData :=
  let posw : ℚ := 1 / v.cpos.w
  { v with
    pos := ⟨v.pos.x * posw, v.pos.y * posw, v.pos.z * posw, posw⟩
    tex := Vec2.scale posw v.tex
    nor := Vec3.scale posw v.nor
    col := Vec3.scale posw v.col }

/-- The function `VertexData::aftPrespCorrection(v)`, returning the updated `v`. -/
def VertexData.aftPrespCorrection (v : VertexData) : VertexData :=
  let w : ℚ := 1 / v.pos.w
  { v with
    pos := Vec4.scale w v.pos
    tex := Vec2.scale w v.tex
    nor := Vec3.scale w v.nor
    col := Vec3.scale w v.col }

/-- The pipeline's interpolation along an edge: `prePerspCorrection` on both
endpoints, `lerp` at screen-space parameter `t`, then `aftPrespCorrection`. -/
def correctedLerp (v0 v1 : VertexData) (t : ℚ) : VertexData :=
  VertexData.aftPrespCorrection
    (VertexData.lerp (VertexData.prePerspCorrection v0) (VertexData.prePerspCorrection v1) t)

/-- The interpolation parameter of true perspective-correct interpolation
between two points with clip-space `w0` and `w1`, at screen-space parameter `t`. -/
def perspParam (w0 w1 t : ℚ) : ℚ := (t / w1) / ((1 - t) / w0 + t / w1)

/-- Two sample vertices with different clip-space `w`. -/
def sampleV0 : VertexData :=
  { pos := ⟨1, 2, 3, 1⟩, col := ⟨1, 0, 0⟩, nor := ⟨0, 0, 1⟩, tex := ⟨0, 0⟩,
    cpos := ⟨1, 2, 3, 2⟩, spos := ⟨3, 4⟩ }

/-- The second sample vertex. -/
def sampleV1 : VertexData :=
  { pos := ⟨5, 6, 7, 1⟩, col := ⟨0, 1, 0⟩, nor := ⟨0, 1, 0⟩, tex := ⟨1, 1⟩,
    cpos := ⟨2, 1, 0, 4⟩, spos := ⟨-7, 9⟩ }

/-! ## Homogeneous clipping (`CGAssignment2/src/TRRenderer.cpp`) -/

/-- The function `TRRenderer::Inside(x, y, z, w, p)`: the point `p` is on the inner
side of the plane `(x, y, z, w)`, boundary included. -/
def Inside (x y z w : ℚ) (p : Vec4) : Bool :=
  decide (x * p.x + y * p.y + z * p.z + w * p.w ≥ 0)

/-- The function `TRRenderer::PointInside(lines, p)`. -/
def PointInside (lines : List Vec4) (p : Vec4) : Bool :=
  lines.foldl (fun flag line => flag && Inside line.x line.y line.z line.w p) true

/-- The free function `Intersect(v1, v2, line)` over exact arithmetic (the binary32
version is `IntersectF`). The quotient `da / (da - db)` is only meaningful for
`da ≠ db`, which holds at both call sites in `cliping` (one endpoint is `Inside`,
the other is not). -/
def Intersect (v1 v2 : VertexData) (line : Vec4) : VertexData :=
  let da : ℚ := v1.cpos.x * line.x + v1.cpos.y * line.y + v1.cpos.z * line.z + line.w * v1.cpos.w
  let db : ℚ := v2.cpos.x * line.x + v2.cpos.y * line.y + v2.cpos.z * line.z + line.w * v2.cpos.w
  let weight : ℚ := da / (da - db)
  VertexData.lerp v1 v2 weight

/-- The six planes `ViewLines` of `cliping`: near, far, left, right, top, bottom. -/
def ViewLines : List Vec4 :=
  [⟨0, 0, 1, 1⟩, ⟨0, 0, -1, 1⟩, ⟨1, 0, 0, 1⟩, ⟨-1, 0, 0, 1⟩, ⟨0, -1, 0, 1⟩, ⟨0, 1, 0, 1⟩]

/-- One iteration of the inner loop of `cliping` (lines 298-310): `j` is the loop
index, `output` the vector built so far. -/
def clipStep (line : Vec4) (input : List VertexData) (output : List VertexData) (j : Nat) :
    List VertexData :=
  match input[j]?, input[(j + input.length - 1) % input.length]? with
  | some current, some last =>
      if Inside line.x line.y line.z line.w current.cpos then
        if !Inside line.x line.y line.z line.w last.cpos then
          (output ++ [Intersect last current line]) ++ [current]
        else output ++ [current]
      else if Inside line.x line.y line.z line.w last.cpos then
        output ++ [Intersect last current line]
      else output
  | _, _ => output

/-- One iteration of the outer loop of `cliping` (lines 295-311): the polygon
`input` clipped against one plane. -/
def clipAgainst (line : Vec4) (input : List VertexData) : List VertexData :=
  (List.range input.length).foldl (clipStep line input) []

/-- The outer loop of `cliping` (lines 294-312) over the planes `lines`. -/
def clipLoop (lines : List Vec4) (output : List VertexData) : List VertexData :=
  lines.foldl (fun out line => clipAgainst line out) output

/-- The function `TRRenderer::cliping(v0, v1, v2)`. -/
def cliping (v0 v1 v2 : VertexData) : List VertexData :=
  let output := [v0, v1, v2]
  if PointInside ViewLines v0.cpos && PointInside ViewLines v1.cpos
      && PointInside ViewLines v2.cpos then
    output
  else
    clipLoop ViewLines output

/-- The half-space value `plane . p` of a point `p` for a plane. -/
def planeDot (line p : Vec4) : ℚ :=
  line.x * p.x + line.y * p.y + line.z * p.z + line.w * p.w

/-- A vertex whose attributes are all zero except the clip-space position. -/
def vertexAt (cpos : Vec4) : VertexData :=
  { pos := ⟨0, 0, 0, 1⟩, col := ⟨0, 0, 0⟩, nor := ⟨0, 0, 0⟩, tex := ⟨0, 0⟩,
    cpos := cpos, spos := ⟨0, 0⟩ }

/-! ## Depth test (`CGAssignment2/src/TRRenderer.cpp`, `renderAllDrawableMeshes`) -/

/-- Modelled from the spec: the class `TRFrameBuffer`, whose source is not part of
the repository files at hand. The spec says it "owns a color plane and a depth
plane" and "supports clear, per-pixel read/write". The colour plane holds, for
each pixel, the colour last handed to `writeColor`. -/
structure TRFrameBuffer where
  color : Int → Int → Vec4
  depth : Int → Int → ℚ

/-- Modelled from the spec: `TRFrameBuffer::readDepth(x, y)`, a per-pixel read. -/
def TRFrameBuffer.readDepth (fb : TRFrameBuffer) (x y : Int) : ℚ := fb.depth x y

/-- Modelled from the spec: reading the colour plane at one pixel. -/
def TRFrameBuffer.readColor (fb : TRFrameBuffer) (x y : Int) : Vec4 := fb.color x y

/-- Modelled from the spec: `TRFrameBuffer::writeDepth(x, y, d)`, a per-pixel write. -/
def TRFrameBuffer.writeDepth (fb : TRFrameBuffer) (x y : Int) (d : ℚ) : TRFrameBuffer :=
  { fb with depth := fun i j => if i = x ∧ j = y then d else fb.depth i j }

/-- Modelled from the spec: `TRFrameBuffer::writeColor(x, y, c)`, a per-pixel write. -/
def TRFrameBuffer.writeColor (fb : TRFrameBuffer) (x y : Int) (c : Vec4) : TRFrameBuffer :=
  { fb with color := fun i j => if i = x ∧ j = y then c else fb.color i j }

/-- The body of the fragment loop of `renderAllDrawableMeshes` (lines 193-201) for
one fragment `points`; `fragmentShader` is the virtual method of the shader in use. -/
def depthTestStep (fragmentShader : VertexData → Vec4) (fb : TRFrameBuffer)
    (points : VertexData) : TRFrameBuffer :=
  if points.cpos.z < fb.readDepth points.spos.x points.spos.y then
    let points1 := VertexData.aftPrespCorrection points
    let fragColor := fragmentShader points1
    (fb.writeColor points1.spos.x points1.spos.y fragColor).writeDepth
      points1.spos.x points1.spos.y points1.cpos.z
  else fb

/-- The fragment loop of `renderAllDrawableMeshes` (lines 188-202). -/
def depthTestLoop (fragmentShader : VertexData → Vec4) (fb : TRFrameBuffer)
    (rasterized_points : List VertexData) : TRFrameBuffer :=
  rasterized_points.foldl (depthTestStep fragmentShader) fb

/-- The method `TRDefaultShaderPipeline::fragmentShader`. -/
def defaultFragmentShader (data : VertexData) : Vec4 := ⟨data.tex.x, data.tex.y, 0, 1⟩

/-- A frame buffer cleared to black, with every depth at the far value 1. -/
def clearedBuffer : TRFrameBuffer :=
  { color := fun _ _ => ⟨0, 0, 0, 1⟩, depth := fun _ _ => 1 }

/-- A fragment at pixel (3, 4) with depth 1/4. -/
def fragNear : VertexData :=
  { pos := ⟨1, 2, 3, 1 / 2⟩, col := ⟨1, 0, 0⟩, nor := ⟨0, 0, 1⟩, tex := ⟨1 / 2, 1 / 4⟩,
    cpos := ⟨0, 0, 1 / 4, 1⟩, spos := ⟨3, 4⟩ }

/-- A fragment at pixel (3, 4) with depth 1/2. -/
def fragFar : VertexData :=
  { pos := ⟨5, 6, 7, 1 / 4⟩, col := ⟨0, 1, 0⟩, nor := ⟨0, 1, 0⟩, tex := ⟨1 / 8, 1 / 8⟩,
    cpos := ⟨0, 0, 1 / 2, 1⟩, spos := ⟨3, 4⟩ }

/-! ## Camera matrices -/

namespace Assignment1

/-- The function `TRRenderer::calcPerspProjectMatrix` of `CGAssignment1`; `tanf` is
the library tangent and `M_PI` the library constant. The matrix starts as
`glm::mat4(1.0f)` and five entries are assigned: `[0][0]`, `[1][1]`, `[2][2]`,
`[2][3]` and `[3][2]`; every other entry keeps its value of the identity. -/
def calcPerspProjectMatrix (tanf : ℚ → ℚ) (M_PI : ℚ) (fovy aspect near far : ℚ) : Mat4 :=
  let rFovy : ℚ := fovy * M_PI / 180
  let tanHalfFovy : ℚ := tanf (rFovy * (1 / 2))
  let pMat := Mat4.identity
  { c0 := ⟨1 / (aspect * tanHalfFovy), pMat.c0.y, pMat.c0.z, pMat.c0.w⟩
    c1 := ⟨pMat.c1.x, 1 / tanHalfFovy, pMat.c1.z, pMat.c1.w⟩
    c2 := ⟨pMat.c2.x, pMat.c2.y, -(far + near) / (far - near), -1⟩
    c3 := ⟨pMat.c3.x, pMat.c3.y, (-2 * near * far) / (far - near), pMat.c3.w⟩ }

end Assignment1

namespace Assignment2

end Assignment2

/-! ## Rasterisation (`CGAssignment2/src/TRShaderPipeline.cpp`) -/

/-- The function `VertexData::barycentricLerp(v0, v1, v2, w)`. -/
def VertexData.barycentricLerp (v0 v1 v2 : VertexData) (w : Vec3) : VertexData :=
  { pos := Vec4.add (Vec4.add (Vec4.scale w.x v0.pos) (Vec4.scale w.y v1.pos))
      (Vec4.scale w.z v2.pos)
    col := Vec3.add (Vec3.add (Vec3.scale w.x v0.col) (Vec3.scale w.y v1.col))
      (Vec3.scale w.z v2.col)
    nor := Vec3.add (Vec3.add (Vec3.scale w.x v0.nor) (Vec3.scale w.y v1.nor))
      (Vec3.scale w.z v2.nor)
    tex := Vec2.add (Vec2.add (Vec2.scale w.x v0.tex) (Vec2.scale w.y v1.tex))
      (Vec2.scale w.z v2.tex)
    cpos := Vec4.add (Vec4.add (Vec4.scale w.x v0.cpos) (Vec4.scale w.y v1.cpos))
      (Vec4.scale w.z v2.cpos)
    spos := ⟨truncToInt (w.x * (v0.spos.x : ℚ) + w.y * (v1.spos.x : ℚ) + w.z * (v2.spos.x : ℚ)),
             truncToInt (w.x * (v0.spos.y : ℚ) + w.y * (v1.spos.y : ℚ) + w.z * (v2.spos.y : ℚ))⟩ }

/-- Conversion of an `int` to `unsigned int` (32 bits), as the comparison of an
`int` with an `unsigned int` performs it. -/
def toUnsigned (x : Int) : Nat := (x % 4294967296).toNat

/-- The loop variables of `rasterize_wire_aux` that change from one iteration to
the next, together with the output vector. -/
structure WireState where
  sx : Int
  sy : Int
  p : Int
  rasterized_points : List VertexData

/-- One iteration of the loop of the branch `dy <= dx` (lines 196-211); `i` is the
loop counter. -/
def wireStepX (vfrom vto : VertexData) (dx stepX stepY d2y d2y_minus_d2x : Int)
    (screen_width screen_height : Nat) (st : WireState) (i : Nat) : WireState :=
  let tmp := VertexData.lerp vfrom vto ((i : ℚ) / (dx : ℚ))
  let sx := st.sx + stepX
  let sy := if st.p ≤ 0 then st.sy else st.sy + stepY
  let p := if st.p ≤ 0 then st.p + d2y else st.p + d2y_minus_d2x
  let tmp1 : VertexData := { tmp with spos := ⟨sx, sy⟩ }
  if toUnsigned tmp1.spos.x < screen_width ∧ toUnsigned tmp1.spos.y < screen_height then
    ⟨sx, sy, p, st.rasterized_points ++ [tmp1]⟩
  else ⟨sx, sy, p, st.rasterized_points⟩

/-- One iteration of the loop of the branch `dy > dx` (lines 220-235); `i` is the
loop counter. -/
def wireStepY (vfrom vto : VertexData) (dy stepX stepY d2x d2y_minus_d2x : Int)
    (screen_width screen_height : Nat) (st : WireState) (i : Nat) : WireState :=
  let tmp := VertexData.lerp vfrom vto ((i : ℚ) / (dy : ℚ))
  let sy := st.sy + stepY
  let sx := if st.p ≤ 0 then st.sx else st.sx + stepX
  let p := if st.p ≤ 0 then st.p + d2x else st.p - d2y_minus_d2x
  let tmp1 : VertexData := { tmp with spos := ⟨sx, sy⟩ }
  if toUnsigned tmp1.spos.x < screen_width ∧ toUnsigned tmp1.spos.y < screen_height then
    ⟨sx, sy, p, st.rasterized_points ++ [tmp1]⟩
  else ⟨sx, sy, p, st.rasterized_points⟩

/-- The function `TRShaderPipeline::rasterize_wire_aux(from, to, screen_width,
screen_height, rasterized_points)`, returning the updated `rasterized_points`.
The `int` arithmetic is modelled without overflow. -/
def rasterize_wire_aux (vfrom vto : VertexData) (screen_width screen_height : Nat)
    (rasterized_points : List VertexData) : List VertexData :=
  let dx0 : Int := vto.spos.x - vfrom.spos.x
  let dy0 : Int := vto.spos.y - vfrom.spos.y
  let stepX : Int := if dx0 < 0 then -1 else 1
  let dx : Int := if dx0 < 0 then -dx0 else dx0
  let stepY : Int := if dy0 < 0 then -1 else 1
  let dy : Int := if dy0 < 0 then -dy0 else dy0
  let d2x : Int := 2 * dx
  let d2y : Int := 2 * dy
  let d2y_minus_d2x : Int := d2y - d2x
  let sx : Int := vfrom.spos.x
  let sy : Int := vfrom.spos.y
  let looped : WireState :=
    if dy ≤ dx then
      (List.range (dx + 1).toNat).foldl
        (wireStepX vfrom vto dx stepX stepY d2y d2y_minus_d2x screen_width screen_height)
        ⟨sx, sy, d2y - dx, rasterized_points⟩
    else
      (List.range (dy + 1).toNat).foldl
        (wireStepY vfrom vto dy stepX stepY d2x d2y_minus_d2x screen_width screen_height)
        ⟨sx, sy, d2x - dy, rasterized_points⟩
  (looped.rasterized_points ++ [vfrom]) ++ [vto]

/-- The function `TRShaderPipeline::InsideTriangle(v0, v1, v2, p)` over exact
arithmetic; the binary32 version is `InsideTriangleF`. -/
def InsideTriangle (v0 v1 v2 : IVec2) (p : Vec2) : Bool :=
  let e0 : Vec3 := ⟨((v1.x - v0.x : Int) : ℚ), ((v1.y - v0.y : Int) : ℚ), 1⟩
  let e1 : Vec3 := ⟨((v2.x - v1.x : Int) : ℚ), ((v2.y - v1.y : Int) : ℚ), 1⟩
  let e2 : Vec3 := ⟨((v0.x - v2.x : Int) : ℚ), ((v0.y - v2.y : Int) : ℚ), 1⟩
  let point : Vec3 := ⟨p.x, p.y, 1⟩
  let f0 : Bool := decide ((Vec3.cross (Vec3.sub point ⟨(v0.x : ℚ), (v0.y : ℚ), 1⟩) e0).z ≥ 0)
  let f1 : Bool := decide ((Vec3.cross (Vec3.sub point ⟨(v1.x : ℚ), (v1.y : ℚ), 1⟩) e1).z ≥ 0)
  let f2 : Bool := decide ((Vec3.cross (Vec3.sub point ⟨(v2.x : ℚ), (v2.y : ℚ), 1⟩) e2).z ≥ 0)
  (f0 == f1) && (f1 == f2)

/-- The values of `i` (or `j`) of a loop `for (int i = lo; i <= hi; i++)`, in order. -/
def intRange (lo hi : Int) : List Int :=
  (List.range (hi + 1 - lo).toNat).map (fun (k : Nat) => lo + (k : Int))

/-- The bound `minX` of `rasterize_fill_edge_function` (lines 105-109). -/
def fillMinX (v0 v1 v2 : VertexData) : Int := min (min v0.spos.x v1.spos.x) v2.spos.x

/-- The bound `maxX` of `rasterize_fill_edge_function` (lines 105-111). -/
def fillMaxX (v0 v1 v2 : VertexData) : Int := max (max v0.spos.x v1.spos.x) v2.spos.x

/-- The bound `minY` of `rasterize_fill_edge_function` (lines 106-113). -/
def fillMinY (v0 v1 v2 : VertexData) : Int := min (min v0.spos.y v1.spos.y) v2.spos.y

/-- The bound `maxY` of `rasterize_fill_edge_function` (lines 106-115). -/
def fillMaxY (v0 v1 v2 : VertexData) : Int := max (max v0.spos.y v1.spos.y) v2.spos.y

/-- The four sub-samples `tmp_points` of pixel `(i, j)` (lines 119-123). -/
def subSamples (i j : Int) : List Vec2 :=
  [⟨(i : ℚ) - 1 / 4, (j : ℚ) + 1 / 4⟩, ⟨(i : ℚ) - 1 / 4, (j : ℚ) - 1 / 4⟩,
   ⟨(i : ℚ) + 1 / 4, (j : ℚ) + 1 / 4⟩, ⟨(i : ℚ) + 1 / 4, (j : ℚ) - 1 / 4⟩]

/-- The counter `num` of pixel `(i, j)` after the loop over `tmp_points`
(lines 124-129). -/
def numInside (v0 v1 v2 : VertexData) (i j : Int) : Nat :=
  (subSamples i j).foldl
    (fun num tmp_p => if InsideTriangle v0.spos v1.spos v2.spos tmp_p then num + 1 else num) 0

/-- The weight vector `w` of pixel `(i, j)` (lines 131-138). -/
def fillWeights (v0 v1 v2 : VertexData) (i j : Int) : Vec3 :=
  let pot : Vec2 := ⟨(i : ℚ), (j : ℚ)⟩
  let l1 : Vec2 := ⟨((v1.spos.x - v0.spos.x : Int) : ℚ), ((v1.spos.y - v0.spos.y : Int) : ℚ)⟩
  let l2 : Vec2 := ⟨((v2.spos.x - v0.spos.x : Int) : ℚ), ((v2.spos.y - v0.spos.y : Int) : ℚ)⟩
  let l3 : Vec2 := ⟨(v0.spos.x : ℚ) - pot.x, (v0.spos.y : ℚ) - pot.y⟩
  let xvector : Vec3 := ⟨l1.x, l2.x, l3.x⟩
  let yvector : Vec3 := ⟨l1.y, l2.y, l3.y⟩
  let u : Vec3 := Vec3.cross xvector yvector
  ⟨1 - (u.x + u.y) / u.z, u.x / u.z, u.y / u.z⟩

/-- The fragment `tmp` pushed for pixel `(i, j)` when `num > 0` (lines 139-143). -/
def fillFragment (v0 v1 v2 : VertexData) (i j : Int) (num : Nat) : VertexData :=
  let tmp := VertexData.barycentricLerp v0 v1 v2 (fillWeights v0 v1 v2 i j)
  { tmp with
    spos := ⟨i, j⟩
    col := ⟨tmp.col.x / (num : ℚ), tmp.col.y / (num : ℚ), tmp.col.z / (num : ℚ)⟩ }

/-- The body of the two nested loops for pixel `(i, j)` (lines 118-144): the
fragments it pushes. -/
def fillPixel (v0 v1 v2 : VertexData) (i j : Int) : List VertexData :=
  if numInside v0 v1 v2 i j > 0 then [fillFragment v0 v1 v2 i j (numInside v0 v1 v2 i j)]
  else []

/-- The function `TRShaderPipeline::rasterize_fill_edge_function(v0, v1, v2,
screen_width, screene_height, rasterized_points)`, returning the updated
`rasterized_points`: the fragments of the pixels are appended in loop order. -/
def rasterize_fill_edge_function (v0 v1 v2 : VertexData)
    (screen_width screene_height : Nat) (rasterized_points : List VertexData) :
    List VertexData :=
  rasterized_points ++
    (intRange (fillMinX v0 v1 v2) (fillMaxX v0 v1 v2)).flatMap (fun i =>
      (intRange (fillMinY v0 v1 v2) (fillMaxY v0 v1 v2)).flatMap (fun j =>
        fillPixel v0 v1 v2 i j))

/-- A vertex whose attributes are all zero except the screen position. -/
def vertexAtScreen (x y : Int) : VertexData :=
  { pos := ⟨0, 0, 0, 1⟩, col := ⟨0, 0, 0⟩, nor := ⟨0, 0, 0⟩, tex := ⟨0, 0⟩,
    cpos := ⟨0, 0, 0, 1⟩, spos := ⟨x, y⟩ }

/-! ## Back-face culling, viewport and orthographic matrices -/

/-- The components `x`, `y`, `z` of the difference `a - b` of two `vec4`:
`glm::vec3(a - b)`. -/
def Vec4.subXYZ (a b : Vec4) : Vec3 := ⟨a.x - b.x, a.y - b.y, a.z - b.z⟩

namespace Assignment1

/-- The function `TRRenderer::calcViewPortMatrix(width, height)` of `CGAssignment1`:
`width / 2` and `height / 2` are divisions of `int`, converted to `float` afterwards. -/
def calcViewPortMatrix (width height : Int) : Mat4 :=
  { c0 := ⟨((width.tdiv 2 : Int) : ℚ), 0, 0, 0⟩
    c1 := ⟨0, ((height.tdiv 2 : Int) : ℚ), 0, 0⟩
    c2 := ⟨0, 0, 0, 0⟩
    c3 := ⟨((width.tdiv 2 : Int) : ℚ), ((height.tdiv 2 : Int) : ℚ), 0, 1⟩ }

/-- The function `TRRenderer::calcOrthoProjectMatrix` of `CGAssignment1`. The matrix
starts as `glm::mat4(1.0f)` and six entries are assigned: `[0][0]`, `[1][1]`,
`[2][2]`, `[3][0]`, `[3][1]` and `[3][2]`. -/
def calcOrthoProjectMatrix (left right bottom top near far : ℚ) : Mat4 :=
  let pMat := Mat4.identity
  { c0 := ⟨2 / (right - left), pMat.c0.y, pMat.c0.z, pMat.c0.w⟩
    c1 := ⟨pMat.c1.x, 2 / (top - bottom), pMat.c1.z, pMat.c1.w⟩
    c2 := ⟨pMat.c2.x, pMat.c2.y, -2 / (far - near), pMat.c2.w⟩
    c3 := ⟨-(right + left) / (right - left), -(top + bottom) / (top - bottom),
           -(far + near) / (far - near), pMat.c3.w⟩ }

end Assignment1

namespace Assignment2

/-- The function `TRRenderer::isTowardBackFace(v0, v1, v2)` of `CGAssignment2` over
exact arithmetic; the binary32 version is `isTowardBackFaceF`. -/
def isTowardBackFace (v0 v1 v2 : Vec4) : Bool :=
  let e1 : Vec3 := Vec4.subXYZ v1 v0
  let e2 : Vec3 := Vec4.subXYZ v2 v1
  let normal_vector : Vec3 := Vec3.cross e1 e2
  let watch : Vec3 := ⟨0, 0, -1⟩
  let dot_result : ℚ := Vec3.dot normal_vector watch
  decide (dot_result > 0)

/-- The function `TRRenderer::calcViewPortMatrix(width, height)` of `CGAssignment2`;
all sixteen entries are assigned. -/
def calcViewPortMatrix (width height : Int) : Mat4 :=
  let hwidth : ℚ := (width : ℚ) * (1 / 2)
  let hheight : ℚ := (height : ℚ) * (1 / 2)
  { c0 := ⟨hwidth, 0, 0, 0⟩
    c1 := ⟨0, -hheight, 0, 0⟩
    c2 := ⟨0, 0, 1, 0⟩
    c3 := ⟨hwidth, hheight, 0, 0⟩ }

/-- The function `TRRenderer::calcOrthoProjectMatrix` of `CGAssignment2`; all sixteen
entries are assigned, `[3][0]` and `[3][1]` with `0.0f`. -/
def calcOrthoProjectMatrix (left right bottom top near far : ℚ) : Mat4 :=
  { c0 := ⟨2 / (right - left), 0, 0, 0⟩
    c1 := ⟨0, 2 / (top - bottom), 0, 0⟩
    c2 := ⟨0, 0, -2 / (far - near), 0⟩
    c3 := ⟨0, 0, -(far + near) / (far - near), 1⟩ }

end Assignment2

/-- The xy signed area of the triangle `v0 v1 v2` (twice the area), positive for a
counter-clockwise triangle. -/
def signedAreaXY (v0 v1 v2 : Vec4) : ℚ :=
  (v1.x - v0.x) * (v2.y - v0.y) - (v1.y - v0.y) * (v2.x - v0.x)

/-! ## Texture sampling (`CGAssignment3/src/TRTexture2D.cpp`) -/

/-- The pair `(x, y)` that `textureSampling_nearest` passes to `readPixel`
(lines 137-142), over exact arithmetic: the product `u * width` is not rounded
before 1 is subtracted and the result truncated. -/
def nearestCoords (texture : TRTexture2D) (uv : Vec2) : Int × Int :=
  let u : ℚ := uv.x
  let v : ℚ := uv.y
  let width : Int := texture.m_width
  let height : Int := texture.m_height
  (truncToInt (u * (width : ℚ) - 1), truncToInt (v * (height : ℚ) - 1))

/-- The function `TRTexture2DSampler::textureSampling_nearest(texture, uv)`; the
result is undefined (`none`) when `readPixel` reads outside the pixel data. -/
def textureSampling_nearest (texture : TRTexture2D) (uv : Vec2) : Option Vec4 :=
  let c := nearestCoords texture uv
  match readPixel texture c.1 c.2 255 with
  | some t => some (Vec4.scale (1 / 255) ⟨(t.r : ℚ), (t.g : ℚ), (t.b : ℚ), (t.a : ℚ)⟩)
  | none => none

/-! ## Counting the vertices one clipping pass emits -/

/-- The value of `Inside` for the vertex `input[j]` and the plane `line` (false
when `j` is not an index of `input`). -/
def insideAt (line : Vec4) (input : List VertexData) (j : Nat) : Bool :=
  match input[j]? with
  | some v => Inside line.x line.y line.z line.w v.cpos
  | none => false

/-- The number of vertices iteration `j` of the inner loop of `cliping` pushes:
one for a `current` that is inside, plus one when `current` and `last` are on
different sides of the plane. -/
def clipCount (line : Vec4) (input : List VertexData) (j : Nat) : Nat :=
  if insideAt line input j then
    (if insideAt line input ((j + input.length - 1) % input.length) then 1 else 2)
  else (if insideAt line input ((j + input.length - 1) % input.length) then 1 else 0)

/-! ## Filter modes, bilinear sampling and `sample` (`CGAssignment3/src/TRTexture2D.cpp`) -/

/-- The filter mode of a texture. `TR_OTHER_FILTER` stands for any enumerator value
other than the two named ones: it takes the `default` branch of the `switch`. -/
inductive TRTextureFilterMode where
  | TR_NEAREST
  | TR_LINEAR
  | TR_OTHER_FILTER
  deriving DecidableEq

/-- The function `TRTexture2DSampler::textureSampling_bilinear(texture, uv)`: its
four-tap body is commented out and its only statement is
`return textureSampling_nearest(texture, uv);`. -/
def textureSampling_bilinear (texture : TRTexture2D) (uv : Vec2) : Option Vec4 :=
  textureSampling_nearest texture uv

/-- The method `TRTexture2D::sample(uv)`; `m_filtering_mode` is the field of the
texture the method switches on. -/
def sample (texture : TRTexture2D) (m_filtering_mode : TRTextureFilterMode) (uv : Vec2) :
    Option Vec4 :=
  let texel : Vec4 := ⟨1, 1, 1, 1⟩
  match m_filtering_mode with
  | TRTextureFilterMode.TR_NEAREST => textureSampling_nearest texture uv
  | TRTextureFilterMode.TR_LINEAR => textureSampling_bilinear texture uv
  | TRTextureFilterMode.TR_OTHER_FILTER => some texel

/-- A 1 x 2 RGB texture (one column, two rows). -/
def tex1x2 : TRTexture2D :=
  { m_width := 1, m_height := 2, m_channel := 3,
    m_pixels := [10, 11, 12, 20, 21, 22],
    m_warp_mode := TRTextureWarpMode.TR_CLAMP_TO_EDGE }

/-! ## Geometry of a triangle, and the quantities the rasterisers divide by -/

/-- The point `p` lies strictly inside the triangle `v0 v1 v2`: it is a convex
combination of the three vertices with three positive weights. -/
def strictlyInsideTriangle (v0 v1 v2 : IVec2) (p : Vec2) : Prop :=
  ∃ a b c : ℚ, 0 < a ∧ 0 < b ∧ 0 < c ∧ a + b + c = 1 ∧
    p.x = a * (v0.x : ℚ) + b * (v1.x : ℚ) + c * (v2.x : ℚ) ∧
    p.y = a * (v0.y : ℚ) + b * (v1.y : ℚ) + c * (v2.y : ℚ)

/-- The point `p` lies in the closed triangle `v0 v1 v2` (interior, edges and
vertices): it is a convex combination of the three vertices. -/
def inClosedTriangle (v0 v1 v2 : IVec2) (p : Vec2) : Prop :=
  ∃ a b c : ℚ, 0 ≤ a ∧ 0 ≤ b ∧ 0 ≤ c ∧ a + b + c = 1 ∧
    p.x = a * (v0.x : ℚ) + b * (v1.x : ℚ) + c * (v2.x : ℚ) ∧
    p.y = a * (v0.y : ℚ) + b * (v1.y : ℚ) + c * (v2.y : ℚ)

/-- Twice the signed area of the triangle of three integer screen positions; it is
zero exactly when they are collinear. -/
def doubleArea (v0 v1 v2 : IVec2) : Int :=
  (v1.x - v0.x) * (v2.y - v0.y) - (v1.y - v0.y) * (v2.x - v0.x)

/-- The vector `u` of pixel `(i, j)` in `rasterize_fill_edge_function`
(lines 131-137), whose component `u.z` divides in the weights. -/
def fillU (v0 v1 v2 : VertexData) (i j : Int) : Vec3 :=
  let pot : Vec2 := ⟨(i : ℚ), (j : ℚ)⟩
  let l1 : Vec2 := ⟨((v1.spos.x - v0.spos.x : Int) : ℚ), ((v1.spos.y - v0.spos.y : Int) : ℚ)⟩
  let l2 : Vec2 := ⟨((v2.spos.x - v0.spos.x : Int) : ℚ), ((v2.spos.y - v0.spos.y : Int) : ℚ)⟩
  let l3 : Vec2 := ⟨(v0.spos.x : ℚ) - pot.x, (v0.spos.y : ℚ) - pot.y⟩
  let xvector : Vec3 := ⟨l1.x, l2.x, l3.x⟩
  let yvector : Vec3 := ⟨l1.y, l2.y, l3.y⟩
  Vec3.cross xvector yvector

/-- The value of `dx` in `rasterize_wire_aux` after lines 167-176: the absolute
difference of the two `spos.x`. -/
def wireDx (vfrom vto : VertexData) : Int :=
  if vto.spos.x - vfrom.spos.x < 0 then -(vto.spos.x - vfrom.spos.x)
  else vto.spos.x - vfrom.spos.x

/-- The value of `dy` in `rasterize_wire_aux` after lines 168-181: the absolute
difference of the two `spos.y`. -/
def wireDy (vfrom vto : VertexData) : Int :=
  if vto.spos.y - vfrom.spos.y < 0 then -(vto.spos.y - vfrom.spos.y)
  else vto.spos.y - vfrom.spos.y

/-- The major-axis length `rasterize_wire_aux` divides the loop counter by:
`dx` in the branch `dy <= dx` (line 197), `dy` in the other (line 221). -/
def wireDivisor (vfrom vto : VertexData) : Int :=
  if wireDy vfrom vto ≤ wireDx vfrom vto then wireDx vfrom vto else wireDy vfrom vto

/-- The values of the loop counter `i` for which `rasterize_wire_aux` calls `lerp`:
`0, ..., dx` (line 194) or `0, ..., dy` (line 218). -/
def wireCounters (vfrom vto : VertexData) : List Nat :=
  List.range (wireDivisor vfrom vto + 1).toNat

/-- The interpolation parameters `rasterize_wire_aux` passes to `lerp`, in order:
`static_cast<double>(i) / dx`, or `/ dy`, for each value of the loop counter. -/
def wireParams (vfrom vto : VertexData) : List ℚ :=
  (wireCounters vfrom vto).map (fun (i : Nat) => (i : ℚ) / (wireDivisor vfrom vto : ℚ))

/-- The `z` component `InsideTriangle` tests for the directed edge from `a` to `b`:
`cross(point - vec3(a, 1), vec3(b - a, 1)).z`. -/
def edgeCrossZ (a b : IVec2) (p : Vec2) : ℚ :=
  (p.x - (a.x : ℚ)) * ((b.y - a.y : Int) : ℚ) - ((b.x - a.x : Int) : ℚ) * (p.y - (a.y : ℚ))

/-! ## Binary32 arithmetic

The definitions above compute over exact rationals. The definitions of this
section and the next compute as the program does, in `float` (IEEE binary32): a
finite value is a dyadic number `m * 2^e`, and each operation is the exact
operation followed by rounding to nearest, ties to even, to 24 significant bits.
Infinities and NaN are not represented. -/

/-- A finite binary32 value, the dyadic number `m * 2^e`. -/
structure F32 where
  m : Int
  e : Int
  deriving DecidableEq

/-- The rational number a binary32 value stands for. -/
def F32.toRat (x : F32) : ℚ := (x.m : ℚ) * (2 : ℚ) ^ x.e

/-- The number of binary digits of `n`, with `fuel` bounding the number of
halvings; `fuel = n` is always enough. -/
def bitLengthAux : Nat → Nat → Nat
  | 0, _ => 0
  | fuel + 1, n => if n = 0 then 0 else bitLengthAux fuel (n / 2) + 1

/-- The number of binary digits of `n`: 0 for 0, and `k` when `2^(k-1) ≤ n < 2^k`. -/
def bitLength (n : Nat) : Nat := bitLengthAux n n

/-- Rounding of the exact dyadic number `m * 2^e` to binary32: to nearest, ties to
even, with 24 significant bits and exponents from -149 (subnormal numbers) upward.
The number of low bits dropped is `s`; `r` is their value and `half` half a unit
of the last kept place. Overflow to infinity is not represented. -/
def F32.round (m e : Int) : F32 :=
  let n : Nat := m.natAbs
  if n = 0 then ⟨0, 0⟩
  else
    let s : Nat := (max (max ((bitLength n : Int) - 24) (-149 - e)) 0).toNat
    if s = 0 then ⟨m, e⟩
    else
      let q : Nat := n / 2 ^ s
      let r : Nat := n % 2 ^ s
      let half : Nat := 2 ^ (s - 1)
      let q1 : Nat := if r > half ∨ (r = half ∧ q % 2 = 1) then q + 1 else q
      ⟨(if m < 0 then -(q1 : Int) else (q1 : Int)), e + (s : Int)⟩

/-- The binary32 constant `0.0f`. -/
def F32.zero : F32 := ⟨0, 0⟩

/-- The binary32 constant `1.0f`. -/
def F32.one : F32 := ⟨1, 0⟩

/-- Negation, which is exact. -/
def F32.neg (a : F32) : F32 := ⟨-a.m, a.e⟩

/-- The binary32 product `a * b`. -/
def F32.mul (a b : F32) : F32 := F32.round (a.m * b.m) (a.e + b.e)

/-- The binary32 sum `a + b`. -/
def F32.add (a b : F32) : F32 :=
  let e : Int := min a.e b.e
  F32.round (a.m * ((2 ^ (a.e - e).toNat : Nat) : Int)
    + b.m * ((2 ^ (b.e - e).toNat : Nat) : Int)) e

/-- The binary32 difference `a - b`. -/
def F32.sub (a b : F32) : F32 := F32.add a (F32.neg b)

/-- The binary32 quotient `a / b` for `b ≠ 0`: the quotient of the significands is
taken to at least 32 bits, with one more bit that records a non-zero remainder,
and then rounded. For `b = 0` the source yields an infinity or NaN, which is not
represented; the value given here for that case is never used. -/
def F32.div (a b : F32) : F32 :=
  if b.m = 0 then ⟨0, 0⟩
  else
    let k : Nat := bitLength b.m.natAbs + 32
    let num : Nat := a.m.natAbs * 2 ^ k
    let q : Nat := num / b.m.natAbs
    let r : Nat := num % b.m.natAbs
    let n : Int := 2 * (q : Int) + (if r = 0 then 0 else 1)
    let sgn : Int := if (a.m < 0 ∧ 0 < b.m) ∨ (0 < a.m ∧ b.m < 0) then -1 else 1
    F32.round (sgn * n) (a.e - b.e - (k : Int) - 1)

/-- Conversion of an `int` to `float`. -/
def F32.ofInt (n : Int) : F32 := F32.round n 0

/-- Conversion of a `float` to `int`: truncation toward zero. -/
def F32.toInt (x : F32) : Int :=
  if 0 ≤ x.e then x.m * ((2 ^ x.e.toNat : Nat) : Int)
  else Int.tdiv x.m ((2 ^ (-x.e).toNat : Nat) : Int)

/-- The comparison `x >= 0`. -/
def F32.nonneg (x : F32) : Bool := decide (0 ≤ x.m)

/-- The comparison `x > 0`. -/
def F32.pos (x : F32) : Bool := decide (0 < x.m)

/-- The type `glm::vec2` with binary32 components. -/
structure Vec2F where
  x : F32
  y : F32
  deriving DecidableEq

/-- The type `glm::vec3` with binary32 components. -/
structure Vec3F where
  x : F32
  y : F32
  z : F32
  deriving DecidableEq

/-- The type `glm::vec4` with binary32 components. -/
structure Vec4F where
  x : F32
  y : F32
  z : F32
  w : F32
  deriving DecidableEq

/-- The exact value of a binary32 `vec4`. -/
def Vec4F.toRat (v : Vec4F) : Vec4 := ⟨v.x.toRat, v.y.toRat, v.z.toRat, v.w.toRat⟩

/-- The exact value of a binary32 `vec2`. -/
def Vec2F.toRat (v : Vec2F) : Vec2 := ⟨v.x.toRat, v.y.toRat⟩

/-- Scalar times vector, `k * v`, in binary32. -/
def Vec2F.scale (k : F32) (v : Vec2F) : Vec2F := ⟨F32.mul k v.x, F32.mul k v.y⟩

/-- Vector sum in binary32. -/
def Vec2F.add (a b : Vec2F) : Vec2F := ⟨F32.add a.x b.x, F32.add a.y b.y⟩

/-- Scalar times vector, `k * v`, in binary32. -/
def Vec3F.scale (k : F32) (v : Vec3F) : Vec3F := ⟨F32.mul k v.x, F32.mul k v.y, F32.mul k v.z⟩

/-- Vector sum in binary32. -/
def Vec3F.add (a b : Vec3F) : Vec3F := ⟨F32.add a.x b.x, F32.add a.y b.y, F32.add a.z b.z⟩

/-- Vector difference in binary32. -/
def Vec3F.sub (a b : Vec3F) : Vec3F := ⟨F32.sub a.x b.x, F32.sub a.y b.y, F32.sub a.z b.z⟩

/-- The function `glm::dot` on `vec3` in binary32: the three products, summed from
the left. -/
def Vec3F.dot (a b : Vec3F) : F32 :=
  F32.add (F32.add (F32.mul a.x b.x) (F32.mul a.y b.y)) (F32.mul a.z b.z)

/-- The function `glm::cross` in binary32. -/
def Vec3F.cross (a b : Vec3F) : Vec3F :=
  ⟨F32.sub (F32.mul a.y b.z) (F32.mul b.y a.z),
   F32.sub (F32.mul a.z b.x) (F32.mul b.z a.x),
   F32.sub (F32.mul a.x b.y) (F32.mul b.x a.y)⟩

/-- Scalar times vector, `k * v`, in binary32. -/
def Vec4F.scale (k : F32) (v : Vec4F) : Vec4F :=
  ⟨F32.mul k v.x, F32.mul k v.y, F32.mul k v.z, F32.mul k v.w⟩

/-- Vector sum in binary32. -/
def Vec4F.add (a b : Vec4F) : Vec4F :=
  ⟨F32.add a.x b.x, F32.add a.y b.y, F32.add a.z b.z, F32.add a.w b.w⟩

/-- The components `x`, `y`, `z` of the binary32 difference `a - b`: `glm::vec3(a - b)`. -/
def Vec4F.subXYZ (a b : Vec4F) : Vec3F := ⟨F32.sub a.x b.x, F32.sub a.y b.y, F32.sub a.z b.z⟩

/-! ## The program in binary32

The functions of the source that the claims about rounding concern, computed in
binary32, operation by operation as the source writes them. -/

/-- The record `TRShaderPipeline::VertexData` with binary32 attributes. -/
structure VertexDataF where
  pos : Vec4F
  col : Vec3F
  nor : Vec3F
  tex : Vec2F
  cpos : Vec4F
  spos : IVec2
  deriving DecidableEq

/-- The function `VertexData::lerp(v0, v1, frac)` in binary32. The two `spos`
components are converted from `int` to `float`, combined, and converted back. -/
def VertexDataF.lerp (v0 v1 : VertexDataF) (frac : F32) : VertexDataF :=
  { pos := Vec4F.add (Vec4F.scale (F32.sub F32.one frac) v0.pos) (Vec4F.scale frac v1.pos)
    col := Vec3F.add (Vec3F.scale (F32.sub F32.one frac) v0.col) (Vec3F.scale frac v1.col)
    nor := Vec3F.add (Vec3F.scale (F32.sub F32.one frac) v0.nor) (Vec3F.scale frac v1.nor)
    tex := Vec2F.add (Vec2F.scale (F32.sub F32.one frac) v0.tex) (Vec2F.scale frac v1.tex)
    cpos := Vec4F.add (Vec4F.scale (F32.sub F32.one frac) v0.cpos) (Vec4F.scale frac v1.cpos)
    spos := ⟨F32.toInt (F32.add (F32.mul (F32.sub F32.one frac) (F32.ofInt v0.spos.x))
                (F32.mul frac (F32.ofInt v1.spos.x))),
             F32.toInt (F32.add (F32.mul (F32.sub F32.one frac) (F32.ofInt v0.spos.y))
                (F32.mul frac (F32.ofInt v1.spos.y)))⟩ }

/-- The function `TRRenderer::Inside(x, y, z, w, p)` in binary32. -/
def InsideF (x y z w : F32) (p : Vec4F) : Bool :=
  F32.nonneg (F32.add (F32.add (F32.add (F32.mul x p.x) (F32.mul y p.y)) (F32.mul z p.z))
    (F32.mul w p.w))

/-- The function `TRRenderer::PointInside(lines, p)` in binary32. -/
def PointInsideF (lines : List Vec4F) (p : Vec4F) : Bool :=
  lines.foldl (fun flag line => flag && InsideF line.x line.y line.z line.w p) true

/-- The free function `Intersect(v1, v2, line)` in binary32. -/
def IntersectF (v1 v2 : VertexDataF) (line : Vec4F) : VertexDataF :=
  let da : F32 := F32.add (F32.add (F32.add (F32.mul v1.cpos.x line.x) (F32.mul v1.cpos.y line.y))
    (F32.mul v1.cpos.z line.z)) (F32.mul line.w v1.cpos.w)
  let db : F32 := F32.add (F32.add (F32.add (F32.mul v2.cpos.x line.x) (F32.mul v2.cpos.y line.y))
    (F32.mul v2.cpos.z line.z)) (F32.mul line.w v2.cpos.w)
  let weight : F32 := F32.div da (F32.sub da db)
  VertexDataF.lerp v1 v2 weight

/-- The six planes `ViewLines` of `cliping` as binary32 vectors. -/
def ViewLinesF : List Vec4F :=
  [⟨F32.zero, F32.zero, F32.one, F32.one⟩, ⟨F32.zero, F32.zero, F32.neg F32.one, F32.one⟩,
   ⟨F32.one, F32.zero, F32.zero, F32.one⟩, ⟨F32.neg F32.one, F32.zero, F32.zero, F32.one⟩,
   ⟨F32.zero, F32.neg F32.one, F32.zero, F32.one⟩, ⟨F32.zero, F32.one, F32.zero, F32.one⟩]

/-- One iteration of the inner loop of `cliping` (lines 298-310) in binary32. -/
def clipStepF (line : Vec4F) (input : List VertexDataF) (output : List VertexDataF) (j : Nat) :
    List VertexDataF :=
  match input[j]?, input[(j + input.length - 1) % input.length]? with
  | some current, some last =>
      if InsideF line.x line.y line.z line.w current.cpos then
        if !InsideF line.x line.y line.z line.w last.cpos then
          (output ++ [IntersectF last current line]) ++ [current]
        else output ++ [current]
      else if InsideF line.x line.y line.z line.w last.cpos then
        output ++ [IntersectF last current line]
      else output
  | _, _ => output

/-- One iteration of the outer loop of `cliping` (lines 295-311) in binary32. -/
def clipAgainstF (line : Vec4F) (input : List VertexDataF) : List VertexDataF :=
  (List.range input.length).foldl (clipStepF line input) []

/-- The outer loop of `cliping` (lines 294-312) in binary32. -/
def clipLoopF (lines : List Vec4F) (output : List VertexDataF) : List VertexDataF :=
  lines.foldl (fun out line => clipAgainstF line out) output

/-- The function `TRRenderer::cliping(v0, v1, v2)` in binary32. -/
def clipingF (v0 v1 v2 : VertexDataF) : List VertexDataF :=
  let output := [v0, v1, v2]
  if PointInsideF ViewLinesF v0.cpos && PointInsideF ViewLinesF v1.cpos
      && PointInsideF ViewLinesF v2.cpos then
    output
  else
    clipLoopF ViewLinesF output

/-- The function `TRShaderPipeline::InsideTriangle(v0, v1, v2, p)` in binary32: the
differences of the `ivec2` are taken in `int` and converted to `float`. -/
def InsideTriangleF (v0 v1 v2 : IVec2) (p : Vec2F) : Bool :=
  let e0 : Vec3F := ⟨F32.ofInt (v1.x - v0.x), F32.ofInt (v1.y - v0.y), F32.one⟩
  let e1 : Vec3F := ⟨F32.ofInt (v2.x - v1.x), F32.ofInt (v2.y - v1.y), F32.one⟩
  let e2 : Vec3F := ⟨F32.ofInt (v0.x - v2.x), F32.ofInt (v0.y - v2.y), F32.one⟩
  let point : Vec3F := ⟨p.x, p.y, F32.one⟩
  let f0 : Bool := F32.nonneg
    (Vec3F.cross (Vec3F.sub point ⟨F32.ofInt v0.x, F32.ofInt v0.y, F32.one⟩) e0).z
  let f1 : Bool := F32.nonneg
    (Vec3F.cross (Vec3F.sub point ⟨F32.ofInt v1.x, F32.ofInt v1.y, F32.one⟩) e1).z
  let f2 : Bool := F32.nonneg
    (Vec3F.cross (Vec3F.sub point ⟨F32.ofInt v2.x, F32.ofInt v2.y, F32.one⟩) e2).z
  (f0 == f1) && (f1 == f2)

/-- The function `TRRenderer::isTowardBackFace(v0, v1, v2)` of `CGAssignment2` in
binary32. -/
def isTowardBackFaceF (v0 v1 v2 : Vec4F) : Bool :=
  let e1 : Vec3F := Vec4F.subXYZ v1 v0
  let e2 : Vec3F := Vec4F.subXYZ v2 v1
  let normal_vector : Vec3F := Vec3F.cross e1 e2
  let watch : Vec3F := ⟨F32.zero, F32.zero, F32.neg F32.one⟩
  let dot_result : F32 := Vec3F.dot normal_vector watch
  F32.pos dot_result

/-- A binary32 vertex whose attributes are all zero except the clip-space position. -/
def vertexAtF (cpos : Vec4F) : VertexDataF :=
  { pos := ⟨F32.zero, F32.zero, F32.zero, F32.one⟩, col := ⟨F32.zero, F32.zero, F32.zero⟩,
    nor := ⟨F32.zero, F32.zero, F32.zero⟩, tex := ⟨F32.zero, F32.zero⟩,
    cpos := cpos, spos := ⟨0, 0⟩ }

/-- The binary32 value `-(1 + 2^-23)`, the float just below -1. -/
def belowMinusOne : F32 := ⟨-8388609, -23⟩

/-- The first vertex of a triangle below the bottom plane `-w ≤ y`. -/
def lowTriangle0 : VertexDataF := vertexAtF ⟨⟨-2, 0⟩, belowMinusOne, ⟨-2, 0⟩, F32.one⟩

/-- The second vertex of that triangle. -/
def lowTriangle1 : VertexDataF := vertexAtF ⟨⟨-2, 0⟩, belowMinusOne, ⟨-1, 0⟩, F32.one⟩

/-- The third vertex of that triangle. -/
def lowTriangle2 : VertexDataF := vertexAtF ⟨⟨0, 0⟩, belowMinusOne, ⟨2, 0⟩, F32.one⟩

/-- The three NDC positions `(0, 0)`, `(2049/8192, 4097/16384)`,
`(8195/16384, 8193/16384)` (with `z = 0`, `w = 1`) of a thin clockwise triangle. -/
def thinTriangle : Vec4F × Vec4F × Vec4F :=
  (⟨F32.zero, F32.zero, F32.zero, F32.one⟩,
   ⟨⟨2049, -13⟩, ⟨4097, -14⟩, F32.zero, F32.one⟩,
   ⟨⟨8195, -14⟩, ⟨8193, -14⟩, F32.zero, F32.one⟩)

/-- The binary32 point `(1426.25, 2026.75)`. -/
def nearEdgePoint : Vec2F := ⟨⟨5705, -2⟩, ⟨8107, -2⟩⟩

/-! ## The pixels of the filled rasteriser, in either arithmetic -/

/-- The screen positions of the fragments the two nested loops of
`rasterize_fill_edge_function` push (lines 116-145), in loop order: `num i j` is the
counter `num` of pixel `(i, j)`, a fragment is pushed when `num > 0`, and its `spos`
is set to `(i, j)` (lines 140-141). -/
def fillPositionsWith (num : Int → Int → Nat) (minX maxX minY maxY : Int) : List IVec2 :=
  (intRange minX maxX).flatMap (fun i =>
    (intRange minY maxY).flatMap (fun j => if num i j > 0 then [(⟨i, j⟩ : IVec2)] else []))

/-- The four sub-samples `tmp_points` of pixel `(i, j)` in binary32: `i - 0.25` and
the like are computed in `double`, exactly, and converted to `float`, which rounds
the exact value once (and not at all for `|i| < 2^22`). -/
def subSamplesF (i j : Int) : List Vec2F :=
  [⟨F32.round (4 * i - 1) (-2), F32.round (4 * j + 1) (-2)⟩,
   ⟨F32.round (4 * i - 1) (-2), F32.round (4 * j - 1) (-2)⟩,
   ⟨F32.round (4 * i + 1) (-2), F32.round (4 * j + 1) (-2)⟩,
   ⟨F32.round (4 * i + 1) (-2), F32.round (4 * j - 1) (-2)⟩]

/-- The counter `num` of pixel `(i, j)` in binary32 (lines 124-129). -/
def numInsideF (v0 v1 v2 : IVec2) (i j : Int) : Nat :=
  (subSamplesF i j).foldl
    (fun num tmp_p => if InsideTriangleF v0 v1 v2 tmp_p then num + 1 else num) 0

/-- The screen positions of the fragments `rasterize_fill_edge_function` appends when
the inside test runs in binary32. The attributes of the fragments are left out:
their weights divide by `u.z`, and the result can be an infinity or NaN. -/
def fillPositionsF (v0 v1 v2 : IVec2) : List IVec2 :=
  fillPositionsWith (numInsideF v0 v1 v2)
    (min (min v0.x v1.x) v2.x) (max (max v0.x v1.x) v2.x)
    (min (min v0.y v1.y) v2.y) (max (max v0.y v1.y) v2.y)

/-! ## Theorems -/


theorem tmod_neg_bounds (a b : Int) (ha : a < 0) (hb : 0 < b) :
    -b < a.tmod b ∧ a.tmod b ≤ 0 := by
  have h1 := Int.tmod_add_tdiv a b
  have h2 : 0 ≤ (-a).tmod b := Int.tmod_nonneg b (by omega)
  have h3 : (-a).tmod b < b := Int.tmod_lt_of_pos (-a) hb
  have h4 : (-a).tmod b = -(a.tmod b) := by
    rw [Int.tmod_def, Int.tmod_def, Int.neg_tdiv]
    ring
  omega


/-! ### Texture -/

/-- C1 (the code at the failing input): in `TR_REPEAT` mode on a 2 x 2 texture,
`readPixel(-1 + 1*width, 0)` returns the pixel of column 1 while
`readPixel(-1, 0)` returns the pixel of column 0: shifting `u` by one width
changes the result. -/
theorem readPixel_repeat_shift_differs :
    readPixel tex2x2 (-1 + 1 * tex2x2.m_width) 0 255 = some ⟨20, 21, 22, 255⟩ ∧
    readPixel tex2x2 (-1) 0 255 = some ⟨10, 11, 12, 255⟩ ∧
    readPixel tex2x2 (-1 + 1 * tex2x2.m_width) 0 255 ≠ readPixel tex2x2 (-1) 0 255 := by
  decide

theorem wrapCoord_range (mode : TRTextureWarpMode) (dim u : Int) (hd : 1 ≤ dim) :
    0 ≤ wrapCoord mode dim u ∧ wrapCoord mode dim u ≤ dim - 1 := by
  unfold wrapCoord
  split
  · cases mode <;> dsimp only
    · by_cases hu : u > 0
      · have h1 : 0 ≤ u.tmod dim := Int.tmod_nonneg dim (by omega)
        have h2 : u.tmod dim < dim := Int.tmod_lt_of_pos u (by omega)
        simp only [hu, if_true]
        omega
      · simp only [hu, if_false]
        rcases lt_or_eq_of_le (not_lt.mp hu) with hneg | hz
        · have h := tmod_neg_bounds u dim hneg (by omega)
          omega
        · subst hz
          simp
          omega
    all_goals (split <;> omega)
  · omega

theorem wrapCoord_clamp (mode : TRTextureWarpMode) (dim u : Int) (hd : 1 ≤ dim)
    (hm : mode ≠ TRTextureWarpMode.TR_REPEAT) :
    wrapCoord mode dim u = min (max u 0) (dim - 1) := by
  unfold wrapCoord
  split
  · cases mode <;> dsimp only
    · exact absurd rfl hm
    all_goals (split <;> omega)
  · omega

/-- C9: for a texture with `m_width ≥ 1` and `m_height ≥ 1`, every wrap mode and
all integers `u`, `v`, the coordinates `readPixel` uses after its out-of-range
handling lie in `[0, m_width-1] x [0, m_height-1]`; in every mode other than
`TR_REPEAT` (clamp-to-edge and the `default` branch) they are
`min (max u 0) (m_width-1)` and `min (max v 0) (m_height-1)`. -/
theorem readPixelCoords_in_range (t : TRTexture2D) (u v : Int)
    (hw : 1 ≤ t.m_width) (hh : 1 ≤ t.m_height) :
    (0 ≤ (readPixelCoords t u v).1 ∧ (readPixelCoords t u v).1 ≤ t.m_width - 1 ∧
     0 ≤ (readPixelCoords t u v).2 ∧ (readPixelCoords t u v).2 ≤ t.m_height - 1) ∧
    (t.m_warp_mode ≠ TRTextureWarpMode.TR_REPEAT →
      (readPixelCoords t u v).1 = min (max u 0) (t.m_width - 1) ∧
      (readPixelCoords t u v).2 = min (max v 0) (t.m_height - 1)) := by
  have hu := wrapCoord_range t.m_warp_mode t.m_width u hw
  have hv := wrapCoord_range t.m_warp_mode t.m_height v hh
  refine ⟨⟨hu.1, hu.2, hv.1, hv.2⟩, fun hm => ⟨?_, ?_⟩⟩
  · exact wrapCoord_clamp t.m_warp_mode t.m_width u hw hm
  · exact wrapCoord_clamp t.m_warp_mode t.m_height v hh hm

/-- C9, at a 3 x 2 clamp-to-edge texture with `u = 7`, `v = -4`. -/
theorem readPixelCoords_in_range_witness :
    (1 ≤ tex3x2.m_width ∧ 1 ≤ tex3x2.m_height) ∧
    ((0 ≤ (readPixelCoords tex3x2 7 (-4)).1 ∧
      (readPixelCoords tex3x2 7 (-4)).1 ≤ tex3x2.m_width - 1 ∧
      0 ≤ (readPixelCoords tex3x2 7 (-4)).2 ∧
      (readPixelCoords tex3x2 7 (-4)).2 ≤ tex3x2.m_height - 1) ∧
     (tex3x2.m_warp_mode ≠ TRTextureWarpMode.TR_REPEAT →
      (readPixelCoords tex3x2 7 (-4)).1 = min (max 7 0) (tex3x2.m_width - 1) ∧
      (readPixelCoords tex3x2 7 (-4)).2 = min (max (-4) 0) (tex3x2.m_height - 1))) :=
  ⟨by decide, readPixelCoords_in_range tex3x2 7 (-4) (by decide) (by decide)⟩

/-- C10 (the code at the failing input): on a 3 x 2 texture, `readPixel(0, 1)`
reads offset `(1*m_height + 0)*3 = 6`, the pixel of column 2 of row 0, while
column 0 of row 1 is at offset `(1*m_width + 0)*3 = 9`. -/
theorem readPixel_index_uses_height :
    readPixelIndex tex3x2 0 1 = 6 ∧
    readPixel tex3x2 0 1 255 = some ⟨30, 31, 32, 255⟩ ∧
    gridTexel tex3x2 0 1 255 = some ⟨40, 41, 42, 255⟩ ∧
    readPixel tex3x2 0 1 255 ≠ gridTexel tex3x2 0 1 255 := by
  decide

/-! ### Interpolation and perspective correction -/

theorem perspDenom_pos (w0 w1 t : ℚ) (hw0 : 0 < w0) (hw1 : 0 < w1)
    (ht0 : 0 ≤ t) (ht1 : t ≤ 1) : 0 < (1 - t) * w1 + t * w0 := by
  rcases eq_or_lt_of_le ht0 with h | h
  · subst h
    simpa using hw1
  · have h1 : 0 ≤ (1 - t) * w1 := mul_nonneg (by linarith) hw1.le
    have h2 : 0 < t * w0 := mul_pos h hw0
    linarith

theorem persp_component (w0 w1 t a0 a1 : ℚ) (hw0 : 0 < w0) (hw1 : 0 < w1)
    (ht0 : 0 ≤ t) (ht1 : t ≤ 1) :
    1 / ((1 - t) * (1 / w0) + t * (1 / w1)) * ((1 - t) * (1 / w0 * a0) + t * (1 / w1 * a1))
      = (1 - perspParam w0 w1 t) * a0 + perspParam w0 w1 t * a1 := by
  have hD := perspDenom_pos w0 w1 t hw0 hw1 ht0 ht1
  have hw0n : w0 ≠ 0 := hw0.ne'
  have hw1n : w1 ≠ 0 := hw1.ne'
  have hDn : (1 - t) * w1 + t * w0 ≠ 0 := hD.ne'
  unfold perspParam
  have e1 : (1 - t) * (1 / w0) + t * (1 / w1) = ((1 - t) * w1 + t * w0) / (w0 * w1) := by
    field_simp
  have e2 : (1 - t) / w0 + t / w1 = ((1 - t) * w1 + t * w0) / (w0 * w1) := by
    field_simp
  rw [e1, e2]
  field_simp
  ring

/-- C3: over exact arithmetic, for vertices `v0`, `v1` with clip-space
`w0 > 0`, `w1 > 0` and `t` in `[0,1]`,
`aftPrespCorrection(lerp(prePerspCorrection(v0), prePerspCorrection(v1), t))`
has `tex`, `col`, `nor` and `pos.xyz` equal to `(1-s)*a0 + s*a1` for the
original attribute `a`, where `s = (t/w1) / ((1-t)/w0 + t/w1)`. -/
theorem persp_correction_roundtrip (v0 v1 : VertexData) (t : ℚ)
    (hw0 : 0 < v0.cpos.w) (hw1 : 0 < v1.cpos.w) (ht0 : 0 ≤ t) (ht1 : t ≤ 1) :
    (correctedLerp v0 v1 t).tex
      = Vec2.add (Vec2.scale (1 - perspParam v0.cpos.w v1.cpos.w t) v0.tex)
          (Vec2.scale (perspParam v0.cpos.w v1.cpos.w t) v1.tex) ∧
    (correctedLerp v0 v1 t).col
      = Vec3.add (Vec3.scale (1 - perspParam v0.cpos.w v1.cpos.w t) v0.col)
          (Vec3.scale (perspParam v0.cpos.w v1.cpos.w t) v1.col) ∧
    (correctedLerp v0 v1 t).nor
      = Vec3.add (Vec3.scale (1 - perspParam v0.cpos.w v1.cpos.w t) v0.nor)
          (Vec3.scale (perspParam v0.cpos.w v1.cpos.w t) v1.nor) ∧
    (correctedLerp v0 v1 t).pos.x
      = (1 - perspParam v0.cpos.w v1.cpos.w t) * v0.pos.x
          + perspParam v0.cpos.w v1.cpos.w t * v1.pos.x ∧
    (correctedLerp v0 v1 t).pos.y
      = (1 - perspParam v0.cpos.w v1.cpos.w t) * v0.pos.y
          + perspParam v0.cpos.w v1.cpos.w t * v1.pos.y ∧
    (correctedLerp v0 v1 t).pos.z
      = (1 - perspParam v0.cpos.w v1.cpos.w t) * v0.pos.z
          + perspParam v0.cpos.w v1.cpos.w t * v1.pos.z := by
  have key := fun a0 a1 => persp_component v0.cpos.w v1.cpos.w t a0 a1 hw0 hw1 ht0 ht1
  have keyc : ∀ a0 a1 : ℚ,
      1 / ((1 - t) * (1 / v0.cpos.w) + t * (1 / v1.cpos.w)) *
          ((1 - t) * (a0 * (1 / v0.cpos.w)) + t * (a1 * (1 / v1.cpos.w)))
        = (1 - perspParam v0.cpos.w v1.cpos.w t) * a0
            + perspParam v0.cpos.w v1.cpos.w t * a1 := by
    intro a0 a1
    rw [← key a0 a1, mul_comm a0, mul_comm a1]
  refine ⟨?_, ?_, ?_, ?_, ?_, ?_⟩
  · ext <;> exact key _ _
  · ext <;> exact key _ _
  · ext <;> exact key _ _
  · exact keyc _ _
  · exact keyc _ _
  · exact keyc _ _


/-- C3, at two sample vertices with `w0 = 2`, `w1 = 4` and `t = 1/2`. -/
theorem persp_correction_roundtrip_witness :
    (0 < sampleV0.cpos.w ∧ 0 < sampleV1.cpos.w ∧ (0 : ℚ) ≤ 1 / 2 ∧ (1 / 2 : ℚ) ≤ 1) ∧
    ((correctedLerp sampleV0 sampleV1 (1 / 2)).tex
      = Vec2.add (Vec2.scale (1 - perspParam sampleV0.cpos.w sampleV1.cpos.w (1 / 2)) sampleV0.tex)
          (Vec2.scale (perspParam sampleV0.cpos.w sampleV1.cpos.w (1 / 2)) sampleV1.tex) ∧
    (correctedLerp sampleV0 sampleV1 (1 / 2)).col
      = Vec3.add (Vec3.scale (1 - perspParam sampleV0.cpos.w sampleV1.cpos.w (1 / 2)) sampleV0.col)
          (Vec3.scale (perspParam sampleV0.cpos.w sampleV1.cpos.w (1 / 2)) sampleV1.col) ∧
    (correctedLerp sampleV0 sampleV1 (1 / 2)).nor
      = Vec3.add (Vec3.scale (1 - perspParam sampleV0.cpos.w sampleV1.cpos.w (1 / 2)) sampleV0.nor)
          (Vec3.scale (perspParam sampleV0.cpos.w sampleV1.cpos.w (1 / 2)) sampleV1.nor) ∧
    (correctedLerp sampleV0 sampleV1 (1 / 2)).pos.x
      = (1 - perspParam sampleV0.cpos.w sampleV1.cpos.w (1 / 2)) * sampleV0.pos.x
          + perspParam sampleV0.cpos.w sampleV1.cpos.w (1 / 2) * sampleV1.pos.x ∧
    (correctedLerp sampleV0 sampleV1 (1 / 2)).pos.y
      = (1 - perspParam sampleV0.cpos.w sampleV1.cpos.w (1 / 2)) * sampleV0.pos.y
          + perspParam sampleV0.cpos.w sampleV1.cpos.w (1 / 2) * sampleV1.pos.y ∧
    (correctedLerp sampleV0 sampleV1 (1 / 2)).pos.z
      = (1 - perspParam sampleV0.cpos.w sampleV1.cpos.w (1 / 2)) * sampleV0.pos.z
          + perspParam sampleV0.cpos.w sampleV1.cpos.w (1 / 2) * sampleV1.pos.z) := by
  have h0 : 0 < sampleV0.cpos.w := by norm_num [sampleV0]
  have h1 : 0 < sampleV1.cpos.w := by norm_num [sampleV1]
  have h2 : (0 : ℚ) ≤ 1 / 2 := by norm_num
  have h3 : (1 / 2 : ℚ) ≤ 1 := by norm_num
  exact ⟨⟨h0, h1, h2, h3⟩, persp_correction_roundtrip sampleV0 sampleV1 (1 / 2) h0 h1 h2 h3⟩


/-! ### Clipping -/

theorem Inside_eq_planeDot (line p : Vec4) :
    Inside line.x line.y line.z line.w p = decide (0 ≤ planeDot line p) := by
  simp [Inside, planeDot]

theorem Inside_false_iff (line p : Vec4) :
    Inside line.x line.y line.z line.w p = false ↔ planeDot line p < 0 := by
  simp [Inside, planeDot]

theorem Inside_true_iff (line p : Vec4) :
    Inside line.x line.y line.z line.w p = true ↔ 0 ≤ planeDot line p := by
  simp [Inside, planeDot]

theorem foldl_and_eq (f : Vec4 → Bool) (lines : List Vec4) (b : Bool) :
    lines.foldl (fun flag line => flag && f line) b = (b && lines.all f) := by
  induction lines generalizing b with
  | nil => simp
  | cons l ls ih => simp [List.foldl_cons, ih, Bool.and_assoc]

theorem PointInside_iff (lines : List Vec4) (p : Vec4) :
    PointInside lines p = true ↔ ∀ line ∈ lines, 0 ≤ planeDot line p := by
  unfold PointInside
  rw [foldl_and_eq (fun line => Inside line.x line.y line.z line.w p) lines true]
  simp [List.all_eq_true, Inside_true_iff]

theorem planeDot_lerp (line : Vec4) (a b : VertexData) (t : ℚ) :
    planeDot line (VertexData.lerp a b t).cpos
      = (1 - t) * planeDot line a.cpos + t * planeDot line b.cpos := by
  simp only [planeDot, VertexData.lerp, Vec4.add, Vec4.scale]
  ring

/-- The weight `Intersect` computes, as a function of the two plane values. -/
theorem Intersect_eq_lerp (a b : VertexData) (line : Vec4) :
    Intersect a b line
      = VertexData.lerp a b
          (planeDot line a.cpos / (planeDot line a.cpos - planeDot line b.cpos)) := by
  have ha : a.cpos.x * line.x + a.cpos.y * line.y + a.cpos.z * line.z + line.w * a.cpos.w
      = planeDot line a.cpos := by
    simp only [planeDot]; ring
  have hb : b.cpos.x * line.x + b.cpos.y * line.y + b.cpos.z * line.z + line.w * b.cpos.w
      = planeDot line b.cpos := by
    simp only [planeDot]; ring
  simp only [Intersect, ha, hb]

/-- When the two endpoints are on different sides of `line`, the weight of
`Intersect` lies in `[0, 1]`. -/
theorem Intersect_weight_mem (da db : ℚ) (h : (0 ≤ da ∧ db < 0) ∨ (da < 0 ∧ 0 ≤ db)) :
    0 ≤ da / (da - db) ∧ da / (da - db) ≤ 1 := by
  rcases h with ⟨h1, h2⟩ | ⟨h1, h2⟩
  · have hd : 0 < da - db := by linarith
    exact ⟨div_nonneg h1 hd.le, by rw [div_le_one hd]; linarith⟩
  · have hd : da - db < 0 := by linarith
    constructor
    · exact div_nonneg_of_nonpos h1.le hd.le
    · rw [div_le_one_of_neg hd]; linarith

/-- A convex combination of two vertices outside a plane is outside it. -/
theorem lerp_outside (plane : Vec4) (a b : VertexData) (t : ℚ)
    (ha : planeDot plane a.cpos < 0) (hb : planeDot plane b.cpos < 0)
    (ht0 : 0 ≤ t) (ht1 : t ≤ 1) :
    planeDot plane (VertexData.lerp a b t).cpos < 0 := by
  rw [planeDot_lerp]
  rcases eq_or_lt_of_le ht0 with h | h
  · subst h; simpa using ha
  · have h1 : (1 - t) * planeDot plane a.cpos ≤ 0 :=
      mul_nonpos_of_nonneg_of_nonpos (by linarith) ha.le
    have h2 : t * planeDot plane b.cpos < 0 := mul_neg_of_pos_of_neg h hb
    linarith

theorem foldl_invariant {α β : Type} (P : β → Prop) (f : β → α → β) (l : List α) (b : β)
    (hb : P b) (hstep : ∀ acc x, P acc → x ∈ l → P (f acc x)) : P (l.foldl f b) := by
  induction l generalizing b with
  | nil => simpa using hb
  | cons x xs ih =>
      rw [List.foldl_cons]
      apply ih
      · exact hstep b x hb (List.mem_cons_self x xs)
      · intro acc y hacc hy
        exact hstep acc y hacc (List.mem_cons_of_mem x hy)

theorem mem_of_getElem?_eq_some {α : Type} (l : List α) (i : Nat) (a : α)
    (h : l[i]? = some a) : a ∈ l := by
  rw [List.getElem?_eq_some] at h
  obtain ⟨hi, rfl⟩ := h
  exact List.getElem_mem hi

/-- Clipping against any plane keeps a polygon that is outside `plane` outside it. -/
theorem clipStep_outside (plane line : Vec4) (input output : List VertexData) (j : Nat)
    (hin : ∀ v ∈ input, planeDot plane v.cpos < 0)
    (hout : ∀ v ∈ output, planeDot plane v.cpos < 0) :
    ∀ v ∈ clipStep line input output j, planeDot plane v.cpos < 0 := by
  unfold clipStep
  split
  · rename_i current last hc hl
    have hcur := hin current (mem_of_getElem?_eq_some _ _ _ hc)
    have hlast := hin last (mem_of_getElem?_eq_some _ _ _ hl)
    by_cases h1 : Inside line.x line.y line.z line.w current.cpos = true
    · by_cases h2 : Inside line.x line.y line.z line.w last.cpos = true
      · simp only [h1, h2, if_true, Bool.not_true]
        intro v hv
        simp only [Bool.false_eq_true, if_false, List.mem_append, List.mem_singleton] at hv
        rcases hv with hv | hv
        · exact hout v hv
        · subst hv; exact hcur
      · have h2f : Inside line.x line.y line.z line.w last.cpos = false := by
          simpa using h2
        simp only [h1, h2f, if_true, Bool.not_false]
        intro v hv
        simp only [List.mem_append, List.mem_singleton] at hv
        rcases hv with (hv | hv) | hv
        · exact hout v hv
        · subst hv
          rw [Intersect_eq_lerp]
          have hw := Intersect_weight_mem (planeDot line last.cpos) (planeDot line current.cpos)
            (Or.inr ⟨(Inside_false_iff _ _).1 h2f, (Inside_true_iff _ _).1 h1⟩)
          exact lerp_outside plane last current _ hlast hcur hw.1 hw.2
        · subst hv; exact hcur
    · have h1f : Inside line.x line.y line.z line.w current.cpos = false := by
        simpa using h1
      by_cases h2 : Inside line.x line.y line.z line.w last.cpos = true
      · simp only [h1f, h2, if_true, Bool.false_eq_true, if_false]
        intro v hv
        simp only [List.mem_append, List.mem_singleton] at hv
        rcases hv with hv | hv
        · exact hout v hv
        · subst hv
          rw [Intersect_eq_lerp]
          have hw := Intersect_weight_mem (planeDot line last.cpos) (planeDot line current.cpos)
            (Or.inl ⟨(Inside_true_iff _ _).1 h2, (Inside_false_iff _ _).1 h1f⟩)
          exact lerp_outside plane last current _ hlast hcur hw.1 hw.2
      · have h2f : Inside line.x line.y line.z line.w last.cpos = false := by
          simpa using h2
        simp only [h1f, h2f, Bool.false_eq_true, if_false]
        exact hout
  · exact hout

theorem clipAgainst_outside (plane line : Vec4) (input : List VertexData)
    (hin : ∀ v ∈ input, planeDot plane v.cpos < 0) :
    ∀ v ∈ clipAgainst line input, planeDot plane v.cpos < 0 := by
  unfold clipAgainst
  apply foldl_invariant (fun out : List VertexData => ∀ v ∈ out, planeDot plane v.cpos < 0)
  · intro v hv
    simp at hv
  · intro acc j hacc _
    exact clipStep_outside plane line input acc j hin hacc

/-- A step against the plane the polygon is outside of emits nothing. -/
theorem clipStep_same_plane (line : Vec4) (input : List VertexData) (j : Nat)
    (hin : ∀ v ∈ input, planeDot line v.cpos < 0) :
    clipStep line input [] j = [] := by
  unfold clipStep
  split
  · rename_i current last hc hl
    have hcur := (Inside_false_iff line current.cpos).2
      (hin current (mem_of_getElem?_eq_some _ _ _ hc))
    have hlast := (Inside_false_iff line last.cpos).2
      (hin last (mem_of_getElem?_eq_some _ _ _ hl))
    simp [hcur, hlast]
  · rfl

theorem clipAgainst_same_plane (line : Vec4) (input : List VertexData)
    (hin : ∀ v ∈ input, planeDot line v.cpos < 0) :
    clipAgainst line input = [] := by
  unfold clipAgainst
  apply foldl_invariant (fun out : List VertexData => out = [])
  · rfl
  · intro acc j hacc _
    subst hacc
    exact clipStep_same_plane line input j hin

theorem clipAgainst_nil (line : Vec4) : clipAgainst line [] = [] := by
  simp [clipAgainst]

theorem clipLoop_nil (lines : List Vec4) : clipLoop lines [] = [] := by
  induction lines with
  | nil => rfl
  | cons l ls ih =>
      simp only [clipLoop, List.foldl_cons, clipAgainst_nil] at ih ⊢
      exact ih

theorem clipLoop_outside (plane : Vec4) (lines : List Vec4) (input : List VertexData)
    (hp : plane ∈ lines) (hin : ∀ v ∈ input, planeDot plane v.cpos < 0) :
    clipLoop lines input = [] := by
  induction lines generalizing input with
  | nil => simp at hp
  | cons l ls ih =>
      have hunf : clipLoop (l :: ls) input = clipLoop ls (clipAgainst l input) := by
        simp [clipLoop]
      rw [hunf]
      by_cases hl : plane = l
      · subst hl
        rw [clipAgainst_same_plane plane input hin]
        exact clipLoop_nil ls
      · have hp2 : plane ∈ ls := by
          rcases List.mem_cons.1 hp with h | h
          · exact absurd h hl
          · exact h
        exact ih (clipAgainst l input) hp2 (clipAgainst_outside plane l input hin)

/-- C2 (as amended): over exact arithmetic, when the three clip-space positions of a
triangle are all strictly outside one and the same of the six frustum planes
(`plane . cpos < 0` for the three vertices), `cliping` returns the empty list,
whatever the positions are relative to the other five planes. -/
theorem cliping_outside_one_plane (v0 v1 v2 : VertexData) (plane : Vec4)
    (hp : plane ∈ ViewLines)
    (h0 : planeDot plane v0.cpos < 0) (h1 : planeDot plane v1.cpos < 0)
    (h2 : planeDot plane v2.cpos < 0) :
    cliping v0 v1 v2 = [] := by
  have hnot : PointInside ViewLines v0.cpos = false := by
    rw [Bool.eq_false_iff]
    intro h
    have := (PointInside_iff ViewLines v0.cpos).1 h plane hp
    linarith
  unfold cliping
  simp only [hnot, Bool.false_and, Bool.false_eq_true, if_false]
  apply clipLoop_outside plane ViewLines _ hp
  intro v hv
  simp only [List.mem_cons, List.mem_singleton, List.not_mem_nil, or_false] at hv
  rcases hv with rfl | rfl | rfl
  · exact h0
  · exact h1
  · exact h2

/-- C2, at a triangle to the right of the right plane `x ≤ w`. -/
theorem cliping_outside_one_plane_witness :
    ((⟨-1, 0, 0, 1⟩ : Vec4) ∈ ViewLines ∧
      planeDot ⟨-1, 0, 0, 1⟩ (vertexAt ⟨5, 0, 0, 1⟩).cpos < 0 ∧
      planeDot ⟨-1, 0, 0, 1⟩ (vertexAt ⟨6, 1, 0, 1⟩).cpos < 0 ∧
      planeDot ⟨-1, 0, 0, 1⟩ (vertexAt ⟨7, 0, 0, 2⟩).cpos < 0) ∧
    cliping (vertexAt ⟨5, 0, 0, 1⟩) (vertexAt ⟨6, 1, 0, 1⟩) (vertexAt ⟨7, 0, 0, 2⟩) = [] := by
  have hp : (⟨-1, 0, 0, 1⟩ : Vec4) ∈ ViewLines := by simp [ViewLines]
  have h0 : planeDot ⟨-1, 0, 0, 1⟩ (vertexAt ⟨5, 0, 0, 1⟩).cpos < 0 := by
    norm_num [planeDot, vertexAt]
  have h1 : planeDot ⟨-1, 0, 0, 1⟩ (vertexAt ⟨6, 1, 0, 1⟩).cpos < 0 := by
    norm_num [planeDot, vertexAt]
  have h2 : planeDot ⟨-1, 0, 0, 1⟩ (vertexAt ⟨7, 0, 0, 2⟩).cpos < 0 := by
    norm_num [planeDot, vertexAt]
  exact ⟨⟨hp, h0, h1, h2⟩, cliping_outside_one_plane _ _ _ _ hp h0 h1 h2⟩

/-- C6: when the three clip-space positions of a triangle satisfy all six
frustum plane inequalities, `cliping` returns exactly `[v0, v1, v2]`: the same
three vertices, unchanged, in the same order, with no extra vertex. -/
theorem cliping_all_inside (v0 v1 v2 : VertexData)
    (h0 : ∀ plane ∈ ViewLines, 0 ≤ planeDot plane v0.cpos)
    (h1 : ∀ plane ∈ ViewLines, 0 ≤ planeDot plane v1.cpos)
    (h2 : ∀ plane ∈ ViewLines, 0 ≤ planeDot plane v2.cpos) :
    cliping v0 v1 v2 = [v0, v1, v2] := by
  have e0 := (PointInside_iff ViewLines v0.cpos).2 h0
  have e1 := (PointInside_iff ViewLines v1.cpos).2 h1
  have e2 := (PointInside_iff ViewLines v2.cpos).2 h2
  simp [cliping, e0, e1, e2]

/-- C6, at a triangle inside the frustum. -/
theorem cliping_all_inside_witness :
    ((∀ plane ∈ ViewLines, 0 ≤ planeDot plane (vertexAt ⟨1 / 2, 0, 0, 1⟩).cpos) ∧
     (∀ plane ∈ ViewLines, 0 ≤ planeDot plane (vertexAt ⟨0, 1 / 3, 0, 1⟩).cpos) ∧
     (∀ plane ∈ ViewLines, 0 ≤ planeDot plane (vertexAt ⟨0, 0, 0, 2⟩).cpos)) ∧
    cliping (vertexAt ⟨1 / 2, 0, 0, 1⟩) (vertexAt ⟨0, 1 / 3, 0, 1⟩) (vertexAt ⟨0, 0, 0, 2⟩)
      = [vertexAt ⟨1 / 2, 0, 0, 1⟩, vertexAt ⟨0, 1 / 3, 0, 1⟩, vertexAt ⟨0, 0, 0, 2⟩] := by
  have h0 : ∀ plane ∈ ViewLines, 0 ≤ planeDot plane (vertexAt ⟨1 / 2, 0, 0, 1⟩).cpos := by
    intro plane hp
    simp only [ViewLines, List.mem_cons, List.mem_singleton, List.not_mem_nil, or_false] at hp
    rcases hp with rfl | rfl | rfl | rfl | rfl | rfl <;> norm_num [planeDot, vertexAt]
  have h1 : ∀ plane ∈ ViewLines, 0 ≤ planeDot plane (vertexAt ⟨0, 1 / 3, 0, 1⟩).cpos := by
    intro plane hp
    simp only [ViewLines, List.mem_cons, List.mem_singleton, List.not_mem_nil, or_false] at hp
    rcases hp with rfl | rfl | rfl | rfl | rfl | rfl <;> norm_num [planeDot, vertexAt]
  have h2 : ∀ plane ∈ ViewLines, 0 ≤ planeDot plane (vertexAt ⟨0, 0, 0, 2⟩).cpos := by
    intro plane hp
    simp only [ViewLines, List.mem_cons, List.mem_singleton, List.not_mem_nil, or_false] at hp
    rcases hp with rfl | rfl | rfl | rfl | rfl | rfl <;> norm_num [planeDot, vertexAt]
  exact ⟨⟨h0, h1, h2⟩, cliping_all_inside _ _ _ h0 h1 h2⟩

/-! ### Depth test -/

theorem depthTestStep_pass (sh : VertexData → Vec4) (fb : TRFrameBuffer) (p : VertexData)
    (h : p.cpos.z < fb.readDepth p.spos.x p.spos.y) :
    (depthTestStep sh fb p).readDepth p.spos.x p.spos.y = p.cpos.z ∧
    (depthTestStep sh fb p).readColor p.spos.x p.spos.y
      = sh (VertexData.aftPrespCorrection p) := by
  have h1 : p.cpos.z < fb.depth p.spos.x p.spos.y := h
  simp [depthTestStep, h1, TRFrameBuffer.readDepth, TRFrameBuffer.readColor,
    TRFrameBuffer.writeDepth, TRFrameBuffer.writeColor, VertexData.aftPrespCorrection]

theorem depthTestStep_fail (sh : VertexData → Vec4) (fb : TRFrameBuffer) (p : VertexData)
    (h : ¬ p.cpos.z < fb.readDepth p.spos.x p.spos.y) :
    depthTestStep sh fb p = fb := by
  simp [depthTestStep, h]

/-- C4: for two fragments `a`, `b` at the same pixel with different depths
(`a` the one with the smaller `cpos.z`), both smaller than the depth stored at
that pixel, the depth-test-and-write loop run on `[a, b]` and run on `[b, a]`
both leave that pixel with the depth of `a` and the shaded colour of `a`. -/
theorem depth_test_order_independent (sh : VertexData → Vec4) (fb : TRFrameBuffer)
    (a b : VertexData) (hpix : a.spos = b.spos) (hab : a.cpos.z < b.cpos.z)
    (ha : a.cpos.z < fb.readDepth a.spos.x a.spos.y)
    (hb : b.cpos.z < fb.readDepth a.spos.x a.spos.y) :
    ((depthTestLoop sh fb [a, b]).readDepth a.spos.x a.spos.y = a.cpos.z ∧
     (depthTestLoop sh fb [a, b]).readColor a.spos.x a.spos.y
        = sh (VertexData.aftPrespCorrection a)) ∧
    ((depthTestLoop sh fb [b, a]).readDepth a.spos.x a.spos.y = a.cpos.z ∧
     (depthTestLoop sh fb [b, a]).readColor a.spos.x a.spos.y
        = sh (VertexData.aftPrespCorrection a)) := by
  constructor
  · have h1 := depthTestStep_pass sh fb a ha
    have h2 : ¬ b.cpos.z < (depthTestStep sh fb a).readDepth b.spos.x b.spos.y := by
      rw [← hpix, h1.1]
      exact not_lt.2 hab.le
    simp only [depthTestLoop, List.foldl_cons, List.foldl_nil]
    rw [depthTestStep_fail sh _ b h2]
    exact h1
  · have hb1 : b.cpos.z < fb.readDepth b.spos.x b.spos.y := by
      rw [← hpix]; exact hb
    have h1 := depthTestStep_pass sh fb b hb1
    have h2 : a.cpos.z < (depthTestStep sh fb b).readDepth a.spos.x a.spos.y := by
      rw [hpix, h1.1]
      exact hab
    simp only [depthTestLoop, List.foldl_cons, List.foldl_nil]
    exact depthTestStep_pass sh _ a h2

/-- C4, at two fragments of pixel (3, 4) with depths 1/4 and 1/2 in a buffer
cleared to depth 1, with the default fragment shader. -/
theorem depth_test_order_independent_witness :
    (fragNear.spos = fragFar.spos ∧ fragNear.cpos.z < fragFar.cpos.z ∧
      fragNear.cpos.z < clearedBuffer.readDepth fragNear.spos.x fragNear.spos.y ∧
      fragFar.cpos.z < clearedBuffer.readDepth fragNear.spos.x fragNear.spos.y) ∧
    (((depthTestLoop defaultFragmentShader clearedBuffer [fragNear, fragFar]).readDepth
          fragNear.spos.x fragNear.spos.y = fragNear.cpos.z ∧
      (depthTestLoop defaultFragmentShader clearedBuffer [fragNear, fragFar]).readColor
          fragNear.spos.x fragNear.spos.y
        = defaultFragmentShader (VertexData.aftPrespCorrection fragNear)) ∧
     ((depthTestLoop defaultFragmentShader clearedBuffer [fragFar, fragNear]).readDepth
          fragNear.spos.x fragNear.spos.y = fragNear.cpos.z ∧
      (depthTestLoop defaultFragmentShader clearedBuffer [fragFar, fragNear]).readColor
          fragNear.spos.x fragNear.spos.y
        = defaultFragmentShader (VertexData.aftPrespCorrection fragNear))) := by
  have hpix : fragNear.spos = fragFar.spos := by simp [fragNear, fragFar]
  have hab : fragNear.cpos.z < fragFar.cpos.z := by norm_num [fragNear, fragFar]
  have ha : fragNear.cpos.z < clearedBuffer.readDepth fragNear.spos.x fragNear.spos.y := by
    norm_num [fragNear, clearedBuffer, TRFrameBuffer.readDepth]
  have hb : fragFar.cpos.z < clearedBuffer.readDepth fragNear.spos.x fragNear.spos.y := by
    norm_num [fragNear, fragFar, clearedBuffer, TRFrameBuffer.readDepth]
  exact ⟨⟨hpix, hab, ha, hb⟩,
    depth_test_order_independent defaultFragmentShader clearedBuffer fragNear fragFar
      hpix hab ha hb⟩

/-! ### Camera matrices -/

/-- C5 (the code at the failing input): with `near = 1`, `far = 3`, `fovy = 90`,
`aspect = 1`, the hand-written `calcPerspProjectMatrix` of `CGAssignment1` maps
`(0, 0, -near, 1)` to clip-space `z = -1`, `w = 2` (`z/w = -1/2`) and
`(0, 0, -far, 1)` to `z = 3`, `w = 4` (`z/w = 3/4`): entry `[3][3]` keeps the 1
of the identity the matrix starts from. -/
theorem calcPerspProjectMatrix_near_far_images (tanf : ℚ → ℚ) (M_PI : ℚ) :
    (Assignment1.calcPerspProjectMatrix tanf M_PI 90 1 1 3).c3.w = 1 ∧
    (Mat4.mulVec (Assignment1.calcPerspProjectMatrix tanf M_PI 90 1 1 3) ⟨0, 0, -1, 1⟩).z = -1 ∧
    (Mat4.mulVec (Assignment1.calcPerspProjectMatrix tanf M_PI 90 1 1 3) ⟨0, 0, -1, 1⟩).w = 2 ∧
    (Mat4.mulVec (Assignment1.calcPerspProjectMatrix tanf M_PI 90 1 1 3) ⟨0, 0, -1, 1⟩).z /
      (Mat4.mulVec (Assignment1.calcPerspProjectMatrix tanf M_PI 90 1 1 3) ⟨0, 0, -1, 1⟩).w
        ≠ -1 ∧
    (Mat4.mulVec (Assignment1.calcPerspProjectMatrix tanf M_PI 90 1 1 3) ⟨0, 0, -3, 1⟩).z = 3 ∧
    (Mat4.mulVec (Assignment1.calcPerspProjectMatrix tanf M_PI 90 1 1 3) ⟨0, 0, -3, 1⟩).w = 4 ∧
    (Mat4.mulVec (Assignment1.calcPerspProjectMatrix tanf M_PI 90 1 1 3) ⟨0, 0, -3, 1⟩).z /
      (Mat4.mulVec (Assignment1.calcPerspProjectMatrix tanf M_PI 90 1 1 3) ⟨0, 0, -3, 1⟩).w
        ≠ 1 := by
  norm_num [Assignment1.calcPerspProjectMatrix, Mat4.mulVec, Mat4.identity]

theorem depthTestStep_depth_le (sh : VertexData → Vec4) (fb : TRFrameBuffer) (p : VertexData)
    (x y : Int) : (depthTestStep sh fb p).readDepth x y ≤ fb.readDepth x y := by
  by_cases h : p.cpos.z < fb.readDepth p.spos.x p.spos.y
  · have h1 : p.cpos.z < fb.depth p.spos.x p.spos.y := h
    simp only [depthTestStep, TRFrameBuffer.readDepth, h1, if_true, TRFrameBuffer.writeDepth,
      TRFrameBuffer.writeColor, VertexData.aftPrespCorrection]
    split
    · rename_i hxy
      rw [hxy.1, hxy.2]
      exact h1.le
    · exact le_refl _
  · rw [depthTestStep_fail sh fb p h]

theorem depthTestLoop_depth_le (sh : VertexData → Vec4) (pts : List VertexData)
    (fb : TRFrameBuffer) (x y : Int) :
    (depthTestLoop sh fb pts).readDepth x y ≤ fb.readDepth x y := by
  induction pts generalizing fb with
  | nil => exact le_refl _
  | cons p ps ih =>
      have h1 := ih (depthTestStep sh fb p)
      have h2 := depthTestStep_depth_le sh fb p x y
      simp only [depthTestLoop, List.foldl_cons] at h1 ⊢
      exact le_trans h1 h2

/-- C16: in the depth-test step of `renderAllDrawableMeshes`, a fragment changes
the stored depth of its pixel if and only if its `cpos.z` is strictly smaller than
the stored depth; in that case the pixel gets the depth and the shaded colour of
the fragment; otherwise the whole frame buffer (colour plane and depth plane) is
unchanged; hence no stored depth ever increases, in one step or in the whole loop. -/
theorem depth_test_strict_and_monotone (sh : VertexData → Vec4) (fb : TRFrameBuffer)
    (p : VertexData) :
    ((depthTestStep sh fb p).readDepth p.spos.x p.spos.y ≠ fb.readDepth p.spos.x p.spos.y
        ↔ p.cpos.z < fb.readDepth p.spos.x p.spos.y) ∧
    (p.cpos.z < fb.readDepth p.spos.x p.spos.y →
        (depthTestStep sh fb p).readDepth p.spos.x p.spos.y = p.cpos.z ∧
        (depthTestStep sh fb p).readColor p.spos.x p.spos.y
          = sh (VertexData.aftPrespCorrection p)) ∧
    (¬ p.cpos.z < fb.readDepth p.spos.x p.spos.y → depthTestStep sh fb p = fb) ∧
    (∀ x y : Int, (depthTestStep sh fb p).readDepth x y ≤ fb.readDepth x y) ∧
    (∀ (pts : List VertexData) (x y : Int),
        (depthTestLoop sh fb pts).readDepth x y ≤ fb.readDepth x y) := by
  refine ⟨⟨?_, ?_⟩, depthTestStep_pass sh fb p, depthTestStep_fail sh fb p,
    depthTestStep_depth_le sh fb p, fun pts x y => depthTestLoop_depth_le sh pts fb x y⟩
  · intro hne
    by_contra h
    exact hne (by rw [depthTestStep_fail sh fb p h])
  · intro h
    rw [(depthTestStep_pass sh fb p h).1]
    exact h.ne

/-! ### Back-face culling -/

theorem isTowardBackFace_eq (v0 v1 v2 : Vec4) :
    Assignment2.isTowardBackFace v0 v1 v2 = decide (signedAreaXY v0 v1 v2 < 0) := by
  have h : Vec3.dot (Vec3.cross (Vec4.subXYZ v1 v0) (Vec4.subXYZ v2 v1)) ⟨0, 0, -1⟩
      = -signedAreaXY v0 v1 v2 := by
    simp only [Vec3.dot, Vec3.cross, Vec4.subXYZ, signedAreaXY]
    ring
  simp only [Assignment2.isTowardBackFace, h]
  simp

theorem signedAreaXY_swap (v0 v1 v2 : Vec4) :
    signedAreaXY v1 v0 v2 = -signedAreaXY v0 v1 v2 ∧
    signedAreaXY v0 v2 v1 = -signedAreaXY v0 v1 v2 ∧
    signedAreaXY v2 v1 v0 = -signedAreaXY v0 v1 v2 := by
  refine ⟨?_, ?_, ?_⟩ <;> simp only [signedAreaXY] <;> ring

theorem decide_neg_flip (a : ℚ) (ha : a ≠ 0) : decide (-a < 0) = !decide (a < 0) := by
  rcases lt_or_gt_of_ne ha with h | h
  · have h2 : ¬ (-a < 0) := by linarith
    simp [h, h2]
  · have h2 : -a < 0 := by linarith
    have h3 : ¬ a < 0 := by linarith
    simp [h2, h3]

/-- C17 (as amended): over exact arithmetic, `isTowardBackFace(v0, v1, v2)` of
`CGAssignment2` is true if and only if the xy signed area
`(v1-v0).x*(v2-v0).y - (v1-v0).y*(v2-v0).x` is strictly negative; a zero-area
triangle is never culled; exchanging any two vertices of a triangle with non-zero
area flips the result. -/
theorem isTowardBackFace_iff_clockwise (v0 v1 v2 : Vec4) :
    (Assignment2.isTowardBackFace v0 v1 v2 = true ↔
        (v1.x - v0.x) * (v2.y - v0.y) - (v1.y - v0.y) * (v2.x - v0.x) < 0) ∧
    (signedAreaXY v0 v1 v2 = 0 → Assignment2.isTowardBackFace v0 v1 v2 = false) ∧
    (signedAreaXY v0 v1 v2 ≠ 0 →
        Assignment2.isTowardBackFace v1 v0 v2 = !Assignment2.isTowardBackFace v0 v1 v2 ∧
        Assignment2.isTowardBackFace v0 v2 v1 = !Assignment2.isTowardBackFace v0 v1 v2 ∧
        Assignment2.isTowardBackFace v2 v1 v0 = !Assignment2.isTowardBackFace v0 v1 v2) := by
  refine ⟨?_, ?_, ?_⟩
  · rw [isTowardBackFace_eq]
    simp [signedAreaXY]
  · intro h
    rw [isTowardBackFace_eq, h]
    simp
  · intro h
    obtain ⟨s1, s2, s3⟩ := signedAreaXY_swap v0 v1 v2
    simp only [isTowardBackFace_eq, s1, s2, s3]
    exact ⟨decide_neg_flip _ h, decide_neg_flip _ h, decide_neg_flip _ h⟩

/-! ### Viewport and orthographic matrices -/

/-- The viewport matrix of `CGAssignment2` maps NDC `x = -1, +1` to `0, width` and
NDC `y = -1, +1` to `height, 0`, for every width and height. -/
theorem calcViewPortMatrix2_corners (width height : Int) (z : ℚ) :
    (Mat4.mulVec (Assignment2.calcViewPortMatrix width height) ⟨-1, -1, z, 1⟩).x = 0 ∧
    (Mat4.mulVec (Assignment2.calcViewPortMatrix width height) ⟨1, 1, z, 1⟩).x = width ∧
    (Mat4.mulVec (Assignment2.calcViewPortMatrix width height) ⟨-1, -1, z, 1⟩).y = height ∧
    (Mat4.mulVec (Assignment2.calcViewPortMatrix width height) ⟨1, 1, z, 1⟩).y = 0 := by
  refine ⟨?_, ?_, ?_, ?_⟩ <;> simp [Mat4.mulVec, Assignment2.calcViewPortMatrix] <;> ring

/-- C18 (the code at the failing input): `calcViewPortMatrix(5, 3)` of
`CGAssignment1` maps NDC `x = +1` to screen `x = 4` (not 5) and NDC `y = +1` to
screen `y = 2` (not 3), since `5 / 2` and `3 / 2` are integer divisions; NDC
`x = -1` and `y = -1` go to 0. -/
theorem calcViewPortMatrix1_odd_size :
    (Mat4.mulVec (Assignment1.calcViewPortMatrix 5 3) ⟨1, 1, 0, 1⟩).x = 4 ∧
    (Mat4.mulVec (Assignment1.calcViewPortMatrix 5 3) ⟨1, 1, 0, 1⟩).y = 2 ∧
    (Mat4.mulVec (Assignment1.calcViewPortMatrix 5 3) ⟨-1, -1, 0, 1⟩).x = 0 ∧
    (Mat4.mulVec (Assignment1.calcViewPortMatrix 5 3) ⟨-1, -1, 0, 1⟩).y = 0 ∧
    (Mat4.mulVec (Assignment1.calcViewPortMatrix 5 3) ⟨1, 1, 0, 1⟩).x ≠ ((5 : Int) : ℚ) ∧
    (Mat4.mulVec (Assignment1.calcViewPortMatrix 5 3) ⟨1, 1, 0, 1⟩).y ≠ ((3 : Int) : ℚ) := by
  have h5 : (5 : Int).tdiv 2 = 2 := by decide
  have h3 : (3 : Int).tdiv 2 = 1 := by decide
  simp only [Mat4.mulVec, Assignment1.calcViewPortMatrix, h5, h3]
  norm_num

/-- The orthographic matrix of `CGAssignment1` maps the two corners of the box to
`(-1, -1, -1, 1)` and `(1, 1, 1, 1)`. -/
theorem calcOrthoProjectMatrix1_corners (left right bottom top near far : ℚ)
    (hx : left ≠ right) (hy : bottom ≠ top) (hz : near ≠ far) :
    Mat4.mulVec (Assignment1.calcOrthoProjectMatrix left right bottom top near far)
        ⟨left, bottom, -near, 1⟩ = ⟨-1, -1, -1, 1⟩ ∧
    Mat4.mulVec (Assignment1.calcOrthoProjectMatrix left right bottom top near far)
        ⟨right, top, -far, 1⟩ = ⟨1, 1, 1, 1⟩ := by
  have h1 : right - left ≠ 0 := sub_ne_zero.2 (Ne.symm hx)
  have h2 : top - bottom ≠ 0 := sub_ne_zero.2 (Ne.symm hy)
  have h3 : far - near ≠ 0 := sub_ne_zero.2 (Ne.symm hz)
  constructor
  · ext <;> simp [Mat4.mulVec, Assignment1.calcOrthoProjectMatrix, Mat4.identity] <;>
      field_simp <;> ring
  · ext <;> simp [Mat4.mulVec, Assignment1.calcOrthoProjectMatrix, Mat4.identity] <;>
      field_simp <;> ring

/-- C19 (the code at the failing input): for the box `left = 0`, `right = 2`,
`bottom = 0`, `top = 2`, `near = 1`, `far = 3`, `calcOrthoProjectMatrix` of
`CGAssignment2` maps the corner `(0, 0, -1, 1)` to `(0, 0, -1, 1)` and the corner
`(2, 2, -3, 1)` to `(2, 2, 1, 1)`: entries `[3][0]` and `[3][1]` are zero, so x and
y are scaled but not translated. -/
theorem calcOrthoProjectMatrix2_off_centre :
    Mat4.mulVec (Assignment2.calcOrthoProjectMatrix 0 2 0 2 1 3) ⟨0, 0, -1, 1⟩
      = ⟨0, 0, -1, 1⟩ ∧
    Mat4.mulVec (Assignment2.calcOrthoProjectMatrix 0 2 0 2 1 3) ⟨2, 2, -3, 1⟩
      = ⟨2, 2, 1, 1⟩ ∧
    Mat4.mulVec (Assignment2.calcOrthoProjectMatrix 0 2 0 2 1 3) ⟨0, 0, -1, 1⟩
      ≠ ⟨-1, -1, -1, 1⟩ ∧
    Mat4.mulVec (Assignment2.calcOrthoProjectMatrix 0 2 0 2 1 3) ⟨2, 2, -3, 1⟩
      ≠ ⟨1, 1, 1, 1⟩ := by
  have e1 : Mat4.mulVec (Assignment2.calcOrthoProjectMatrix 0 2 0 2 1 3) ⟨0, 0, -1, 1⟩
      = ⟨0, 0, -1, 1⟩ := by
    ext <;> norm_num [Mat4.mulVec, Assignment2.calcOrthoProjectMatrix]
  have e2 : Mat4.mulVec (Assignment2.calcOrthoProjectMatrix 0 2 0 2 1 3) ⟨2, 2, -3, 1⟩
      = ⟨2, 2, 1, 1⟩ := by
    ext <;> norm_num [Mat4.mulVec, Assignment2.calcOrthoProjectMatrix]
  refine ⟨e1, e2, ?_, ?_⟩
  · rw [e1]
    intro h
    have hx := congrArg Vec4.x h
    norm_num at hx
  · rw [e2]
    intro h
    have hx := congrArg Vec4.x h
    norm_num at hx

/-! ### Nearest sampling -/

theorem truncToInt_neg_one : truncToInt (-1) = -1 := by
  have h : ¬ (0 : ℚ) ≤ -1 := by norm_num
  have hc : ⌈(-1 : ℚ)⌉ = -1 := by
    have := Int.ceil_intCast (α := ℚ) (-1)
    simpa using this
  simp only [truncToInt, h, if_false, hc]

/-- C20 (the code at the failing input): for `uv = (0, 0)` on a 2 x 2 texture,
`textureSampling_nearest` passes `(x, y) = (-1, -1)` to `readPixel`: the coordinate
is `(int)(u * width - 1.0f)`, which is -1 at `u = 0`. -/
theorem nearestCoords_at_zero :
    nearestCoords tex2x2 ⟨0, 0⟩ = (-1, -1) ∧ ¬ (0 ≤ (nearestCoords tex2x2 ⟨0, 0⟩).1) := by
  have h : nearestCoords tex2x2 ⟨0, 0⟩ = (-1, -1) := by
    simp [nearestCoords, truncToInt_neg_one]
  rw [h]
  exact ⟨rfl, by decide⟩

/-! ### Line rasterisation -/

theorem rasterize_wire_aux_endpoints_mem (vfrom vto : VertexData)
    (screen_width screen_height : Nat) (rasterized_points : List VertexData) :
    vfrom ∈ rasterize_wire_aux vfrom vto screen_width screen_height rasterized_points ∧
    vto ∈ rasterize_wire_aux vfrom vto screen_width screen_height rasterized_points := by
  simp [rasterize_wire_aux]

/-- C11 (the code at the failing input): on a 4 x 4 screen, with `from` at screen
position `(-5, 0)` and `to` at `(3, 0)`, the vector returned by
`rasterize_wire_aux` contains `from`, whose `spos.x = -5` is negative: the two
trailing `push_back` append both endpoints without any window test. -/
theorem rasterize_wire_aux_pushes_outside :
    vertexAtScreen (-5) 0
      ∈ rasterize_wire_aux (vertexAtScreen (-5) 0) (vertexAtScreen 3 0) 4 4 [] ∧
    (vertexAtScreen (-5) 0).spos.x < 0 := by
  refine ⟨?_, by decide⟩
  simp [rasterize_wire_aux]

/-! ### Triangle rasterisation -/

theorem mem_intRange (lo hi i : Int) : i ∈ intRange lo hi ↔ lo ≤ i ∧ i ≤ hi := by
  simp only [intRange, List.mem_map, List.mem_range]
  constructor
  · rintro ⟨k, hk, rfl⟩
    omega
  · rintro ⟨h1, h2⟩
    refine ⟨(i - lo).toNat, ?_, ?_⟩ <;> omega

theorem nodup_intRange (lo hi : Int) : (intRange lo hi).Nodup := by
  unfold intRange
  apply List.Nodup.map _ (List.nodup_range _)
  intro a b h
  have h' : lo + (a : Int) = lo + (b : Int) := h
  omega

theorem countP_flatMap_key {β : Type} (l : List Int) (hnd : l.Nodup) (f : Int → List β)
    (p : β → Bool) (a : Int) (hkey : ∀ x ∈ l, x ≠ a → List.countP p (f x) = 0) :
    List.countP p (l.flatMap f) = if a ∈ l then List.countP p (f a) else 0 := by
  induction l with
  | nil => simp
  | cons x xs ih =>
      have hnd2 := List.nodup_cons.1 hnd
      have ih2 := ih hnd2.2 (fun y hy hne => hkey y (List.mem_cons_of_mem x hy) hne)
      rw [List.flatMap_cons, List.countP_append, ih2]
      by_cases hxa : x = a
      · subst hxa
        simp [hnd2.1]
      · have h0 := hkey x (List.mem_cons_self x xs) hxa
        have hax : ¬ a = x := fun h => hxa h.symm
        simp [h0, hax]

theorem foldl_count_eq (P : Vec2 → Bool) (l : List Vec2) (k : Nat) :
    l.foldl (fun num tmp_p => if P tmp_p then num + 1 else num) k = k + l.countP P := by
  induction l generalizing k with
  | nil => simp
  | cons x xs ih =>
      rw [List.foldl_cons, ih, List.countP_cons]
      by_cases h : P x = true <;> simp [h]; omega

theorem numInside_pos_iff (v0 v1 v2 : VertexData) (i j : Int) :
    0 < numInside v0 v1 v2 i j ↔
      ∃ s ∈ subSamples i j, InsideTriangle v0.spos v1.spos v2.spos s = true := by
  unfold numInside
  rw [foldl_count_eq (fun s => InsideTriangle v0.spos v1.spos v2.spos s), Nat.zero_add,
    List.countP_pos_iff]

theorem fillPixel_spos (v0 v1 v2 : VertexData) (i j : Int) :
    ∀ f ∈ fillPixel v0 v1 v2 i j, f.spos = ⟨i, j⟩ := by
  intro f hf
  unfold fillPixel at hf
  split at hf
  · simp only [List.mem_singleton] at hf
    subst hf
    rfl
  · simp at hf

theorem countP_fillPixel (v0 v1 v2 : VertexData) (i j : Int) :
    List.countP (fun f : VertexData => decide (f.spos = ⟨i, j⟩)) (fillPixel v0 v1 v2 i j)
      = if 0 < numInside v0 v1 v2 i j then 1 else 0 := by
  unfold fillPixel
  by_cases h : 0 < numInside v0 v1 v2 i j
  · simp [h, fillFragment]
  · have h0 : ¬ numInside v0 v1 v2 i j > 0 := h
    simp [h0]

theorem countP_fill_row (v0 v1 v2 : VertexData) (ys : List Int) (hys : ys.Nodup) (i j : Int) :
    List.countP (fun f : VertexData => decide (f.spos = ⟨i, j⟩))
        (ys.flatMap (fun j1 => fillPixel v0 v1 v2 i j1))
      = if j ∈ ys ∧ 0 < numInside v0 v1 v2 i j then 1 else 0 := by
  rw [countP_flatMap_key ys hys (fun j1 => fillPixel v0 v1 v2 i j1) _ j]
  · rw [countP_fillPixel]
    by_cases hj : j ∈ ys <;> simp [hj]
  · intro y _ hne
    rw [List.countP_eq_zero]
    intro f hf
    have := fillPixel_spos v0 v1 v2 i y f hf
    simp only [decide_eq_true_eq]
    intro h
    rw [this] at h
    exact hne (congrArg IVec2.y h)

theorem countP_fill_rows (v0 v1 v2 : VertexData) (xs ys : List Int) (hxs : xs.Nodup)
    (hys : ys.Nodup) (i j : Int) :
    List.countP (fun f : VertexData => decide (f.spos = ⟨i, j⟩))
        (xs.flatMap (fun i1 => ys.flatMap (fun j1 => fillPixel v0 v1 v2 i1 j1)))
      = if i ∈ xs ∧ j ∈ ys ∧ 0 < numInside v0 v1 v2 i j then 1 else 0 := by
  rw [countP_flatMap_key xs hxs
    (fun i1 => ys.flatMap (fun j1 => fillPixel v0 v1 v2 i1 j1)) _ i]
  · rw [countP_fill_row v0 v1 v2 ys hys]
    by_cases hi : i ∈ xs <;> simp [hi]
  · intro x _ hne
    rw [List.countP_eq_zero]
    intro f hf
    obtain ⟨y, _, hfy⟩ := List.mem_flatMap.1 hf
    have := fillPixel_spos v0 v1 v2 x y f hfy
    simp only [decide_eq_true_eq]
    intro h
    rw [this] at h
    exact hne (congrArg IVec2.x h)

theorem exists_mem_subSamples (P : Vec2 → Prop) (i j : Int) :
    (∃ s ∈ subSamples i j, P s) ↔
      (P ⟨(i : ℚ) - 1 / 4, (j : ℚ) + 1 / 4⟩ ∨ P ⟨(i : ℚ) - 1 / 4, (j : ℚ) - 1 / 4⟩ ∨
       P ⟨(i : ℚ) + 1 / 4, (j : ℚ) + 1 / 4⟩ ∨ P ⟨(i : ℚ) + 1 / 4, (j : ℚ) - 1 / 4⟩) := by
  simp [subSamples]

theorem exists_mem_subSamplesF (P : Vec2F → Prop) (i j : Int) :
    (∃ s ∈ subSamplesF i j, P s) ↔
      (P ⟨F32.round (4 * i - 1) (-2), F32.round (4 * j + 1) (-2)⟩ ∨
       P ⟨F32.round (4 * i - 1) (-2), F32.round (4 * j - 1) (-2)⟩ ∨
       P ⟨F32.round (4 * i + 1) (-2), F32.round (4 * j + 1) (-2)⟩ ∨
       P ⟨F32.round (4 * i + 1) (-2), F32.round (4 * j - 1) (-2)⟩) := by
  simp [subSamplesF]

theorem foldl_count_eq_gen {α : Type} (P : α → Bool) (l : List α) (k : Nat) :
    l.foldl (fun num tmp_p => if P tmp_p then num + 1 else num) k = k + l.countP P := by
  induction l generalizing k with
  | nil => simp
  | cons x xs ih =>
      rw [List.foldl_cons, ih, List.countP_cons]
      by_cases h : P x = true <;> simp [h]; omega

theorem numInsideF_pos_iff (v0 v1 v2 : IVec2) (i j : Int) :
    0 < numInsideF v0 v1 v2 i j ↔
      ∃ s ∈ subSamplesF i j, InsideTriangleF v0 v1 v2 s = true := by
  unfold numInsideF
  rw [foldl_count_eq_gen (fun s => InsideTriangleF v0 v1 v2 s), Nat.zero_add,
    List.countP_pos_iff]

/-- Each pixel of the box with `num > 0` occurs once among the positions pushed, and
no other position occurs. -/
theorem count_fillPositionsWith (num : Int → Int → Nat) (minX maxX minY maxY i j : Int) :
    List.countP (fun q : IVec2 => decide (q = ⟨i, j⟩)) (fillPositionsWith num minX maxX minY maxY)
      = if (minX ≤ i ∧ i ≤ maxX) ∧ (minY ≤ j ∧ j ≤ maxY) ∧ 0 < num i j then 1 else 0 := by
  unfold fillPositionsWith
  rw [countP_flatMap_key (intRange minX maxX) (nodup_intRange _ _) _ _ i]
  · rw [countP_flatMap_key (intRange minY maxY) (nodup_intRange _ _) _ _ j]
    · simp only [mem_intRange]
      by_cases hi : minX ≤ i ∧ i ≤ maxX <;> by_cases hj : minY ≤ j ∧ j ≤ maxY <;>
        by_cases hn : 0 < num i j <;> simp [hi, hj, hn]
    · intro y _ hne
      rw [List.countP_eq_zero]
      intro q hq
      have hq2 : q = ⟨i, y⟩ := by
        split at hq
        · simpa using hq
        · simp at hq
      simp only [decide_eq_true_eq, hq2]
      intro h
      exact hne (congrArg IVec2.y h)
  · intro x _ hne
    rw [List.countP_eq_zero]
    intro q hq
    obtain ⟨y, _, hqy⟩ := List.mem_flatMap.1 hq
    have hq2 : q = ⟨x, y⟩ := by
      split at hqy
      · simpa using hqy
      · simp at hqy
    simp only [decide_eq_true_eq, hq2]
    intro h
    exact hne (congrArg IVec2.x h)

/-- The screen positions of the fragments of the exact-arithmetic rasteriser are
`fillPositionsWith` for its counter `numInside`. -/
theorem map_spos_rasterize_fill (v0 v1 v2 : VertexData) (screen_width screene_height : Nat) :
    (rasterize_fill_edge_function v0 v1 v2 screen_width screene_height []).map
        (fun f => f.spos)
      = fillPositionsWith (numInside v0 v1 v2)
          (min (min v0.spos.x v1.spos.x) v2.spos.x) (max (max v0.spos.x v1.spos.x) v2.spos.x)
          (min (min v0.spos.y v1.spos.y) v2.spos.y) (max (max v0.spos.y v1.spos.y) v2.spos.y) := by
  have hpix : ∀ i j : Int, (fillPixel v0 v1 v2 i j).map (fun f => f.spos)
      = if numInside v0 v1 v2 i j > 0 then [(⟨i, j⟩ : IVec2)] else [] := by
    intro i j
    unfold fillPixel
    split <;> simp [fillFragment]
  simp only [rasterize_fill_edge_function, fillPositionsWith, List.nil_append, List.map_flatMap,
    hpix, fillMinX, fillMaxX, fillMinY, fillMaxY]

/-- C13: for every triangle and every pixel `(i, j)`, `rasterize_fill_edge_function`
keeps the fragments already in `rasterized_points` and appends exactly one fragment
with `spos = (i, j)` when `i` lies between the smallest and the largest `spos.x` of
the three vertices, `j` between the smallest and the largest `spos.y`, and at least
one of the four sub-samples `(i-1/4, j+1/4)`, `(i-1/4, j-1/4)`, `(i+1/4, j+1/4)`,
`(i+1/4, j-1/4)` passes `InsideTriangle`; it appends none with that `spos`
otherwise. This holds with `InsideTriangle` computed over exact arithmetic (first
two parts, on the whole fragments) and with `InsideTriangle` and the sub-samples
computed in binary32 (last part, on the screen positions of the fragments). -/
theorem fill_exactly_one_fragment_per_covered_pixel (v0 v1 v2 : VertexData)
    (screen_width screene_height : Nat) (rasterized_points : List VertexData) (i j : Int) :
    rasterized_points <+:
      rasterize_fill_edge_function v0 v1 v2 screen_width screene_height rasterized_points ∧
    List.countP (fun f : VertexData => decide (f.spos = ⟨i, j⟩))
        (rasterize_fill_edge_function v0 v1 v2 screen_width screene_height rasterized_points)
      = List.countP (fun f : VertexData => decide (f.spos = ⟨i, j⟩)) rasterized_points
        + (if (min (min v0.spos.x v1.spos.x) v2.spos.x ≤ i ∧
                i ≤ max (max v0.spos.x v1.spos.x) v2.spos.x) ∧
              (min (min v0.spos.y v1.spos.y) v2.spos.y ≤ j ∧
                j ≤ max (max v0.spos.y v1.spos.y) v2.spos.y) ∧
              (InsideTriangle v0.spos v1.spos v2.spos ⟨(i : ℚ) - 1 / 4, (j : ℚ) + 1 / 4⟩ = true ∨
               InsideTriangle v0.spos v1.spos v2.spos ⟨(i : ℚ) - 1 / 4, (j : ℚ) - 1 / 4⟩ = true ∨
               InsideTriangle v0.spos v1.spos v2.spos ⟨(i : ℚ) + 1 / 4, (j : ℚ) + 1 / 4⟩ = true ∨
               InsideTriangle v0.spos v1.spos v2.spos ⟨(i : ℚ) + 1 / 4, (j : ℚ) - 1 / 4⟩ = true)
           then 1 else 0) ∧
    List.countP (fun q : IVec2 => decide (q = ⟨i, j⟩)) (fillPositionsF v0.spos v1.spos v2.spos)
      = (if (min (min v0.spos.x v1.spos.x) v2.spos.x ≤ i ∧
                i ≤ max (max v0.spos.x v1.spos.x) v2.spos.x) ∧
              (min (min v0.spos.y v1.spos.y) v2.spos.y ≤ j ∧
                j ≤ max (max v0.spos.y v1.spos.y) v2.spos.y) ∧
              (InsideTriangleF v0.spos v1.spos v2.spos
                  ⟨F32.round (4 * i - 1) (-2), F32.round (4 * j + 1) (-2)⟩ = true ∨
               InsideTriangleF v0.spos v1.spos v2.spos
                  ⟨F32.round (4 * i - 1) (-2), F32.round (4 * j - 1) (-2)⟩ = true ∨
               InsideTriangleF v0.spos v1.spos v2.spos
                  ⟨F32.round (4 * i + 1) (-2), F32.round (4 * j + 1) (-2)⟩ = true ∨
               InsideTriangleF v0.spos v1.spos v2.spos
                  ⟨F32.round (4 * i + 1) (-2), F32.round (4 * j - 1) (-2)⟩ = true)
           then 1 else 0) := by
  refine ⟨List.prefix_append _ _, ?_, ?_⟩
  · unfold rasterize_fill_edge_function
    rw [List.countP_append, countP_fill_rows v0 v1 v2 _ _ (nodup_intRange _ _)
      (nodup_intRange _ _)]
    simp only [mem_intRange, numInside_pos_iff, exists_mem_subSamples, fillMinX, fillMaxX,
      fillMinY, fillMaxY]
  · unfold fillPositionsF
    rw [count_fillPositionsWith]
    simp only [numInsideF_pos_iff, exists_mem_subSamplesF]

/-- C12 (the code at the failing input): on a 4 x 4 screen, for the triangle with
screen positions `(0, 0)`, `(4, 0)`, `(4, 4)`, `rasterize_fill_edge_function`
appends a fragment with `spos = (4, 0)`, whose `spos.x` is not smaller than
`screen_width = 4`: the function never compares a pixel with the window. -/
theorem fill_pushes_outside_window :
    ∃ f ∈ rasterize_fill_edge_function (vertexAtScreen 0 0) (vertexAtScreen 4 0)
        (vertexAtScreen 4 4) 4 4 [],
      f.spos = ⟨4, 0⟩ ∧ ¬ (f.spos.x < 4) := by
  have hin : InsideTriangle (vertexAtScreen 0 0).spos (vertexAtScreen 4 0).spos
      (vertexAtScreen 4 4).spos ⟨((4 : Int) : ℚ) - 1 / 4, ((0 : Int) : ℚ) + 1 / 4⟩ = true := by
    norm_num [InsideTriangle, Vec3.cross, Vec3.sub, vertexAtScreen]
  have hnum : 0 < numInside (vertexAtScreen 0 0) (vertexAtScreen 4 0) (vertexAtScreen 4 4) 4 0 := by
    rw [numInside_pos_iff]
    exact ⟨_, by simp [subSamples], hin⟩
  have hc : 0 < List.countP (fun f : VertexData => decide (f.spos = ⟨4, 0⟩))
      (rasterize_fill_edge_function (vertexAtScreen 0 0) (vertexAtScreen 4 0)
        (vertexAtScreen 4 4) 4 4 []) := by
    unfold rasterize_fill_edge_function
    rw [List.nil_append, countP_fill_rows _ _ _ _ _ (nodup_intRange _ _) (nodup_intRange _ _)]
    have hx : (4 : Int) ∈ intRange (fillMinX (vertexAtScreen 0 0) (vertexAtScreen 4 0)
        (vertexAtScreen 4 4)) (fillMaxX (vertexAtScreen 0 0) (vertexAtScreen 4 0)
        (vertexAtScreen 4 4)) := by
      rw [mem_intRange]; decide
    have hy : (0 : Int) ∈ intRange (fillMinY (vertexAtScreen 0 0) (vertexAtScreen 4 0)
        (vertexAtScreen 4 4)) (fillMaxY (vertexAtScreen 0 0) (vertexAtScreen 4 0)
        (vertexAtScreen 4 4)) := by
      rw [mem_intRange]; decide
    simp [hx, hy, hnum]
  obtain ⟨f, hf, hp⟩ := List.countP_pos_iff.1 hc
  have hs : f.spos = ⟨4, 0⟩ := by simpa using hp
  refine ⟨f, hf, hs, ?_⟩
  rw [hs]
  decide

/-! ### Clipping: the short-circuit and the length of the result -/

theorem clipStep_all_inside (line : Vec4) (input : List VertexData) (k : Nat)
    (hk : k < input.length) (hin : ∀ v ∈ input, 0 ≤ planeDot line v.cpos) :
    clipStep line input (input.take k) k = input.take (k + 1) := by
  have hn : 0 < input.length := by omega
  have hl : (k + input.length - 1) % input.length < input.length := Nat.mod_lt _ hn
  have e1 : input[k]? = some input[k] := List.getElem?_eq_getElem hk
  have e2 : input[(k + input.length - 1) % input.length]?
      = some input[(k + input.length - 1) % input.length] := List.getElem?_eq_getElem hl
  have i1 : Inside line.x line.y line.z line.w input[k].cpos = true :=
    (Inside_true_iff _ _).2 (hin _ (List.getElem_mem hk))
  have i2 : Inside line.x line.y line.z line.w
      input[(k + input.length - 1) % input.length].cpos = true :=
    (Inside_true_iff _ _).2 (hin _ (List.getElem_mem hl))
  unfold clipStep
  rw [e1, e2]
  simp only [i1, i2, if_true, Bool.not_true, Bool.false_eq_true, if_false]
  rw [List.take_succ, e1]
  rfl

theorem clipFold_all_inside (line : Vec4) (input : List VertexData)
    (hin : ∀ v ∈ input, 0 ≤ planeDot line v.cpos) (k : Nat) (hk : k ≤ input.length) :
    (List.range k).foldl (clipStep line input) [] = input.take k := by
  induction k with
  | zero => simp
  | succ k ih =>
      rw [List.range_succ, List.foldl_append, ih (by omega)]
      simp only [List.foldl_cons, List.foldl_nil]
      exact clipStep_all_inside line input k (by omega) hin

/-- Clipping a polygon against a plane all its vertices are inside of returns the
polygon unchanged. -/
theorem clipAgainst_all_inside (line : Vec4) (input : List VertexData)
    (hin : ∀ v ∈ input, 0 ≤ planeDot line v.cpos) : clipAgainst line input = input := by
  unfold clipAgainst
  rw [clipFold_all_inside line input hin input.length (le_refl _), List.take_length]

theorem clipLoop_all_inside (lines : List Vec4) (input : List VertexData)
    (hin : ∀ line ∈ lines, ∀ v ∈ input, 0 ≤ planeDot line v.cpos) :
    clipLoop lines input = input := by
  induction lines with
  | nil => rfl
  | cons l ls ih =>
      have hunf : clipLoop (l :: ls) input = clipLoop ls (clipAgainst l input) := by
        simp [clipLoop]
      rw [hunf, clipAgainst_all_inside l input (hin l (List.mem_cons_self l ls))]
      exact ih (fun line hl => hin line (List.mem_cons_of_mem l hl))

/-- C15: for every input triangle, `cliping` (with its all-vertices-inside
short-circuit) returns the same vertex list as the six-plane Sutherland-Hodgman
loop alone, the `else` branch, run on that triangle. -/
theorem cliping_eq_loop (v0 v1 v2 : VertexData) :
    cliping v0 v1 v2 = clipLoop ViewLines [v0, v1, v2] := by
  unfold cliping
  by_cases h : (PointInside ViewLines v0.cpos && PointInside ViewLines v1.cpos
      && PointInside ViewLines v2.cpos) = true
  · simp only [h, if_true]
    simp only [Bool.and_eq_true] at h
    have h0 := (PointInside_iff ViewLines v0.cpos).1 h.1.1
    have h1 := (PointInside_iff ViewLines v1.cpos).1 h.1.2
    have h2 := (PointInside_iff ViewLines v2.cpos).1 h.2
    symm
    apply clipLoop_all_inside
    intro line hl v hv
    simp only [List.mem_cons, List.mem_singleton, List.not_mem_nil, or_false] at hv
    rcases hv with rfl | rfl | rfl
    · exact h0 line hl
    · exact h1 line hl
    · exact h2 line hl
  · simp only [h, if_false]
    rfl

theorem insideAt_eq (line : Vec4) (input : List VertexData) (j : Nat) (v : VertexData)
    (h : input[j]? = some v) :
    insideAt line input j = Inside line.x line.y line.z line.w v.cpos := by
  simp [insideAt, h]

theorem clipStep_length (line : Vec4) (input output : List VertexData) (j : Nat)
    (hj : j < input.length) :
    (clipStep line input output j).length = output.length + clipCount line input j := by
  have hn : 0 < input.length := by omega
  have hl : (j + input.length - 1) % input.length < input.length := Nat.mod_lt _ hn
  have e1 : input[j]? = some input[j] := List.getElem?_eq_getElem hj
  have e2 : input[(j + input.length - 1) % input.length]?
      = some input[(j + input.length - 1) % input.length] := List.getElem?_eq_getElem hl
  unfold clipStep clipCount
  rw [insideAt_eq line input j _ e1, insideAt_eq line input _ _ e2, e1, e2]
  by_cases h1 : Inside line.x line.y line.z line.w input[j].cpos = true <;>
    by_cases h2 : Inside line.x line.y line.z line.w
      input[(j + input.length - 1) % input.length].cpos = true <;>
    simp [h1, h2]

theorem clipFold_length (line : Vec4) (input : List VertexData) (js : List Nat)
    (output : List VertexData) (hjs : ∀ j ∈ js, j < input.length) :
    (js.foldl (clipStep line input) output).length
      = output.length + (js.map (clipCount line input)).sum := by
  induction js generalizing output with
  | nil => simp
  | cons j js ih =>
      rw [List.foldl_cons, ih _ (fun x hx => hjs x (List.mem_cons_of_mem j hx)),
        clipStep_length line input output j (hjs j (List.mem_cons_self j js))]
      simp only [List.map_cons, List.sum_cons]
      omega

theorem clipAgainst_length (line : Vec4) (input : List VertexData) :
    (clipAgainst line input).length
      = ((List.range input.length).map (clipCount line input)).sum := by
  unfold clipAgainst
  rw [clipFold_length line input _ [] (fun j hj => List.mem_range.1 hj)]
  simp

theorem sum_range_succ_map (f : Nat → Nat) (n : Nat) :
    ((List.range (n + 1)).map f).sum = ((List.range n).map f).sum + f n := by
  rw [List.range_succ, List.map_append, List.sum_append]
  simp

theorem le_sum_range (f : Nat → Nat) (n j : Nat) (hj : j < n) :
    f j ≤ ((List.range n).map f).sum := by
  induction n with
  | zero => omega
  | succ n ih =>
      rw [sum_range_succ_map]
      rcases Nat.lt_succ_iff_lt_or_eq.1 hj with h | h
      · have := ih h
        omega
      · subst h
        omega

theorem add_le_sum_range (f : Nat → Nat) (n j1 j2 : Nat) (h1 : j1 < j2) (h2 : j2 < n) :
    f j1 + f j2 ≤ ((List.range n).map f).sum := by
  induction n with
  | zero => omega
  | succ n ih =>
      rw [sum_range_succ_map]
      rcases Nat.lt_succ_iff_lt_or_eq.1 h2 with h | h
      · have := ih h
        omega
      · subst h
        have := le_sum_range f j2 j1 h1
        omega

theorem add_le_sum_range_of_ne (f : Nat → Nat) (n j1 j2 : Nat) (h1 : j1 < n) (h2 : j2 < n)
    (hne : j1 ≠ j2) : f j1 + f j2 ≤ ((List.range n).map f).sum := by
  rcases Nat.lt_or_gt_of_ne hne with h | h
  · exact add_le_sum_range f n j1 j2 h h2
  · have := add_le_sum_range f n j2 j1 h h1
    omega

/-- A property of the indices of a cyclic sequence that passes from every index to
its predecessor holds at every index as soon as it holds at one. -/
theorem cyclic_propagate (P : Nat → Prop) (n : Nat)
    (hstep : ∀ j, j < n → P j → P ((j + n - 1) % n)) (k : Nat) (hk : k < n) (hPk : P k) :
    ∀ j, j < n → P j := by
  have down : ∀ m, m < n → P m → ∀ j, j ≤ m → P j := by
    intro m
    induction m with
    | zero =>
        intro _ h0 j hj
        have : j = 0 := by omega
        subst this
        exact h0
    | succ m ih =>
        intro hm hP j hj
        rcases Nat.lt_or_ge j (m + 1) with hlt | hge
        · have hpred := hstep (m + 1) hm hP
          have e : (m + 1 + n - 1) % n = m := by
            have : m + 1 + n - 1 = m + n := by omega
            rw [this, Nat.add_mod_right, Nat.mod_eq_of_lt (by omega)]
          rw [e] at hpred
          exact ih (by omega) hpred j (by omega)
        · have : j = m + 1 := by omega
          subst this
          exact hP
  have h0 : P 0 := down k hk hPk 0 (Nat.zero_le k)
  have hlast : P (n - 1) := by
    have hpred := hstep 0 (by omega) h0
    have e : (0 + n - 1) % n = n - 1 := by
      rw [Nat.zero_add, Nat.mod_eq_of_lt (by omega)]
    rw [e] at hpred
    exact hpred
  intro j hj
  exact down (n - 1) (by omega) hlast j (by omega)

/-- A polygon with a vertex inside and a vertex outside the plane has an index at
which the sequence enters the plane and one at which it leaves it. -/
theorem exists_crossings (line : Vec4) (input : List VertexData) (k1 k2 : Nat)
    (h1 : k1 < input.length) (h2 : k2 < input.length)
    (hin : insideAt line input k1 = true) (hout : insideAt line input k2 = false) :
    (∃ j, j < input.length ∧ insideAt line input j = true ∧
        insideAt line input ((j + input.length - 1) % input.length) = false) ∧
    (∃ j, j < input.length ∧ insideAt line input j = false ∧
        insideAt line input ((j + input.length - 1) % input.length) = true) := by
  constructor
  · by_contra hno
    have hstep : ∀ j, j < input.length → insideAt line input j = true →
        insideAt line input ((j + input.length - 1) % input.length) = true := by
      intro j hj hP
      by_contra hq
      exact hno ⟨j, hj, hP, by simpa using hq⟩
    have hP : insideAt line input k2 = true :=
      cyclic_propagate (fun j => insideAt line input j = true) input.length hstep
        k1 h1 hin k2 h2
    rw [hout] at hP
    exact Bool.false_ne_true hP
  · by_contra hno
    have hstep : ∀ j, j < input.length → insideAt line input j = false →
        insideAt line input ((j + input.length - 1) % input.length) = false := by
      intro j hj hP
      by_contra hq
      exact hno ⟨j, hj, hP, by simpa using hq⟩
    have hP : insideAt line input k1 = false :=
      cyclic_propagate (fun j => insideAt line input j = false) input.length hstep
        k2 h2 hout k1 h1
    rw [hin] at hP
    exact Bool.noConfusion hP

/-- One clipping pass over a polygon with a vertex on each side of the plane emits
at least three vertices. -/
theorem clipAgainst_mixed_length (line : Vec4) (input : List VertexData) (k1 k2 : Nat)
    (h1 : k1 < input.length) (h2 : k2 < input.length)
    (hin : insideAt line input k1 = true) (hout : insideAt line input k2 = false) :
    3 ≤ (clipAgainst line input).length := by
  obtain ⟨⟨j1, hj1, a1, b1⟩, ⟨j2, hj2, a2, b2⟩⟩ :=
    exists_crossings line input k1 k2 h1 h2 hin hout
  have hne : j1 ≠ j2 := by
    intro h
    subst h
    rw [a1] at a2
    exact Bool.noConfusion a2
  have hc1 : clipCount line input j1 = 2 := by simp [clipCount, a1, b1]
  have hc2 : clipCount line input j2 = 1 := by simp [clipCount, a2, b2]
  have hs := add_le_sum_range_of_ne (clipCount line input) input.length j1 j2 hj1 hj2 hne
  rw [clipAgainst_length]
  omega

theorem clipAgainst_length_cases (line : Vec4) (input : List VertexData)
    (h : input.length = 0 ∨ 3 ≤ input.length) :
    (clipAgainst line input).length = 0 ∨ 3 ≤ (clipAgainst line input).length := by
  by_cases hall : ∀ v ∈ input, 0 ≤ planeDot line v.cpos
  · rw [clipAgainst_all_inside line input hall]
    exact h
  · by_cases hnone : ∀ v ∈ input, planeDot line v.cpos < 0
    · rw [clipAgainst_same_plane line input hnone]
      exact Or.inl rfl
    · right
      push_neg at hall hnone
      obtain ⟨a, ha, hda⟩ := hall
      obtain ⟨b, hb, hdb⟩ := hnone
      obtain ⟨k2, hk2⟩ := List.mem_iff_getElem?.1 ha
      obtain ⟨k1, hk1⟩ := List.mem_iff_getElem?.1 hb
      have l2 : k2 < input.length := (List.getElem?_eq_some.1 hk2).1
      have l1 : k1 < input.length := (List.getElem?_eq_some.1 hk1).1
      have hin : insideAt line input k1 = true := by
        rw [insideAt_eq line input k1 b hk1]
        exact (Inside_true_iff _ _).2 hdb
      have hout : insideAt line input k2 = false := by
        rw [insideAt_eq line input k2 a hk2]
        exact (Inside_false_iff _ _).2 hda
      exact clipAgainst_mixed_length line input k1 k2 l1 l2 hin hout

theorem clipLoop_length_cases (lines : List Vec4) (input : List VertexData)
    (h : input.length = 0 ∨ 3 ≤ input.length) :
    (clipLoop lines input).length = 0 ∨ 3 ≤ (clipLoop lines input).length := by
  induction lines generalizing input with
  | nil => exact h
  | cons l ls ih =>
      have hunf : clipLoop (l :: ls) input = clipLoop ls (clipAgainst l input) := by
        simp [clipLoop]
      rw [hunf]
      exact ih _ (clipAgainst_length_cases l input h)

/-- C14: for every input triangle, the vertex list returned by `cliping` has length
0 or length at least 3; it never has exactly 1 or 2 vertices. -/
theorem cliping_length_zero_or_ge_three (v0 v1 v2 : VertexData) :
    ((cliping v0 v1 v2).length = 0 ∨ 3 ≤ (cliping v0 v1 v2).length) ∧
    (cliping v0 v1 v2).length ≠ 1 ∧ (cliping v0 v1 v2).length ≠ 2 := by
  have h : (cliping v0 v1 v2).length = 0 ∨ 3 ≤ (cliping v0 v1 v2).length := by
    unfold cliping
    split
    · right
      simp
    · exact clipLoop_length_cases ViewLines [v0, v1, v2] (Or.inr (by simp))
  refine ⟨h, ?_, ?_⟩ <;> omega

/-! ### Sampling: normalisation, the bilinear fallback and the bounds of the reads -/

/-- C22: for every texture and every `uv`, `sample` with filter mode `TR_LINEAR`
returns exactly what `sample` returns with filter mode `TR_NEAREST`, and
`textureSampling_bilinear(texture, uv)` equals `textureSampling_nearest(texture, uv)`. -/
theorem sample_linear_eq_nearest (texture : TRTexture2D) (uv : Vec2) :
    sample texture TRTextureFilterMode.TR_LINEAR uv
      = sample texture TRTextureFilterMode.TR_NEAREST uv ∧
    textureSampling_bilinear texture uv = textureSampling_nearest texture uv ∧
    sample texture TRTextureFilterMode.TR_LINEAR uv = textureSampling_nearest texture uv := by
  refine ⟨rfl, rfl, rfl⟩

theorem byteAt_some (pixels : List Nat) (i : Int) (h0 : 0 ≤ i) (h1 : i < (pixels.length : Int)) :
    ∃ b, byteAt pixels i = some b := by
  unfold byteAt
  have hn : ¬ i < 0 := by omega
  have hl : i.toNat < pixels.length := by omega
  simp only [hn, if_false]
  exact ⟨pixels[i.toNat], List.getElem?_eq_getElem hl⟩

/-- C29 (the code at the failing input): on a 1 x 2 RGB texture (6 bytes),
`readPixel(0, 1)` computes `index = (1 * m_height + 0) * 3 = 6`, so the offsets
6, 7 and 8 it reads are not smaller than `width * height * channels = 6`. -/
theorem readPixel_offset_out_of_bounds :
    readPixelIndex tex1x2 0 1 = 6 ∧
    tex1x2.m_width * tex1x2.m_height * tex1x2.m_channel = 6 ∧
    tex1x2.m_pixels.length = 6 ∧
    ¬ (readPixelIndex tex1x2 0 1 + 0 < tex1x2.m_width * tex1x2.m_height * tex1x2.m_channel) ∧
    readPixel tex1x2 0 1 255 = none := by
  decide

/-- The index of `readPixel` stays inside the pixel data when the texture is at
least as wide as it is high. -/
theorem readPixelIndex_bounds_of_wide (t : TRTexture2D) (u v : Int)
    (hw : 1 ≤ t.m_width) (hh : 1 ≤ t.m_height) (hwh : t.m_height ≤ t.m_width)
    (hc : 0 ≤ t.m_channel) :
    0 ≤ readPixelIndex t u v ∧
    readPixelIndex t u v + t.m_channel ≤ t.m_width * t.m_height * t.m_channel := by
  have hu := wrapCoord_range t.m_warp_mode t.m_width u hw
  have hv := wrapCoord_range t.m_warp_mode t.m_height v hh
  simp only [readPixelIndex, readPixelCoords]
  generalize wrapCoord t.m_warp_mode t.m_width u = c1 at hu
  generalize wrapCoord t.m_warp_mode t.m_height v = c2 at hv
  have h1 : 0 ≤ c2 * t.m_height + c1 := by nlinarith
  have h2 : c2 * t.m_height + c1 + 1 ≤ t.m_width * t.m_height := by nlinarith
  constructor
  · exact mul_nonneg h1 hc
  · have h3 := mul_le_mul_of_nonneg_right h2 hc
    linarith

/-- On a texture at least as wide as it is high, with at least 3 channels and
complete pixel data, `readPixel` returns a texel for all integers `u`, `v`. -/
theorem readPixel_some_of_wide (t : TRTexture2D) (u v : Int) (a : Nat)
    (hw : 1 ≤ t.m_width) (hh : 1 ≤ t.m_height) (hwh : t.m_height ≤ t.m_width)
    (hc : 3 ≤ t.m_channel)
    (hlen : (t.m_pixels.length : Int) = t.m_width * t.m_height * t.m_channel) :
    ∃ px, readPixel t u v a = some px := by
  obtain ⟨h0, h1⟩ := readPixelIndex_bounds_of_wide t u v hw hh hwh (by omega)
  obtain ⟨r, hr⟩ := byteAt_some t.m_pixels (readPixelIndex t u v + 0) (by omega) (by omega)
  obtain ⟨g, hg⟩ := byteAt_some t.m_pixels (readPixelIndex t u v + 1) (by omega) (by omega)
  obtain ⟨b, hb⟩ := byteAt_some t.m_pixels (readPixelIndex t u v + 2) (by omega) (by omega)
  unfold readPixel
  simp only [hr, hg, hb]
  by_cases h4 : t.m_channel ≥ 4
  · obtain ⟨a1, ha1⟩ := byteAt_some t.m_pixels (readPixelIndex t u v + 3) (by omega) (by omega)
    simp [h4, ha1]
  · simp [h4]

/-- On a texture at least as wide as it is high, with at least 3 channels and
complete pixel data, `textureSampling_nearest` returns a texel for every `uv`. -/
theorem textureSampling_nearest_some_of_wide (t : TRTexture2D) (uv : Vec2)
    (hw : 1 ≤ t.m_width) (hh : 1 ≤ t.m_height) (hwh : t.m_height ≤ t.m_width)
    (hc : 3 ≤ t.m_channel)
    (hlen : (t.m_pixels.length : Int) = t.m_width * t.m_height * t.m_channel) :
    ∃ texel, textureSampling_nearest t uv = some texel := by
  obtain ⟨px, hpx⟩ := readPixel_some_of_wide t (nearestCoords t uv).1 (nearestCoords t uv).2
    255 hw hh hwh hc hlen
  unfold textureSampling_nearest
  simp only [hpx]
  exact ⟨_, rfl⟩

/-! ### Barycentric weights and the divisor `u.z` -/

theorem fillWeights_eq_fillU (v0 v1 v2 : VertexData) (i j : Int) :
    fillWeights v0 v1 v2 i j
      = ⟨1 - ((fillU v0 v1 v2 i j).x + (fillU v0 v1 v2 i j).y) / (fillU v0 v1 v2 i j).z,
         (fillU v0 v1 v2 i j).x / (fillU v0 v1 v2 i j).z,
         (fillU v0 v1 v2 i j).y / (fillU v0 v1 v2 i j).z⟩ := rfl

theorem fillU_z (v0 v1 v2 : VertexData) (i j : Int) :
    (fillU v0 v1 v2 i j).z = ((doubleArea v0.spos v1.spos v2.spos : Int) : ℚ) := by
  simp only [fillU, Vec3.cross, doubleArea]
  push_cast
  ring

/-- C23: over exact arithmetic, for a triangle whose three integer screen positions
are not collinear and every pixel `(i, j)`, the weight vector `w` that
`rasterize_fill_edge_function` computes satisfies `w.x + w.y + w.z = 1` and
`w.x*v0.spos + w.y*v1.spos + w.z*v2.spos = (i, j)`. -/
theorem fillWeights_barycentric (v0 v1 v2 : VertexData) (i j : Int)
    (h : doubleArea v0.spos v1.spos v2.spos ≠ 0) :
    (fillWeights v0 v1 v2 i j).x + (fillWeights v0 v1 v2 i j).y
        + (fillWeights v0 v1 v2 i j).z = 1 ∧
    (fillWeights v0 v1 v2 i j).x * (v0.spos.x : ℚ) + (fillWeights v0 v1 v2 i j).y * (v1.spos.x : ℚ)
        + (fillWeights v0 v1 v2 i j).z * (v2.spos.x : ℚ) = (i : ℚ) ∧
    (fillWeights v0 v1 v2 i j).x * (v0.spos.y : ℚ) + (fillWeights v0 v1 v2 i j).y * (v1.spos.y : ℚ)
        + (fillWeights v0 v1 v2 i j).z * (v2.spos.y : ℚ) = (j : ℚ) := by
  have hz : (fillU v0 v1 v2 i j).z ≠ 0 := by
    rw [fillU_z]
    exact_mod_cast h
  have kx : (fillU v0 v1 v2 i j).x * ((v1.spos.x : ℚ) - v0.spos.x)
      + (fillU v0 v1 v2 i j).y * ((v2.spos.x : ℚ) - v0.spos.x)
      + (fillU v0 v1 v2 i j).z * ((v0.spos.x : ℚ) - i) = 0 := by
    simp only [fillU, Vec3.cross]
    push_cast
    ring
  have ky : (fillU v0 v1 v2 i j).x * ((v1.spos.y : ℚ) - v0.spos.y)
      + (fillU v0 v1 v2 i j).y * ((v2.spos.y : ℚ) - v0.spos.y)
      + (fillU v0 v1 v2 i j).z * ((v0.spos.y : ℚ) - j) = 0 := by
    simp only [fillU, Vec3.cross]
    push_cast
    ring
  rw [fillWeights_eq_fillU]
  simp only
  generalize (fillU v0 v1 v2 i j).x = ux at kx ky
  generalize (fillU v0 v1 v2 i j).y = uy at kx ky
  generalize (fillU v0 v1 v2 i j).z = uz at hz kx ky
  refine ⟨?_, ?_, ?_⟩
  · field_simp
    ring
  · have e : (1 - (ux + uy) / uz) * (v0.spos.x : ℚ) + ux / uz * (v1.spos.x : ℚ)
        + uy / uz * (v2.spos.x : ℚ) - (i : ℚ)
        = (ux * ((v1.spos.x : ℚ) - v0.spos.x) + uy * ((v2.spos.x : ℚ) - v0.spos.x)
            + uz * ((v0.spos.x : ℚ) - i)) / uz := by
      field_simp
      ring
    rw [kx, zero_div] at e
    exact sub_eq_zero.1 e
  · have e : (1 - (ux + uy) / uz) * (v0.spos.y : ℚ) + ux / uz * (v1.spos.y : ℚ)
        + uy / uz * (v2.spos.y : ℚ) - (j : ℚ)
        = (ux * ((v1.spos.y : ℚ) - v0.spos.y) + uy * ((v2.spos.y : ℚ) - v0.spos.y)
            + uz * ((v0.spos.y : ℚ) - j)) / uz := by
      field_simp
      ring
    rw [ky, zero_div] at e
    exact sub_eq_zero.1 e

/-- C23, at the triangle with screen positions `(0, 0)`, `(4, 0)`, `(4, 4)` and the
pixel `(3, 1)`. -/
theorem fillWeights_barycentric_witness :
    doubleArea (vertexAtScreen 0 0).spos (vertexAtScreen 4 0).spos (vertexAtScreen 4 4).spos ≠ 0 ∧
    ((fillWeights (vertexAtScreen 0 0) (vertexAtScreen 4 0) (vertexAtScreen 4 4) 3 1).x
        + (fillWeights (vertexAtScreen 0 0) (vertexAtScreen 4 0) (vertexAtScreen 4 4) 3 1).y
        + (fillWeights (vertexAtScreen 0 0) (vertexAtScreen 4 0) (vertexAtScreen 4 4) 3 1).z = 1 ∧
     (fillWeights (vertexAtScreen 0 0) (vertexAtScreen 4 0) (vertexAtScreen 4 4) 3 1).x
          * ((vertexAtScreen 0 0).spos.x : ℚ)
        + (fillWeights (vertexAtScreen 0 0) (vertexAtScreen 4 0) (vertexAtScreen 4 4) 3 1).y
          * ((vertexAtScreen 4 0).spos.x : ℚ)
        + (fillWeights (vertexAtScreen 0 0) (vertexAtScreen 4 0) (vertexAtScreen 4 4) 3 1).z
          * ((vertexAtScreen 4 4).spos.x : ℚ) = ((3 : Int) : ℚ) ∧
     (fillWeights (vertexAtScreen 0 0) (vertexAtScreen 4 0) (vertexAtScreen 4 4) 3 1).x
          * ((vertexAtScreen 0 0).spos.y : ℚ)
        + (fillWeights (vertexAtScreen 0 0) (vertexAtScreen 4 0) (vertexAtScreen 4 4) 3 1).y
          * ((vertexAtScreen 4 0).spos.y : ℚ)
        + (fillWeights (vertexAtScreen 0 0) (vertexAtScreen 4 0) (vertexAtScreen 4 4) 3 1).z
          * ((vertexAtScreen 4 4).spos.y : ℚ) = ((1 : Int) : ℚ)) := by
  have h : doubleArea (vertexAtScreen 0 0).spos (vertexAtScreen 4 0).spos
      (vertexAtScreen 4 4).spos ≠ 0 := by decide
  exact ⟨h, fillWeights_barycentric _ _ _ 3 1 h⟩

/-- C28 (the code at the failing input): for the three coincident screen positions
`(1, 1)`, `(1, 1)`, `(1, 1)`, all four sub-samples of pixel `(1, 1)` pass
`InsideTriangle` (`num = 4`), a fragment is pushed for that pixel, and the divisor
`u.z` of its barycentric weights is 0. -/
theorem fill_divides_by_zero_on_coincident :
    numInside (vertexAtScreen 1 1) (vertexAtScreen 1 1) (vertexAtScreen 1 1) 1 1 = 4 ∧
    (∃ s ∈ subSamples 1 1, InsideTriangle (vertexAtScreen 1 1).spos (vertexAtScreen 1 1).spos
        (vertexAtScreen 1 1).spos s = true) ∧
    (fillPixel (vertexAtScreen 1 1) (vertexAtScreen 1 1) (vertexAtScreen 1 1) 1 1).length = 1 ∧
    (fillU (vertexAtScreen 1 1) (vertexAtScreen 1 1) (vertexAtScreen 1 1) 1 1).z = 0 := by
  have hall : ∀ p : Vec2, InsideTriangle (vertexAtScreen 1 1).spos (vertexAtScreen 1 1).spos
      (vertexAtScreen 1 1).spos p = true := by
    intro p
    simp [InsideTriangle, Vec3.cross, Vec3.sub, vertexAtScreen]
  have hnum : numInside (vertexAtScreen 1 1) (vertexAtScreen 1 1) (vertexAtScreen 1 1) 1 1 = 4 := by
    simp [numInside, subSamples, hall]
  refine ⟨hnum, ⟨_, List.mem_cons_self _ _, hall _⟩, ?_, ?_⟩
  · simp [fillPixel, hnum]
  · rw [fillU_z]
    simp [doubleArea, vertexAtScreen]

/-! ### Line rasterisation: the pixels of the loop and the interpolation parameter -/

/-- The loop of `rasterize_wire_aux` runs over `wireCounters` and divides the loop
counter by `wireDivisor`. -/
theorem rasterize_wire_aux_eq_counters (vfrom vto : VertexData) (screen_width screen_height : Nat)
    (rasterized_points : List VertexData) :
    rasterize_wire_aux vfrom vto screen_width screen_height rasterized_points
      = ((if wireDy vfrom vto ≤ wireDx vfrom vto then
            (wireCounters vfrom vto).foldl
              (wireStepX vfrom vto (wireDivisor vfrom vto)
                (if vto.spos.x - vfrom.spos.x < 0 then -1 else 1)
                (if vto.spos.y - vfrom.spos.y < 0 then -1 else 1)
                (2 * wireDy vfrom vto) (2 * wireDy vfrom vto - 2 * wireDx vfrom vto)
                screen_width screen_height)
              ⟨vfrom.spos.x, vfrom.spos.y, 2 * wireDy vfrom vto - wireDx vfrom vto,
                rasterized_points⟩
          else
            (wireCounters vfrom vto).foldl
              (wireStepY vfrom vto (wireDivisor vfrom vto)
                (if vto.spos.x - vfrom.spos.x < 0 then -1 else 1)
                (if vto.spos.y - vfrom.spos.y < 0 then -1 else 1)
                (2 * wireDx vfrom vto) (2 * wireDy vfrom vto - 2 * wireDx vfrom vto)
                screen_width screen_height)
              ⟨vfrom.spos.x, vfrom.spos.y, 2 * wireDx vfrom vto - wireDy vfrom vto,
                rasterized_points⟩).rasterized_points ++ [vfrom]) ++ [vto] := by
  unfold rasterize_wire_aux wireCounters wireDivisor
  by_cases h : wireDy vfrom vto ≤ wireDx vfrom vto
  · have h' := h
    unfold wireDy wireDx at h'
    simp only [h, h', if_true]
    rfl
  · have h' := h
    unfold wireDy wireDx at h'
    simp only [h, h', if_false]
    rfl

theorem wireDx_abs (vfrom vto : VertexData) :
    0 ≤ wireDx vfrom vto ∧ (wireDx vfrom vto = 0 ↔ vfrom.spos.x = vto.spos.x) := by
  unfold wireDx
  split <;> constructor <;> omega

theorem wireDy_abs (vfrom vto : VertexData) :
    0 ≤ wireDy vfrom vto ∧ (wireDy vfrom vto = 0 ↔ vfrom.spos.y = vto.spos.y) := by
  unfold wireDy
  split <;> constructor <;> omega

theorem wireDivisor_nonneg (vfrom vto : VertexData) : 0 ≤ wireDivisor vfrom vto := by
  have hx := (wireDx_abs vfrom vto).1
  have hy := (wireDy_abs vfrom vto).1
  unfold wireDivisor
  split <;> omega

theorem wireDivisor_eq_zero_iff (vfrom vto : VertexData) :
    wireDivisor vfrom vto = 0 ↔ vfrom.spos = vto.spos := by
  obtain ⟨hx0, hx⟩ := wireDx_abs vfrom vto
  obtain ⟨hy0, hy⟩ := wireDy_abs vfrom vto
  have key : wireDivisor vfrom vto = 0 ↔ (wireDx vfrom vto = 0 ∧ wireDy vfrom vto = 0) := by
    unfold wireDivisor
    split <;> constructor <;> intro h <;> omega
  rw [key, hx, hy]
  constructor
  · rintro ⟨h1, h2⟩
    exact IVec2.ext h1 h2
  · intro h
    rw [h]
    exact ⟨rfl, rfl⟩

/-- When the two endpoints have different screen positions, every parameter
`rasterize_wire_aux` passes to `lerp` lies in `[0, 1]`. -/
theorem wireParams_mem_unit (vfrom vto : VertexData) (h : vfrom.spos ≠ vto.spos) :
    0 < wireDivisor vfrom vto ∧ ∀ t ∈ wireParams vfrom vto, 0 ≤ t ∧ t ≤ 1 := by
  have hpos : 0 < wireDivisor vfrom vto := by
    have h0 := wireDivisor_nonneg vfrom vto
    have hne : wireDivisor vfrom vto ≠ 0 := fun e => h ((wireDivisor_eq_zero_iff _ _).1 e)
    omega
  refine ⟨hpos, ?_⟩
  intro t ht
  simp only [wireParams, wireCounters, List.mem_map, List.mem_range] at ht
  obtain ⟨i, hi, rfl⟩ := ht
  have hq : (0 : ℚ) < (wireDivisor vfrom vto : ℚ) := by exact_mod_cast hpos
  have hi2 : (i : Int) ≤ wireDivisor vfrom vto := by omega
  have hi3 : (i : ℚ) ≤ (wireDivisor vfrom vto : ℚ) := by exact_mod_cast hi2
  constructor
  · exact div_nonneg (Nat.cast_nonneg i) hq.le
  · rw [div_le_one hq]
    exact hi3

/-- C27 (the code at the failing input): for `from` and `to` both at screen position
`(1, 1)`, the major-axis length `rasterize_wire_aux` divides by is 0, and the loop
runs once, with counter 0: `lerp` is called with `0.0 / 0`. -/
theorem wire_divides_by_zero_on_coincident :
    wireDx (vertexAtScreen 1 1) (vertexAtScreen 1 1) = 0 ∧
    wireDy (vertexAtScreen 1 1) (vertexAtScreen 1 1) = 0 ∧
    wireDivisor (vertexAtScreen 1 1) (vertexAtScreen 1 1) = 0 ∧
    wireCounters (vertexAtScreen 1 1) (vertexAtScreen 1 1) = [0] := by
  decide

/-- C26 (the code at the failing input): on a 10 x 10 screen, with `from` at screen
position `(0, 0)` and `to` at `(2, 0)`, the points `rasterize_wire_aux` appends have
the screen positions `(1, 0)`, `(2, 0)`, `(3, 0)`, then `(0, 0)` and `(2, 0)` from the
trailing pushes: the loop steps before it emits and runs `dx + 1` times, so it
emits `(3, 0)`, one pixel beyond `to`. -/
theorem wire_emits_beyond_endpoint :
    (rasterize_wire_aux (vertexAtScreen 0 0) (vertexAtScreen 2 0) 10 10 []).map
        (fun f => f.spos) = [⟨1, 0⟩, ⟨2, 0⟩, ⟨3, 0⟩, ⟨0, 0⟩, ⟨2, 0⟩] ∧
    (∃ f ∈ rasterize_wire_aux (vertexAtScreen 0 0) (vertexAtScreen 2 0) 10 10 [],
        f.spos = ⟨3, 0⟩ ∧
        ¬ (f.spos.x ≤ max (vertexAtScreen 0 0).spos.x (vertexAtScreen 2 0).spos.x)) := by
  have hmap : (rasterize_wire_aux (vertexAtScreen 0 0) (vertexAtScreen 2 0) 10 10 []).map
      (fun f => f.spos) = [⟨1, 0⟩, ⟨2, 0⟩, ⟨3, 0⟩, ⟨0, 0⟩, ⟨2, 0⟩] := by
    decide
  refine ⟨hmap, ?_⟩
  have hmem : (⟨3, 0⟩ : IVec2) ∈
      (rasterize_wire_aux (vertexAtScreen 0 0) (vertexAtScreen 2 0) 10 10 []).map
        (fun f => f.spos) := by
    rw [hmap]
    decide
  obtain ⟨f, hf, hs⟩ := List.mem_map.1 hmem
  refine ⟨f, hf, hs, ?_⟩
  rw [hs]
  decide

/-! ### Clipping: every returned vertex is inside the frustum -/

/-- The vertex `Intersect` computes for an edge that crosses the plane lies on the
plane. -/
theorem planeDot_Intersect (a b : VertexData) (line : Vec4)
    (h : planeDot line a.cpos ≠ planeDot line b.cpos) :
    planeDot line (Intersect a b line).cpos = 0 := by
  rw [Intersect_eq_lerp, planeDot_lerp]
  have hd : planeDot line a.cpos - planeDot line b.cpos ≠ 0 := sub_ne_zero.2 h
  field_simp
  ring

/-- A convex combination of two vertices inside a plane is inside it. -/
theorem lerp_inside (plane : Vec4) (a b : VertexData) (t : ℚ)
    (ha : 0 ≤ planeDot plane a.cpos) (hb : 0 ≤ planeDot plane b.cpos)
    (ht0 : 0 ≤ t) (ht1 : t ≤ 1) :
    0 ≤ planeDot plane (VertexData.lerp a b t).cpos := by
  rw [planeDot_lerp]
  have h1 : 0 ≤ (1 - t) * planeDot plane a.cpos := mul_nonneg (by linarith) ha
  have h2 : 0 ≤ t * planeDot plane b.cpos := mul_nonneg ht0 hb
  linarith

/-- The two facts about a vertex pushed by `Intersect` in `cliping`: it is on the
plane it was cut by, and it is inside every plane both endpoints are inside of. -/
theorem Intersect_crossing (plane line : Vec4) (a b : VertexData)
    (h : (0 ≤ planeDot line a.cpos ∧ planeDot line b.cpos < 0) ∨
         (planeDot line a.cpos < 0 ∧ 0 ≤ planeDot line b.cpos)) :
    0 ≤ planeDot line (Intersect a b line).cpos ∧
    (0 ≤ planeDot plane a.cpos → 0 ≤ planeDot plane b.cpos →
      0 ≤ planeDot plane (Intersect a b line).cpos) := by
  constructor
  · have hne : planeDot line a.cpos ≠ planeDot line b.cpos := by
      rcases h with ⟨h1, h2⟩ | ⟨h1, h2⟩
      · exact fun e => by linarith
      · exact fun e => by linarith
    rw [planeDot_Intersect a b line hne]
  · intro ha hb
    have hw := Intersect_weight_mem (planeDot line a.cpos) (planeDot line b.cpos) h
    rw [Intersect_eq_lerp]
    exact lerp_inside plane a b _ ha hb hw.1 hw.2

/-- The vertices one iteration pushes, listed by cases. -/
theorem mem_clipStep (line : Vec4) (input output : List VertexData) (j : Nat) (v : VertexData)
    (hv : v ∈ clipStep line input output j) :
    v ∈ output ∨
    ∃ current last, current ∈ input ∧ last ∈ input ∧
      ((v = current ∧ 0 ≤ planeDot line current.cpos) ∨
       (v = Intersect last current line ∧
          ((0 ≤ planeDot line last.cpos ∧ planeDot line current.cpos < 0) ∨
           (planeDot line last.cpos < 0 ∧ 0 ≤ planeDot line current.cpos)))) := by
  unfold clipStep at hv
  split at hv
  · rename_i current last hc hl
    have mc := mem_of_getElem?_eq_some _ _ _ hc
    have ml := mem_of_getElem?_eq_some _ _ _ hl
    by_cases h1 : Inside line.x line.y line.z line.w current.cpos = true
    · have d1 := (Inside_true_iff _ _).1 h1
      by_cases h2 : Inside line.x line.y line.z line.w last.cpos = true
      · simp only [h1, h2, if_true, Bool.not_true, Bool.false_eq_true, if_false,
          List.mem_append, List.mem_singleton] at hv
        rcases hv with hv | hv
        · exact Or.inl hv
        · exact Or.inr ⟨current, last, mc, ml, Or.inl ⟨hv, d1⟩⟩
      · have h2f : Inside line.x line.y line.z line.w last.cpos = false := by
          simpa using h2
        have d2 := (Inside_false_iff _ _).1 h2f
        simp only [h1, h2f, if_true, Bool.not_false, List.mem_append,
          List.mem_singleton] at hv
        rcases hv with (hv | hv) | hv
        · exact Or.inl hv
        · exact Or.inr ⟨current, last, mc, ml, Or.inr ⟨hv, Or.inr ⟨d2, d1⟩⟩⟩
        · exact Or.inr ⟨current, last, mc, ml, Or.inl ⟨hv, d1⟩⟩
    · have h1f : Inside line.x line.y line.z line.w current.cpos = false := by
        simpa using h1
      have d1 := (Inside_false_iff _ _).1 h1f
      by_cases h2 : Inside line.x line.y line.z line.w last.cpos = true
      · have d2 := (Inside_true_iff _ _).1 h2
        simp only [h1f, h2, if_true, Bool.false_eq_true, if_false, List.mem_append,
          List.mem_singleton] at hv
        rcases hv with hv | hv
        · exact Or.inl hv
        · exact Or.inr ⟨current, last, mc, ml, Or.inr ⟨hv, Or.inl ⟨d2, d1⟩⟩⟩
      · have h2f : Inside line.x line.y line.z line.w last.cpos = false := by
          simpa using h2
        simp only [h1f, h2f, Bool.false_eq_true, if_false] at hv
        exact Or.inl hv
  · exact Or.inl hv

/-- After the pass against `line`, every vertex is inside `line`. -/
theorem clipAgainst_inside_same (line : Vec4) (input : List VertexData) :
    ∀ v ∈ clipAgainst line input, 0 ≤ planeDot line v.cpos := by
  unfold clipAgainst
  apply foldl_invariant (fun out : List VertexData => ∀ v ∈ out, 0 ≤ planeDot line v.cpos)
  · intro v hv
    simp at hv
  · intro acc j hacc _ v hv
    rcases mem_clipStep line input acc j v hv with h | ⟨current, last, _, _, h⟩
    · exact hacc v h
    · rcases h with ⟨rfl, hd⟩ | ⟨rfl, hcross⟩
      · exact hd
      · exact (Intersect_crossing line line last current hcross).1

/-- A pass against `line` keeps a polygon that is inside `plane` inside it. -/
theorem clipAgainst_inside_other (plane line : Vec4) (input : List VertexData)
    (hin : ∀ v ∈ input, 0 ≤ planeDot plane v.cpos) :
    ∀ v ∈ clipAgainst line input, 0 ≤ planeDot plane v.cpos := by
  unfold clipAgainst
  apply foldl_invariant (fun out : List VertexData => ∀ v ∈ out, 0 ≤ planeDot plane v.cpos)
  · intro v hv
    simp at hv
  · intro acc j hacc _ v hv
    rcases mem_clipStep line input acc j v hv with h | ⟨current, last, mc, ml, h⟩
    · exact hacc v h
    · rcases h with ⟨rfl, _⟩ | ⟨rfl, hcross⟩
      · exact hin _ mc
      · exact (Intersect_crossing plane line last current hcross).2 (hin _ ml) (hin _ mc)

theorem clipLoop_inside_kept (plane : Vec4) (lines : List Vec4) (input : List VertexData)
    (hin : ∀ v ∈ input, 0 ≤ planeDot plane v.cpos) :
    ∀ v ∈ clipLoop lines input, 0 ≤ planeDot plane v.cpos := by
  induction lines generalizing input with
  | nil => exact hin
  | cons l ls ih =>
      have hunf : clipLoop (l :: ls) input = clipLoop ls (clipAgainst l input) := by
        simp [clipLoop]
      rw [hunf]
      exact ih _ (clipAgainst_inside_other plane l input hin)

theorem clipLoop_inside (plane : Vec4) (lines : List Vec4) (input : List VertexData)
    (hp : plane ∈ lines) : ∀ v ∈ clipLoop lines input, 0 ≤ planeDot plane v.cpos := by
  induction lines generalizing input with
  | nil => simp at hp
  | cons l ls ih =>
      have hunf : clipLoop (l :: ls) input = clipLoop ls (clipAgainst l input) := by
        simp [clipLoop]
      rw [hunf]
      rcases List.mem_cons.1 hp with h | h
      · subst h
        exact clipLoop_inside_kept plane ls _ (clipAgainst_inside_same plane input)
      · exact ih _ h

theorem cliping_inside_plane (v0 v1 v2 : VertexData) (plane : Vec4) (hp : plane ∈ ViewLines) :
    ∀ v ∈ cliping v0 v1 v2, 0 ≤ planeDot plane v.cpos := by
  unfold cliping
  by_cases h : (PointInside ViewLines v0.cpos && PointInside ViewLines v1.cpos
      && PointInside ViewLines v2.cpos) = true
  · simp only [h, if_true]
    simp only [Bool.and_eq_true] at h
    intro v hv
    simp only [List.mem_cons, List.mem_singleton, List.not_mem_nil, or_false] at hv
    rcases hv with rfl | rfl | rfl
    · exact (PointInside_iff ViewLines _).1 h.1.1 plane hp
    · exact (PointInside_iff ViewLines _).1 h.1.2 plane hp
    · exact (PointInside_iff ViewLines _).1 h.2 plane hp
  · simp only [h, if_false]
    exact clipLoop_inside plane ViewLines _ hp

/-- C24: over exact arithmetic, for every input triangle, every vertex of the list
`cliping` returns satisfies the six frustum plane inequalities on `cpos`
(`-w ≤ x ≤ w`, `-w ≤ y ≤ w`, `-w ≤ z ≤ w`), and has `cpos.w ≥ 0`. -/
theorem cliping_result_in_frustum (v0 v1 v2 : VertexData) :
    ∀ v ∈ cliping v0 v1 v2,
      (-v.cpos.w ≤ v.cpos.x ∧ v.cpos.x ≤ v.cpos.w) ∧
      (-v.cpos.w ≤ v.cpos.y ∧ v.cpos.y ≤ v.cpos.w) ∧
      (-v.cpos.w ≤ v.cpos.z ∧ v.cpos.z ≤ v.cpos.w) ∧
      0 ≤ v.cpos.w ∧
      (∀ plane ∈ ViewLines, Inside plane.x plane.y plane.z plane.w v.cpos = true) := by
  intro v hv
  have hnear := cliping_inside_plane v0 v1 v2 ⟨0, 0, 1, 1⟩ (by simp [ViewLines]) v hv
  have hfar := cliping_inside_plane v0 v1 v2 ⟨0, 0, -1, 1⟩ (by simp [ViewLines]) v hv
  have hleft := cliping_inside_plane v0 v1 v2 ⟨1, 0, 0, 1⟩ (by simp [ViewLines]) v hv
  have hright := cliping_inside_plane v0 v1 v2 ⟨-1, 0, 0, 1⟩ (by simp [ViewLines]) v hv
  have htop := cliping_inside_plane v0 v1 v2 ⟨0, -1, 0, 1⟩ (by simp [ViewLines]) v hv
  have hbottom := cliping_inside_plane v0 v1 v2 ⟨0, 1, 0, 1⟩ (by simp [ViewLines]) v hv
  simp only [planeDot] at hnear hfar hleft hright htop hbottom
  refine ⟨⟨by linarith, by linarith⟩, ⟨by linarith, by linarith⟩,
    ⟨by linarith, by linarith⟩, by linarith, ?_⟩
  intro plane hp
  exact (Inside_true_iff plane v.cpos).2 (cliping_inside_plane v0 v1 v2 plane hp v hv)

/-! ### The inside test of a triangle -/

theorem InsideTriangle_eq (v0 v1 v2 : IVec2) (p : Vec2) :
    InsideTriangle v0 v1 v2 p
      = ((decide (edgeCrossZ v0 v1 p ≥ 0) == decide (edgeCrossZ v1 v2 p ≥ 0)) &&
         (decide (edgeCrossZ v1 v2 p ≥ 0) == decide (edgeCrossZ v2 v0 p ≥ 0))) := by
  simp [InsideTriangle, Vec3.cross, Vec3.sub, edgeCrossZ]

/-- The three tested values add up to minus twice the signed area. -/
theorem edgeCrossZ_sum (v0 v1 v2 : IVec2) (p : Vec2) :
    edgeCrossZ v0 v1 p + edgeCrossZ v1 v2 p + edgeCrossZ v2 v0 p
      = -((doubleArea v0 v1 v2 : Int) : ℚ) := by
  simp only [edgeCrossZ, doubleArea]
  push_cast
  ring

/-- The tested values of a convex combination `a*v0 + b*v1 + c*v2`. -/
theorem edgeCrossZ_of_combination (v0 v1 v2 : IVec2) (p : Vec2) (a b c : ℚ)
    (hsum : a + b + c = 1)
    (hx : p.x = a * (v0.x : ℚ) + b * (v1.x : ℚ) + c * (v2.x : ℚ))
    (hy : p.y = a * (v0.y : ℚ) + b * (v1.y : ℚ) + c * (v2.y : ℚ)) :
    edgeCrossZ v0 v1 p = -(c * ((doubleArea v0 v1 v2 : Int) : ℚ)) ∧
    edgeCrossZ v1 v2 p = -(a * ((doubleArea v0 v1 v2 : Int) : ℚ)) ∧
    edgeCrossZ v2 v0 p = -(b * ((doubleArea v0 v1 v2 : Int) : ℚ)) := by
  have ha : a = 1 - b - c := by linarith
  subst ha
  simp only [edgeCrossZ, doubleArea, hx, hy]
  push_cast
  refine ⟨?_, ?_, ?_⟩ <;> ring

/-- The point `p` as a combination of the vertices weighted by the tested values. -/
theorem edgeCrossZ_reconstruct (v0 v1 v2 : IVec2) (p : Vec2) :
    edgeCrossZ v1 v2 p * (v0.x : ℚ) + edgeCrossZ v2 v0 p * (v1.x : ℚ)
        + edgeCrossZ v0 v1 p * (v2.x : ℚ) = -((doubleArea v0 v1 v2 : Int) : ℚ) * p.x ∧
    edgeCrossZ v1 v2 p * (v0.y : ℚ) + edgeCrossZ v2 v0 p * (v1.y : ℚ)
        + edgeCrossZ v0 v1 p * (v2.y : ℚ) = -((doubleArea v0 v1 v2 : Int) : ℚ) * p.y := by
  simp only [edgeCrossZ, doubleArea]
  push_cast
  constructor <;> ring

theorem InsideTriangle_of_strictlyInside (v0 v1 v2 : IVec2) (p : Vec2)
    (h : doubleArea v0 v1 v2 ≠ 0) (hin : strictlyInsideTriangle v0 v1 v2 p) :
    InsideTriangle v0 v1 v2 p = true := by
  obtain ⟨a, b, c, ha, hb, hc, hsum, hx, hy⟩ := hin
  obtain ⟨e0, e1, e2⟩ := edgeCrossZ_of_combination v0 v1 v2 p a b c hsum hx hy
  have hD : ((doubleArea v0 v1 v2 : Int) : ℚ) ≠ 0 := by exact_mod_cast h
  rw [InsideTriangle_eq, e0, e1, e2]
  rcases lt_or_gt_of_ne hD with hneg | hpos
  · have p0 : -(c * ((doubleArea v0 v1 v2 : Int) : ℚ)) ≥ 0 := by nlinarith
    have p1 : -(a * ((doubleArea v0 v1 v2 : Int) : ℚ)) ≥ 0 := by nlinarith
    have p2 : -(b * ((doubleArea v0 v1 v2 : Int) : ℚ)) ≥ 0 := by nlinarith
    simp only [p0, p1, p2, decide_True, beq_self_eq_true, Bool.and_self]
  · have p0 : ¬ (-(c * ((doubleArea v0 v1 v2 : Int) : ℚ)) ≥ 0) := by
      have := mul_pos hc hpos
      intro hge
      linarith
    have p1 : ¬ (-(a * ((doubleArea v0 v1 v2 : Int) : ℚ)) ≥ 0) := by
      have := mul_pos ha hpos
      intro hge
      linarith
    have p2 : ¬ (-(b * ((doubleArea v0 v1 v2 : Int) : ℚ)) ≥ 0) := by
      have := mul_pos hb hpos
      intro hge
      linarith
    simp only [p0, p1, p2, decide_False, beq_self_eq_true, Bool.and_self]

theorem inClosedTriangle_of_InsideTriangle (v0 v1 v2 : IVec2) (p : Vec2)
    (h : doubleArea v0 v1 v2 ≠ 0) (hin : InsideTriangle v0 v1 v2 p = true) :
    inClosedTriangle v0 v1 v2 p := by
  have hD : ((doubleArea v0 v1 v2 : Int) : ℚ) ≠ 0 := by exact_mod_cast h
  have hsum := edgeCrossZ_sum v0 v1 v2 p
  obtain ⟨rx, ry⟩ := edgeCrossZ_reconstruct v0 v1 v2 p
  rw [InsideTriangle_eq] at hin
  simp only [Bool.and_eq_true, beq_iff_eq, decide_eq_decide] at hin
  obtain ⟨h01, h12⟩ := hin
  have hND : -((doubleArea v0 v1 v2 : Int) : ℚ) ≠ 0 := neg_ne_zero.2 hD
  have nonneg : 0 ≤ edgeCrossZ v1 v2 p / -((doubleArea v0 v1 v2 : Int) : ℚ) ∧
      0 ≤ edgeCrossZ v2 v0 p / -((doubleArea v0 v1 v2 : Int) : ℚ) ∧
      0 ≤ edgeCrossZ v0 v1 p / -((doubleArea v0 v1 v2 : Int) : ℚ) := by
    by_cases g1 : edgeCrossZ v1 v2 p ≥ 0
    · have g0 : edgeCrossZ v0 v1 p ≥ 0 := h01.2 g1
      have g2 : edgeCrossZ v2 v0 p ≥ 0 := h12.1 g1
      have hpos : 0 ≤ -((doubleArea v0 v1 v2 : Int) : ℚ) := by linarith
      exact ⟨div_nonneg g1 hpos, div_nonneg g2 hpos, div_nonneg g0 hpos⟩
    · have g0 : ¬ edgeCrossZ v0 v1 p ≥ 0 := fun hg => g1 (h01.1 hg)
      have g2 : ¬ edgeCrossZ v2 v0 p ≥ 0 := fun hg => g1 (h12.2 hg)
      have hneg : -((doubleArea v0 v1 v2 : Int) : ℚ) ≤ 0 := by
        have a0 := not_le.1 g0
        have a1 := not_le.1 g1
        have a2 := not_le.1 g2
        linarith
      exact ⟨div_nonneg_of_nonpos (not_le.1 g1).le hneg,
        div_nonneg_of_nonpos (not_le.1 g2).le hneg,
        div_nonneg_of_nonpos (not_le.1 g0).le hneg⟩
  refine ⟨edgeCrossZ v1 v2 p / -((doubleArea v0 v1 v2 : Int) : ℚ),
    edgeCrossZ v2 v0 p / -((doubleArea v0 v1 v2 : Int) : ℚ),
    edgeCrossZ v0 v1 p / -((doubleArea v0 v1 v2 : Int) : ℚ),
    nonneg.1, nonneg.2.1, nonneg.2.2, ?_, ?_, ?_⟩
  · rw [← add_div, ← add_div]
    rw [div_eq_one_iff_eq hND]
    linarith
  · rw [eq_comm, div_mul_eq_mul_div, div_mul_eq_mul_div, div_mul_eq_mul_div, ← add_div,
      ← add_div, div_eq_iff hND, rx]
    ring
  · rw [eq_comm, div_mul_eq_mul_div, div_mul_eq_mul_div, div_mul_eq_mul_div, ← add_div,
      ← add_div, div_eq_iff hND, ry]
    ring

/-- C25 (as amended): over exact arithmetic, for a triangle with non-collinear integer
vertices (in either winding order: twice the signed area may have either sign) and every
point `p`, `InsideTriangle(v0, v1, v2, p)` is true when `p` lies strictly inside the
triangle and false when `p` lies outside the closed triangle. -/
theorem InsideTriangle_correct (v0 v1 v2 : IVec2) (p : Vec2)
    (h : doubleArea v0 v1 v2 ≠ 0) :
    (strictlyInsideTriangle v0 v1 v2 p → InsideTriangle v0 v1 v2 p = true) ∧
    (¬ inClosedTriangle v0 v1 v2 p → InsideTriangle v0 v1 v2 p = false) := by
  constructor
  · exact InsideTriangle_of_strictlyInside v0 v1 v2 p h
  · intro hout
    rw [← Bool.not_eq_true]
    intro hin
    exact hout (inClosedTriangle_of_InsideTriangle v0 v1 v2 p h hin)

theorem strictlyInsideTriangle_sample :
    strictlyInsideTriangle ⟨0, 0⟩ ⟨4, 0⟩ ⟨4, 4⟩ ⟨3, 1⟩ := by
  refine ⟨1 / 4, 1 / 2, 1 / 4, ?_, ?_, ?_, ?_, ?_, ?_⟩ <;> norm_num

/-- C25, at the triangle `(0, 0)`, `(4, 0)`, `(4, 4)` and the point `(3, 1)`, which
lies strictly inside it. -/
theorem InsideTriangle_correct_witness :
    (doubleArea ⟨0, 0⟩ ⟨4, 0⟩ ⟨4, 4⟩ ≠ 0 ∧
      strictlyInsideTriangle ⟨0, 0⟩ ⟨4, 0⟩ ⟨4, 4⟩ ⟨3, 1⟩) ∧
    ((strictlyInsideTriangle ⟨0, 0⟩ ⟨4, 0⟩ ⟨4, 4⟩ ⟨3, 1⟩ →
        InsideTriangle ⟨0, 0⟩ ⟨4, 0⟩ ⟨4, 4⟩ ⟨3, 1⟩ = true) ∧
     (¬ inClosedTriangle ⟨0, 0⟩ ⟨4, 0⟩ ⟨4, 4⟩ ⟨3, 1⟩ →
        InsideTriangle ⟨0, 0⟩ ⟨4, 0⟩ ⟨4, 4⟩ ⟨3, 1⟩ = false)) := by
  have h : doubleArea ⟨0, 0⟩ ⟨4, 0⟩ ⟨4, 4⟩ ≠ 0 := by decide
  exact ⟨⟨h, strictlyInsideTriangle_sample⟩,
    InsideTriangle_correct ⟨0, 0⟩ ⟨4, 0⟩ ⟨4, 4⟩ ⟨3, 1⟩ h⟩

/-! ### A clipped triangle -/

set_option maxHeartbeats 1000000 in
/-- The clip-space positions `cliping` returns for a triangle that sticks out of the
right plane `x ≤ w`: two vertices are cut on that plane. -/
theorem cliping_sample_cpos :
    (cliping (vertexAt ⟨3, 0, 0, 1⟩) (vertexAt ⟨0, 0, 0, 1⟩) (vertexAt ⟨0, 1, 0, 1⟩)).map
        (fun v => v.cpos)
      = [⟨1, 2 / 3, 0, 1⟩, ⟨1, 0, 0, 1⟩, ⟨0, 0, 0, 1⟩, ⟨0, 1, 0, 1⟩] := by
  norm_num [cliping, PointInside, ViewLines, Inside, clipLoop, clipAgainst, clipStep, Intersect,
    VertexData.lerp, vertexAt, List.range_succ, List.range_zero, Vec4.add, Vec4.scale, Vec3.add,
    Vec3.scale, Vec2.add, Vec2.scale, truncToInt]

/-- C24, at the vertex with `cpos = (1, 2/3, 0, 1)` that `cliping` cuts on the right
plane for the triangle `(3, 0, 0, 1)`, `(0, 0, 0, 1)`, `(0, 1, 0, 1)`. -/
theorem cliping_result_in_frustum_witness :
    ∃ v ∈ cliping (vertexAt ⟨3, 0, 0, 1⟩) (vertexAt ⟨0, 0, 0, 1⟩) (vertexAt ⟨0, 1, 0, 1⟩),
      v.cpos = ⟨1, 2 / 3, 0, 1⟩ ∧
      ((-v.cpos.w ≤ v.cpos.x ∧ v.cpos.x ≤ v.cpos.w) ∧
       (-v.cpos.w ≤ v.cpos.y ∧ v.cpos.y ≤ v.cpos.w) ∧
       (-v.cpos.w ≤ v.cpos.z ∧ v.cpos.z ≤ v.cpos.w) ∧
       0 ≤ v.cpos.w ∧
       (∀ plane ∈ ViewLines, Inside plane.x plane.y plane.z plane.w v.cpos = true)) := by
  have hmem : (⟨1, 2 / 3, 0, 1⟩ : Vec4) ∈
      (cliping (vertexAt ⟨3, 0, 0, 1⟩) (vertexAt ⟨0, 0, 0, 1⟩) (vertexAt ⟨0, 1, 0, 1⟩)).map
        (fun v => v.cpos) := by
    rw [cliping_sample_cpos]
    exact List.mem_cons_self _ _
  obtain ⟨v, hv, hc⟩ := List.mem_map.1 hmem
  exact ⟨v, hv, hc, cliping_result_in_frustum _ _ _ v hv⟩

/-! ### The same functions in binary32: where rounding changes the result -/

/-- C17 (counterexample in binary32): for the NDC positions `(0, 0)`,
`(2049/8192, 4097/16384)`, `(8195/16384, 8193/16384)` the xy signed area is
`-2^-28`, strictly negative, and `isTowardBackFace` returns false: the two
products of the cross product round to the same `float`. -/
theorem isTowardBackFaceF_misses_thin_triangle :
    signedAreaXY thinTriangle.1.toRat thinTriangle.2.1.toRat thinTriangle.2.2.toRat
      = -(1 / 268435456) ∧
    signedAreaXY thinTriangle.1.toRat thinTriangle.2.1.toRat thinTriangle.2.2.toRat < 0 ∧
    isTowardBackFaceF thinTriangle.1 thinTriangle.2.1 thinTriangle.2.2 = false := by
  have h : signedAreaXY thinTriangle.1.toRat thinTriangle.2.1.toRat thinTriangle.2.2.toRat
      = -(1 / 268435456) := by
    norm_num [signedAreaXY, thinTriangle, Vec4F.toRat, F32.toRat, F32.zero, F32.one]
  refine ⟨h, ?_, by decide⟩
  rw [h]
  norm_num

set_option maxRecDepth 100000 in
/-- C2 (counterexample in binary32): the triangle with clip-space positions
`(-2, y, -2, 1)`, `(-2, y, -1, 1)`, `(0, y, 2, 1)`, `y = -(1 + 2^-23)`, has its
three vertices strictly outside the bottom plane `(0, 1, 0, 1)` (`y + w < 0`,
which the program's own `Inside` confirms), and `cliping` returns 4 vertices: the
vertices cut on the earlier planes get `y` rounded to -1, on the plane. -/
theorem clipingF_outside_bottom_not_empty :
    ((⟨0, 1, 0, 1⟩ : Vec4) ∈ ViewLines ∧
      planeDot ⟨0, 1, 0, 1⟩ lowTriangle0.cpos.toRat < 0 ∧
      planeDot ⟨0, 1, 0, 1⟩ lowTriangle1.cpos.toRat < 0 ∧
      planeDot ⟨0, 1, 0, 1⟩ lowTriangle2.cpos.toRat < 0) ∧
    (InsideF F32.zero F32.one F32.zero F32.one lowTriangle0.cpos = false ∧
      InsideF F32.zero F32.one F32.zero F32.one lowTriangle1.cpos = false ∧
      InsideF F32.zero F32.one F32.zero F32.one lowTriangle2.cpos = false) ∧
    (clipingF lowTriangle0 lowTriangle1 lowTriangle2).length = 4 ∧
    clipingF lowTriangle0 lowTriangle1 lowTriangle2 ≠ [] := by
  have hlen : (clipingF lowTriangle0 lowTriangle1 lowTriangle2).length = 4 := by decide
  refine ⟨⟨by simp [ViewLines], ?_, ?_, ?_⟩, ⟨by decide, by decide, by decide⟩, hlen, ?_⟩
  · norm_num [planeDot, lowTriangle0, vertexAtF, Vec4F.toRat, F32.toRat, belowMinusOne, F32.one]
  · norm_num [planeDot, lowTriangle1, vertexAtF, Vec4F.toRat, F32.toRat, belowMinusOne, F32.one]
  · norm_num [planeDot, lowTriangle2, vertexAtF, Vec4F.toRat, F32.toRat, belowMinusOne, F32.one]
  · intro h
    rw [h] at hlen
    exact absurd hlen (by decide)

theorem nearEdgePoint_toRat : nearEdgePoint.toRat = ⟨5705 / 4, 8107 / 4⟩ := by
  norm_num [nearEdgePoint, Vec2F.toRat, F32.toRat]

/-- The point `(1426.25, 2026.75)` is not in the closed triangle `(840, 964)`,
`(147, 3563)`, `(3039, 90)`: its exact value for the edge from `v1` to `v2` is
`-1/4`, of the sign no point of the triangle has. -/
theorem nearEdgePoint_outside :
    ¬ inClosedTriangle ⟨840, 964⟩ ⟨147, 3563⟩ ⟨3039, 90⟩ nearEdgePoint.toRat := by
  rintro ⟨a, b, c, ha, _, _, hsum, hx, hy⟩
  obtain ⟨_, e1, _⟩ := edgeCrossZ_of_combination ⟨840, 964⟩ ⟨147, 3563⟩ ⟨3039, 90⟩
    nearEdgePoint.toRat a b c hsum hx hy
  have hD : doubleArea ⟨840, 964⟩ ⟨147, 3563⟩ ⟨3039, 90⟩ = -5109519 := by decide
  have hv : edgeCrossZ ⟨147, 3563⟩ ⟨3039, 90⟩ nearEdgePoint.toRat = -(1 / 4) := by
    rw [nearEdgePoint_toRat]
    norm_num [edgeCrossZ]
  rw [hv, hD] at e1
  push_cast at e1
  linarith

/-- C25 (counterexample in binary32): for the non-collinear triangle `(840, 964)`,
`(147, 3563)`, `(3039, 90)` and the point `p = (1426.25, 2026.75)`, which lies
outside the closed triangle, `InsideTriangle` returns true: the product
`1279.25 * 3473` rounds to `4442835`, so the value tested for the second edge is
0 where the exact value is `-1/4`. -/
theorem InsideTriangleF_accepts_outside_point :
    doubleArea ⟨840, 964⟩ ⟨147, 3563⟩ ⟨3039, 90⟩ ≠ 0 ∧
    ¬ inClosedTriangle ⟨840, 964⟩ ⟨147, 3563⟩ ⟨3039, 90⟩ nearEdgePoint.toRat ∧
    InsideTriangleF ⟨840, 964⟩ ⟨147, 3563⟩ ⟨3039, 90⟩ nearEdgePoint = true ∧
    InsideTriangle ⟨840, 964⟩ ⟨147, 3563⟩ ⟨3039, 90⟩ nearEdgePoint.toRat = false := by
  have hD : doubleArea ⟨840, 964⟩ ⟨147, 3563⟩ ⟨3039, 90⟩ ≠ 0 := by decide
  refine ⟨hD, nearEdgePoint_outside, by decide, ?_⟩
  rw [← Bool.not_eq_true]
  intro hin
  exact nearEdgePoint_outside (inClosedTriangle_of_InsideTriangle _ _ _ _ hD hin)

/-! ### Sanity of the binary32 model -/

theorem bitLengthAux_bounds (fuel n : Nat) (hf : n ≤ fuel) (hn : n ≠ 0) :
    2 ^ (bitLengthAux fuel n - 1) ≤ n ∧ n < 2 ^ bitLengthAux fuel n := by
  induction fuel generalizing n with
  | zero => omega
  | succ f ih =>
      simp only [bitLengthAux, hn, if_false]
      by_cases h2 : n / 2 = 0
      · have h1 : n = 1 := by omega
        subst h1
        cases f <;> simp [bitLengthAux]
      · have hle : n / 2 ≤ f := by omega
        obtain ⟨l, u⟩ := ih (n / 2) hle h2
        have hpos : 1 ≤ bitLengthAux f (n / 2) := by
          by_contra hc
          have hz : bitLengthAux f (n / 2) = 0 := by omega
          rw [hz] at u
          simp at u
          exact h2 u
        have e1 : bitLengthAux f (n / 2) + 1 - 1 = (bitLengthAux f (n / 2) - 1) + 1 := by omega
        rw [e1, pow_succ, pow_succ]
        constructor <;> omega

/-- The number `bitLength n` is the number of binary digits of `n`. -/
theorem bitLength_bounds (n : Nat) (hn : n ≠ 0) :
    2 ^ (bitLength n - 1) ≤ n ∧ n < 2 ^ bitLength n :=
  bitLengthAux_bounds n n (le_refl n) hn

/-- Rounding leaves a number with at most 24 significant bits and an exponent of at
least -149 unchanged. -/
theorem F32.round_of_representable (m e : Int) (hm : m.natAbs < 2 ^ 24) (he : -149 ≤ e)
    (h0 : m ≠ 0) : F32.round m e = ⟨m, e⟩ := by
  have hn : m.natAbs ≠ 0 := Int.natAbs_ne_zero.2 h0
  have hb : bitLength m.natAbs ≤ 24 := by
    by_contra hc
    have h25 : 25 ≤ bitLength m.natAbs := by omega
    have hl := (bitLength_bounds m.natAbs hn).1
    have hp : 2 ^ 24 ≤ 2 ^ (bitLength m.natAbs - 1) :=
      Nat.pow_le_pow_right (by decide) (by omega)
    omega
  have hs : (max (max ((bitLength m.natAbs : Int) - 24) (-149 - e)) 0).toNat = 0 := by
    have h1 : (bitLength m.natAbs : Int) - 24 ≤ 0 := by omega
    have h2 : -149 - e ≤ 0 := by omega
    have h3 : max (max ((bitLength m.natAbs : Int) - 24) (-149 - e)) 0 = 0 := by
      apply max_eq_right
      exact max_le h1 h2
    rw [h3]
    rfl
  simp only [F32.round, hn, if_false, hs, if_true]

/-- Sample roundings: `1/3` and `1/10` as the binary32 quotients `0x3EAAAAAB` and
`0x3DCCCCCD`, and the integers `16777217`, `33554435` rounded to 24 bits. -/
theorem F32_sample_roundings :
    F32.div F32.one ⟨3, 0⟩ = ⟨11184811, -25⟩ ∧
    F32.div F32.one ⟨10, 0⟩ = ⟨13421773, -27⟩ ∧
    F32.ofInt 16777217 = ⟨8388608, 1⟩ ∧
    F32.ofInt 33554435 = ⟨8388609, 2⟩ ∧
    F32.mul ⟨5117, -2⟩ ⟨-3473, 0⟩ = ⟨-8885670, -1⟩ := by
  decide

end TinyRenderer
